import Mathlib

/-!
# vcluster-hostpath-mapper: the mapping reconciler

A shallow embedding of `cmd/hostpaths/hostpaths.go`.

* Go strings are `String`; `strings.Split`, `strings.Cut` and `fmt.Sprintf`
  are written out on the characters.
* A path is kept as the list of its components (`Path`).  `filepath.Join`
  cleans its result, and a cleaned absolute path and its list of components
  determine each other, so the maps keyed by joined paths are lists of `Path`.
  All roots of the program are absolute.
* The file system is an explicit state (`FS`): a table from paths to nodes,
  threaded through every function that touches the disk.  Paths are walked
  lexically: a symbolic link is an entry like any other, `os.Stat` follows the
  link it is pointed at, and no operation walks through a link that stands in
  the middle of a path.  `pinned` lists the paths whose removal the system
  refuses, which is how a failing `os.RemoveAll` is represented: the call
  removes what it can, leaves the pinned paths with the directories above
  them, and reports the refusal.
* A Go map that is only asked for the presence of a key is the list of its
  keys; `PhysicalPodMap` is an association list.
* What the program takes from other packages (the name translation, the
  mount-path constants of `podtranslate`, the cached clients) is a parameter.
* The host cluster is read through client structures whose answers are
  parameters as well: `Get` of a secret or a workload answers with the object
  or with an error, `Delete` removes the pod from the listing unless the API
  server answers with an error.  An index out of range is the outcome
  `panicked`.
-/

namespace Hostpaths

/-! ## Strings -/

/-- Pieces of a character list between the occurrences of `sep`. -/
def splitChars (sep : Char) : List Char → List (List Char)
  | [] => [[]]
  | c :: cs =>
    if c = sep then [] :: splitChars sep cs
    else
      match splitChars sep cs with
      | [] => [[c]]
      | h :: t => (c :: h) :: t

/-- Go `strings.Split(s, sep)` for a separator of one character. -/
def stringsSplit (s : String) (sep : Char) : List String :=
  (splitChars sep s.data).map String.mk

/-- What follows the first occurrence of `sep`, when there is one. -/
def cutAfterChars (sep : List Char) : List Char → Option (List Char)
  | [] => if sep = [] then some [] else none
  | c :: cs =>
    if sep.isPrefixOf (c :: cs) then some ((c :: cs).drop sep.length)
    else cutAfterChars sep cs

/-- The second result of Go `strings.Cut(s, sep)`: the text after the first
`sep`, and the empty string when `sep` does not occur. -/
def stringsCutAfter (s sep : String) : String :=
  match cutAfterChars sep.data s.data with
  | some r => String.mk r
  | none => ""

/-- Go `fmt.Sprintf("%s_%s", a, b)`. -/
def sprintf2 (a b : String) : String := a ++ "_" ++ b

/-- Go `fmt.Sprintf("%s_%s_%s", a, b, c)`. -/
def sprintf3 (a b c : String) : String := a ++ "_" ++ b ++ "_" ++ c

/-- Go `fmt.Sprintf(ContainerSymlinkSourceTemplate, a, b, c, d)` with the
template `"%s_%s_%s-%s.log"`. -/
def ContainerSymlinkSourceTemplate (a b c d : String) : String :=
  a ++ "_" ++ b ++ "_" ++ c ++ "-" ++ d ++ ".log"

/-- Order of two character lists by code point, the order of Go strings. -/
def charsLe : List Char → List Char → Bool
  | [], _ => true
  | _ :: _, [] => false
  | a :: as, b :: bs => a.toNat < b.toNat || (a.toNat = b.toNat && charsLe as bs)

/-! ## Paths -/

/-- An absolute, cleaned path: its components from the root down. -/
abbrev Path := List String

/-- Lexical cleaning of a run of components onto a cleaned base: empty
components and `.` vanish, `..` drops the last component (and stays at the
root). -/
def cleanInto : Path → List String → Path
  | acc, [] => acc
  | acc, c :: rest =>
    if c = "" ∨ c = "." then cleanInto acc rest
    else if c = ".." then cleanInto acc.dropLast rest
    else cleanInto (acc ++ [c]) rest

/-- Go `filepath.Join(base, elems...)` for an absolute cleaned `base`. -/
def filepathJoin (base : Path) (elems : List String) : Path :=
  cleanInto base (elems.flatMap (fun e => stringsSplit e '/'))

/-- The text of a path. -/
def pathString (p : Path) : String := "/" ++ "/".intercalate p

/-- The path a text denotes when met in the directory `dir`. -/
def parsePath (dir : Path) (s : String) : Path :=
  match s.data with
  | '/' :: _ => filepathJoin [] [s]
  | _ => filepathJoin dir [s]

/-- A name a directory entry can bear: one component, not empty, not `.` or
`..`, without a slash. -/
def plainName (s : String) : Bool :=
  s ≠ "" && s ≠ "." && s ≠ ".." && !s.data.contains '/'

/-! ## The cluster objects -/

structure ContainerStatus where
  Name : String
  ContainerID : String
deriving DecidableEq, Repr

/-- A volume of a pod: `VolumeSource.HostPath`, with its `Path` when set. -/
structure Volume where
  HostPath : Option String
deriving DecidableEq, Repr

structure Pod where
  Name : String
  Namespace : String
  UID : String
  ContainerStatuses : List ContainerStatus := []
  Volumes : List Volume := []
deriving DecidableEq, Repr, Inhabited

structure PodDetail where
  Target : String
  SymLinkName : Option String := none
  PhysicalPod : Pod
deriving DecidableEq, Repr, Inhabited

/-- Map of physical pod names to the detail kept for them. -/
abbrev PhysicalPodMap := List (String × PodDetail)

/-- Go `m[k]` with the comma-ok form. -/
def PhysicalPodMap.get (m : PhysicalPodMap) (k : String) : Option PodDetail :=
  match m with
  | [] => none
  | (k', d) :: rest => if k' = k then some d else PhysicalPodMap.get rest k

/-- Go `m[k] = d` for a key that is absent. -/
def PhysicalPodMap.put (m : PhysicalPodMap) (k : String) (d : PodDetail) : PhysicalPodMap :=
  m ++ [(k, d)]

structure VirtualClusterOptions where
  MultiNamespaceMode : Bool
  TargetNamespace : String
  Name : String
  VirtualLogsPath : Path
  VirtualPodLogsPath : Path
  VirtualContainerLogsPath : Path
  VirtualKubeletPodPath : Path

/-- The four roots as `Start` derives them from the virtual path. -/
def startOptions (multi : Bool) (targetNamespace name : String) (virtualPath : Path) :
    VirtualClusterOptions :=
  let logs := filepathJoin virtualPath ["log"]
  { MultiNamespaceMode := multi
    TargetNamespace := targetNamespace
    Name := name
    VirtualKubeletPodPath := filepathJoin virtualPath ["kubelet", "pods"]
    VirtualLogsPath := logs
    VirtualPodLogsPath := filepathJoin logs ["pods"]
    VirtualContainerLogsPath := filepathJoin logs ["containers"] }

/-- What the program uses of the vcluster packages: the active name
translation (`translate.Default.HostName(nil, name, namespace).Name`) and the
mount paths of `podtranslate`. -/
structure Translate where
  HostName : String → String → String
  PhysicalPodLogVolumeMountPath : Path
  PhysicalKubeletVolumeMountPath : Path

def LogsMountPath : Path := ["var", "log"]

def PodLogsMountPath : Path := ["var", "log", "pods"]

/-! ## Namespace filter -/

/-- The pods of `podList` whose namespace is a key of `vclusterNamespaces`. -/
def filter (podList : List Pod) (vclusterNamespaces : List String) : List Pod :=
  podList.foldl
    (fun pods pod => if pod.Namespace ∈ vclusterNamespaces then pods ++ [pod] else pods) []

/-- The pod list of `Test_filter`. -/
def testPodList : List Pod :=
  [ { Name := "test-pod1", Namespace := "test-ns1", UID := "" },
    { Name := "test-pod2", Namespace := "test-ns2", UID := "" } ]

/-! ## The file system -/

inductive Errno where
  | EEXIST | ENOENT | ENOTDIR | EINVAL | EPERM | ELOOP
deriving DecidableEq, Repr, Inhabited

deriving instance DecidableEq for Except

/-- A Go `error` value of the program: an error of the operating system, an
error of a client, the answer of the API server that the named object is not
found, an error made by `fmt.Errorf` or by a decoder from a message alone, or
one wrapped by `fmt.Errorf("...: %w", err)`. -/
inductive GoError where
  | sys (e : Errno)
  | api (msg : String)
  | notFound (name : String)
  | errorf (msg : String)
  | wrap (msg : String) (inner : GoError)
deriving DecidableEq, Repr

/-- Go `kerrors.IsNotFound(err)` for an error that is not nil: the reason of
the status error found in the chain of `err`. -/
def GoError.IsNotFound : GoError → Bool
  | .notFound _ => true
  | .wrap _ inner => inner.IsNotFound
  | _ => false

inductive Node where
  | dir
  | file
  | link (target : String)
deriving DecidableEq, Repr, Inhabited

/-- The state of the disk: the entries below the root, and the paths whose
removal is refused. -/
structure FS where
  entries : List (Path × Node)
  pinned : List Path := []
deriving DecidableEq, Repr, Inhabited

/-- First node recorded for `p` in a table. -/
def lookupIn : List (Path × Node) → Path → Option Node
  | [], _ => none
  | (k, n) :: rest, p => if k = p then some n else lookupIn rest p

/-- The node at `p`, without following a link; the root is a directory. -/
def FS.lookup (fs : FS) (p : Path) : Option Node :=
  if p = [] then some Node.dir else lookupIn fs.entries p

/-- Names of the entries recorded directly under `p`. -/
def childNames (entries : List (Path × Node)) (p : Path) : List String :=
  entries.filterMap (fun e =>
    match e.1.getLast? with
    | some name => if e.1.dropLast = p then some name else none
    | none => none)

/-- Go `sort.Slice` by file name, as `os.ReadDir` applies it. -/
def sortNames (names : List String) : List String :=
  List.insertionSort (fun a b => charsLe a.data b.data = true) names

/-- Go `os.ReadDir(p)`: the names of the entries of the directory `p`, sorted
by file name. -/
def osReadDir (fs : FS) (p : Path) : Except Errno (List String) :=
  match fs.lookup p with
  | none => .error Errno.ENOENT
  | some Node.dir => .ok (sortNames (childNames fs.entries p).dedup)
  | some _ => .error Errno.ENOTDIR

/-- Go `os.Readlink(p)`: the target recorded in the link `p`. -/
def osReadlink (fs : FS) (p : Path) : Except Errno String :=
  match fs.lookup p with
  | none => .error Errno.ENOENT
  | some (Node.link t) => .ok t
  | some _ => .error Errno.EINVAL

/-- Go `os.Symlink(target, linkpath)`. -/
def osSymlink (fs : FS) (target : String) (linkpath : Path) : FS × Option Errno :=
  match fs.lookup linkpath with
  | some _ => (fs, some Errno.EEXIST)
  | none =>
    match fs.lookup linkpath.dropLast with
    | some Node.dir =>
      ({ fs with entries := fs.entries ++ [(linkpath, Node.link target)] }, none)
    | some _ => (fs, some Errno.ENOTDIR)
    | none => (fs, some Errno.ENOENT)

/-- The system refuses to remove `p`: `p` is pinned, or it is a directory above
a pinned path, which cannot go while that path stays. -/
def FS.refuses (fs : FS) (p : Path) : Prop :=
  ∃ q ∈ fs.pinned, p <+: q

instance (fs : FS) (p : Path) : Decidable (fs.refuses p) := by
  unfold FS.refuses; infer_instance

/-- Go `os.RemoveAll(p)`: what stands at and below `p` goes, and a missing `p`
is no error. The call removes what it can: an entry whose removal is refused
stays, everything else at and below `p` goes, and the refusal is reported. -/
def osRemoveAll (fs : FS) (p : Path) : FS × Option Errno :=
  ({ fs with entries := fs.entries.filter (fun e => ¬ p <+: e.1 ∨ fs.refuses e.1) },
    if ∃ e ∈ fs.entries, p <+: e.1 ∧ fs.refuses e.1 then some Errno.EPERM else none)

/-- The walk of `os.MkdirAll`: every missing directory from `cur` down the
components `rest` is made. -/
def mkdirWalk : FS → Path → List String → FS × Option Errno
  | fs, _, [] => (fs, none)
  | fs, cur, c :: rest =>
    match fs.lookup (cur ++ [c]) with
    | some Node.dir => mkdirWalk fs (cur ++ [c]) rest
    | none =>
      mkdirWalk { fs with entries := fs.entries ++ [(cur ++ [c], Node.dir)] } (cur ++ [c]) rest
    | some _ => (fs, some Errno.ENOTDIR)

/-- Go `os.MkdirAll(p, perm)`. -/
def osMkdirAll (fs : FS) (p : Path) : FS × Option Errno :=
  mkdirWalk fs [] p

/-- Go `os.Stat(p)` with a bound on the links followed from `p`; a path below a
regular file is `ENOTDIR`, any other path without entry `ENOENT`. -/
def statWalk (fs : FS) : Nat → Path → Except Errno Node
  | 0, _ => .error Errno.ELOOP
  | n + 1, p =>
    match fs.lookup p with
    | none =>
      if ∃ q ∈ p.inits, fs.lookup q = some Node.file then .error Errno.ENOTDIR
      else .error Errno.ENOENT
    | some (Node.link t) => statWalk fs n (parsePath p.dropLast t)
    | some nd => .ok nd

/-- Go `os.Stat(p)`; the system gives up after 40 links. -/
def osStat (fs : FS) (p : Path) : Except Errno Node :=
  statWalk fs 41 p

/-- Every component of every recorded path is a plain name. -/
def FS.WF (fs : FS) : Prop :=
  ∀ e ∈ fs.entries, ∀ c ∈ e.1, plainName c = true

instance (fs : FS) : Decidable fs.WF := by
  unfold FS.WF; infer_instance

/-- The path `p` and all the paths above it are directories. -/
def FS.dirChain (fs : FS) (p : Path) : Prop :=
  ∀ q ∈ p.inits, fs.lookup q = some Node.dir

instance (fs : FS) (p : Path) : Decidable (fs.dirChain p) := by
  unfold FS.dirChain; infer_instance

/-! ## The cached clients -/

/-- A manager's client as far as the program uses it: the pods of this node
(the field selector on `spec.nodeName` is applied by the cache), the
namespaces carrying the vcluster label with a given value, and the error, if
any, with which the API server answers the deletion of a pod. -/
structure Client where
  Pods : List Pod
  ListPodsErr : Option GoError := none
  ListNamespaces : String → Except GoError (List String) := fun _ => .ok []
  DeleteErr : Pod → Option GoError := fun _ => none

/-- Go `GetClient().List(ctx, podList, opts)`: the pods of the node, of the
namespace `ns` when the options name one. -/
def Client.listPods (c : Client) (ns : Option String) : Except GoError (List Pod) :=
  match c.ListPodsErr with
  | some err => .error err
  | none =>
    match ns with
    | none => .ok c.Pods
    | some n => .ok (c.Pods.filter (fun pod => pod.Namespace = n))

/-! ## Physical pod locator -/

/-- Go `checkIfPathExists`: whether `os.Stat` finds the path under the pod-logs
mount. -/
def checkIfPathExists (fs : FS) (path : String) : Bool × Option GoError :=
  let fullPath := filepathJoin PodLogsMountPath [path]
  match osStat fs fullPath with
  | .error err =>
    if err = Errno.ENOENT then (false, none) else (false, some (GoError.sys err))
  | .ok _ => (true, none)

/-- The loop of `getPhysicalPodMap` over the candidate pods. -/
def podMappingsLoop (fs : FS) : List Pod → PhysicalPodMap → PhysicalPodMap
  | [], podMappings => podMappings
  | pPod :: rest, podMappings =>
    let lookupName := sprintf3 pPod.Namespace pPod.Name pPod.UID
    let ok := (checkIfPathExists fs lookupName).1
    if ok then
      match podMappings.get pPod.Name with
      | some _ => podMappingsLoop fs rest podMappings
      | none =>
        podMappingsLoop fs rest
          (podMappings.put pPod.Name { Target := lookupName, PhysicalPod := pPod })
    else podMappingsLoop fs rest podMappings

/-- Go `getPhysicalPodMap`. -/
def getPhysicalPodMap (options : VirtualClusterOptions) (pManager : Client) (fs : FS) :
    Except GoError PhysicalPodMap :=
  let ns := if options.MultiNamespaceMode then none else some options.TargetNamespace
  match pManager.listPods ns with
  | .error err => .error (GoError.wrap "unable to list pods" err)
  | .ok items =>
    if options.MultiNamespaceMode then
      match pManager.ListNamespaces options.TargetNamespace with
      | .error err => .error (GoError.wrap "unable to list namespaces" err)
      | .ok vclusterNamespaces =>
        .ok (podMappingsLoop fs (filter items vclusterNamespaces) [])
    else .ok (podMappingsLoop fs items [])

/-! ## Symlink creation -/

/-- Go `createPodLogSymlinkToPhysical`. -/
def createPodLogSymlinkToPhysical (fs : FS) (vPodDirName : Path) (pPodDirName : String) :
    FS × Except GoError Path :=
  match osSymlink fs pPodDirName vPodDirName with
  | (fs1, some err) =>
    if err = Errno.EEXIST then (fs1, .ok vPodDirName) else (fs1, .error (GoError.sys err))
  | (fs1, none) => (fs1, .ok vPodDirName)

/-- The loop of `createKubeletVirtualToPhysicalPodLinks` over the contents of
the physical pod directory. -/
def kubeletLinksLoop (vPodDirName pPodDirName : Path) : List String → FS → FS × Option GoError
  | [], fs => (fs, none)
  | content :: rest, fs =>
    let fullKubeletVirtualPodPath := filepathJoin vPodDirName [content]
    let fullKubeletPhysicalPodPath := filepathJoin pPodDirName [content]
    match osSymlink fs (pathString fullKubeletPhysicalPodPath) fullKubeletVirtualPodPath with
    | (fs1, some err) =>
      if err = Errno.EEXIST then kubeletLinksLoop vPodDirName pPodDirName rest fs1
      else (fs1, some (GoError.wrap "error creating symlink" (GoError.sys err)))
    | (fs1, none) => kubeletLinksLoop vPodDirName pPodDirName rest fs1

/-- Go `createKubeletVirtualToPhysicalPodLinks`. -/
def createKubeletVirtualToPhysicalPodLinks (fs : FS) (vPodDirName pPodDirName : Path) :
    FS × Option GoError :=
  match osMkdirAll fs vPodDirName with
  | (fs1, some err) =>
    (fs1, some (GoError.wrap "error creating vPod kubelet directory" (GoError.sys err)))
  | (fs1, none) =>
    match osReadDir fs1 pPodDirName with
    | .error err =>
      (fs1, some (GoError.wrap "error reading physical kubelet pod dir" (GoError.sys err)))
    | .ok contents => kubeletLinksLoop vPodDirName pPodDirName contents fs1

/-- Go `getPhysicalLogFilename`: the last segment of the target of the
physical container link. -/
def getPhysicalLogFilename (fs : FS) (physicalContainerFileName : String) :
    Except GoError String :=
  let pContainerFilePath := filepathJoin LogsMountPath ["containers", physicalContainerFileName]
  match osReadlink fs pContainerFilePath with
  | .error err => .error (GoError.sys err)
  | .ok pDestination =>
    let splits := stringsSplit pDestination '/'
    .ok (splits.getLastD "")

/-- The loop of `createContainerToPodSymlink` over the container statuses. -/
def containerLinksLoop (options : VirtualClusterOptions) (vPod : Pod) (pPodDetail : PodDetail)
    (targetDir : Path) : List ContainerStatus → FS → FS × Option GoError
  | [], fs => (fs, none)
  | containerStatus :: rest, fs =>
    let containerID := stringsCutAfter containerStatus.ContainerID "://"
    let containerName := containerStatus.Name
    let source := ContainerSymlinkSourceTemplate vPod.Name vPod.Namespace containerName containerID
    let pPod := pPodDetail.PhysicalPod
    let physicalContainerFileName :=
      ContainerSymlinkSourceTemplate pPod.Name pPod.Namespace containerName containerID
    match getPhysicalLogFilename fs physicalContainerFileName with
    | .error _ => containerLinksLoop options vPod pPodDetail targetDir rest fs
    | .ok physicalLogFileName =>
      let target := pathString (filepathJoin targetDir [containerName, physicalLogFileName])
      let source := filepathJoin options.VirtualContainerLogsPath [source]
      match osSymlink fs target source with
      | (fs1, some err) =>
        if err = Errno.EEXIST then containerLinksLoop options vPod pPodDetail targetDir rest fs1
        else (fs1, some (GoError.wrap "error creating container to pod symlink" (GoError.sys err)))
      | (fs1, none) => containerLinksLoop options vPod pPodDetail targetDir rest fs1

/-- Go `createContainerToPodSymlink`. -/
def createContainerToPodSymlink (options : VirtualClusterOptions) (fs : FS) (vPod : Pod)
    (pPodDetail : PodDetail) (targetDir : Path) : FS × Option GoError :=
  containerLinksLoop options vPod pPodDetail targetDir vPod.ContainerStatuses fs

/-! ## Cleanup -/

/-- The inner loop of `cleanupOldPodPath` on the kubelet root: a grandchild
whose `os.Readlink` fails is removed. -/
def cleanupKubeletLinks (fullVPodDirDiskPath : Path) : List String → FS → FS
  | [], fs => fs
  | sl :: rest, fs =>
    let target := filepathJoin fullVPodDirDiskPath [sl]
    match osReadlink fs target with
    | .error _ => cleanupKubeletLinks fullVPodDirDiskPath rest (osRemoveAll fs target).1
    | .ok _ => cleanupKubeletLinks fullVPodDirDiskPath rest fs

/-- The body of the loop of `cleanupOldPodPath` for one entry of the root. -/
def cleanupPodDirEntry (options : VirtualClusterOptions) (cleanupDirPath : Path)
    (existingPodPathsFromAPIServer : List Path) (fs : FS) (name : String) : FS :=
  let fullVPodDirDiskPath := filepathJoin cleanupDirPath [name]
  if fullVPodDirDiskPath ∈ existingPodPathsFromAPIServer then fs
  else if cleanupDirPath = options.VirtualKubeletPodPath then
    let symlinks :=
      match osReadDir fs fullVPodDirDiskPath with
      | .error _ => []
      | .ok l => l
    cleanupKubeletLinks fullVPodDirDiskPath symlinks fs
  else (osRemoveAll fs fullVPodDirDiskPath).1

/-- Go `cleanupOldPodPath`. -/
def cleanupOldPodPath (options : VirtualClusterOptions) (fs : FS) (cleanupDirPath : Path)
    (existingPodPathsFromAPIServer : List Path) : FS × Option GoError :=
  match osReadDir fs cleanupDirPath with
  | .error err => (fs, some (GoError.sys err))
  | .ok vPodDirsOnDisk =>
    (vPodDirsOnDisk.foldl
      (cleanupPodDirEntry options cleanupDirPath existingPodPathsFromAPIServer) fs, none)

/-- How a call ends: it returns (with or without an error) or it panics. -/
inductive Outcome where
  | returned (err : Option GoError)
  | panicked
deriving DecidableEq, Repr

/-- The loop of `cleanupOldContainerPaths` over the entries of the
container-logs root. -/
def cleanupContainerEntries (options : VirtualClusterOptions) (existingVPodsWithNS : List String) :
    List String → FS → FS × Outcome
  | [], fs => (fs, Outcome.returned none)
  | name :: rest, fs =>
    match stringsSplit name '_' with
    | vPodOnDiskName :: vPodOnDiskNS :: _ =>
      if sprintf2 vPodOnDiskName vPodOnDiskNS ∈ existingVPodsWithNS then
        cleanupContainerEntries options existingVPodsWithNS rest fs
      else
        let fullPathToCleanup := filepathJoin options.VirtualContainerLogsPath [name]
        cleanupContainerEntries options existingVPodsWithNS rest (osRemoveAll fs fullPathToCleanup).1
    | _ => (fs, Outcome.panicked)

/-- Go `cleanupOldContainerPaths`. -/
def cleanupOldContainerPaths (options : VirtualClusterOptions) (fs : FS)
    (existingVPodsWithNS : List String) : FS × Outcome :=
  match osReadDir fs options.VirtualContainerLogsPath with
  | .error err => (fs, Outcome.returned (some (GoError.sys err)))
  | .ok vPodsContainersOnDisk =>
    cleanupContainerEntries options existingVPodsWithNS vPodsContainersOnDisk fs

/-! ## The reconciler pass -/

/-- The disk and the three maps of a pass. -/
structure PassState where
  fs : FS
  existingVPodsWithNamespace : List String := []
  existingPodsPath : List Path := []
  existingKubeletPodsPath : List Path := []
deriving DecidableEq, Repr

/-- The body of the loop of `mapFunc` for one virtual pod; an error ends the
pass. -/
def mapPodStep (tr : Translate) (options : VirtualClusterOptions) (podMappings : PhysicalPodMap)
    (vPod : Pod) (st : PassState) : PassState × Option GoError :=
  let st1 := { st with
    existingVPodsWithNamespace :=
      sprintf2 vPod.Name vPod.Namespace :: st.existingVPodsWithNamespace }
  let pName := tr.HostName vPod.Name vPod.Namespace
  match podMappings.get pName with
  | none => (st1, none)
  | some podDetail =>
    let source :=
      filepathJoin options.VirtualPodLogsPath [sprintf3 vPod.Namespace vPod.Name vPod.UID]
    let target := pathString (filepathJoin tr.PhysicalPodLogVolumeMountPath [podDetail.Target])
    let st2 := { st1 with existingPodsPath := source :: st1.existingPodsPath }
    match createPodLogSymlinkToPhysical st2.fs source target with
    | (fs1, .error err) =>
      ({ st2 with fs := fs1 }, some (GoError.wrap "unable to create symlink" err))
    | (fs1, .ok _) =>
      let kubeletPodSymlinkSource := filepathJoin options.VirtualKubeletPodPath [vPod.UID]
      let kubeletPodSymlinkTarget :=
        filepathJoin tr.PhysicalKubeletVolumeMountPath [podDetail.PhysicalPod.UID]
      let st3 := { st2 with
        fs := fs1
        existingKubeletPodsPath := kubeletPodSymlinkSource :: st2.existingKubeletPodsPath }
      match createKubeletVirtualToPhysicalPodLinks st3.fs kubeletPodSymlinkSource
          kubeletPodSymlinkTarget with
      | (fs2, some err) => ({ st3 with fs := fs2 }, some err)
      | (fs2, none) =>
        let containerSymlinkTargetDir :=
          filepathJoin PodLogsMountPath [sprintf3 vPod.Namespace vPod.Name vPod.UID]
        match createContainerToPodSymlink options fs2 vPod podDetail
            containerSymlinkTargetDir with
        | (fs3, some err) => ({ st3 with fs := fs3 }, some err)
        | (fs3, none) => ({ st3 with fs := fs3 }, none)

/-- The loop of `mapFunc` over the virtual pods. -/
def mapPodsLoop (tr : Translate) (options : VirtualClusterOptions) (podMappings : PhysicalPodMap) :
    List Pod → PassState → PassState × Option GoError
  | [], st => (st, none)
  | vPod :: rest, st =>
    match mapPodStep tr options podMappings vPod st with
    | (st1, some err) => (st1, some err)
    | (st1, none) => mapPodsLoop tr options podMappings rest st1

/-- The three cleanup calls at the end of a pass; their errors are logged. -/
def cleanupPass (options : VirtualClusterOptions) (st : PassState) : FS × Outcome :=
  let fs1 := (cleanupOldPodPath options st.fs options.VirtualPodLogsPath st.existingPodsPath).1
  match cleanupOldContainerPaths options fs1 st.existingVPodsWithNamespace with
  | (fs2, Outcome.panicked) => (fs2, Outcome.panicked)
  | (fs2, Outcome.returned _) =>
    let fs3 :=
      (cleanupOldPodPath options fs2 options.VirtualKubeletPodPath st.existingKubeletPodsPath).1
    (fs3, Outcome.returned none)

/-- Go `mapFunc`, one pass of the reconciler. -/
def mapFunc (tr : Translate) (options : VirtualClusterOptions) (pManager vManager : Client)
    (fs : FS) : FS × Outcome :=
  match getPhysicalPodMap options pManager fs with
  | .error _ => (fs, Outcome.returned none)
  | .ok podMappings =>
    match vManager.listPods none with
    | .error _ => (fs, Outcome.returned none)
    | .ok vPods =>
      match mapPodsLoop tr options podMappings vPods { fs := fs } with
      | (st, some err) => (st.fs, Outcome.returned (some err))
      | (st, none) => cleanupPass options st

/-! ## A concrete node -/

/-- The virtual cluster `vc` of namespace `ns`, single-namespace mode. -/
def exampleOptions : VirtualClusterOptions :=
  startOptions false "ns" "vc" ["tmp", "vcluster", "ns", "vc"]

def exampleTranslate : Translate :=
  { HostName := fun name ns => name ++ "-x-" ++ ns ++ "-x-vc"
    PhysicalPodLogVolumeMountPath := ["var", "vcluster", "physical", "log", "pods"]
    PhysicalKubeletVolumeMountPath := ["var", "vcluster", "physical", "kubelet", "pods"] }

def examplePhysicalPod : Pod :=
  { Name := "p1-x-ns1-x-vc", Namespace := "ns", UID := "pu1" }

def exampleVirtualPod : Pod :=
  { Name := "p1", Namespace := "ns1", UID := "u1"
    ContainerStatuses := [{ Name := "c1", ContainerID := "containerd://abc" }] }

def examplePManager : Client := { Pods := [examplePhysicalPod] }

def exampleVManager : Client := { Pods := [exampleVirtualPod] }

/-- The directories of the node before any pass. -/
def exampleDirs : List (Path × Node) :=
  [ (["tmp"], Node.dir), (["tmp", "vcluster"], Node.dir), (["tmp", "vcluster", "ns"], Node.dir),
    (["tmp", "vcluster", "ns", "vc"], Node.dir),
    (["tmp", "vcluster", "ns", "vc", "log"], Node.dir),
    (["tmp", "vcluster", "ns", "vc", "log", "pods"], Node.dir),
    (["tmp", "vcluster", "ns", "vc", "log", "containers"], Node.dir),
    (["tmp", "vcluster", "ns", "vc", "kubelet"], Node.dir),
    (["tmp", "vcluster", "ns", "vc", "kubelet", "pods"], Node.dir),
    (["var"], Node.dir), (["var", "log"], Node.dir), (["var", "log", "pods"], Node.dir),
    (["var", "log", "containers"], Node.dir),
    (["var", "vcluster"], Node.dir), (["var", "vcluster", "physical"], Node.dir),
    (["var", "vcluster", "physical", "kubelet"], Node.dir),
    (["var", "vcluster", "physical", "kubelet", "pods"], Node.dir) ]

/-- The physical pod `p1-x-ns1-x-vc` on disk: its log directory, the link of
its container `c1`, its kubelet directory; and what the kubelet has not yet
cleared of the kubelet directory `pu0` of an earlier pod. -/
def examplePhysical : List (Path × Node) :=
  [ (["var", "log", "pods", "ns_p1-x-ns1-x-vc_pu1"], Node.dir),
    (["var", "log", "containers", "p1-x-ns1-x-vc_ns_c1-abc.log"],
      Node.link "/var/log/pods/ns_p1-x-ns1-x-vc_pu1/c1/0.log"),
    (["var", "vcluster", "physical", "kubelet", "pods", "pu1"], Node.dir),
    (["var", "vcluster", "physical", "kubelet", "pods", "pu1", "volumes"], Node.dir),
    (["var", "vcluster", "physical", "kubelet", "pods", "pu1", "etc-hosts"], Node.file),
    (["var", "vcluster", "physical", "kubelet", "pods", "pu0"], Node.dir),
    (["var", "vcluster", "physical", "kubelet", "pods", "pu0", "etc-hosts"], Node.file) ]

/-- What an earlier virtual pod `old` (UID `u0`) left behind: its pod-log
link, a container link, and a kubelet directory holding a link whose target
still stands, a link whose target is gone and a stray file. -/
def exampleStale : List (Path × Node) :=
  [ (["tmp", "vcluster", "ns", "vc", "log", "pods", "ns1_old_u0"], Node.link "/gone"),
    (["tmp", "vcluster", "ns", "vc", "log", "containers", "old_ns1_c0-fff.log"],
      Node.link "/gone/c0/0.log"),
    (["tmp", "vcluster", "ns", "vc", "kubelet", "pods", "u0"], Node.dir),
    (["tmp", "vcluster", "ns", "vc", "kubelet", "pods", "u0", "etc-hosts"],
      Node.link "/var/vcluster/physical/kubelet/pods/pu0/etc-hosts"),
    (["tmp", "vcluster", "ns", "vc", "kubelet", "pods", "u0", "volumes"],
      Node.link "/var/vcluster/physical/kubelet/pods/pu0/volumes"),
    (["tmp", "vcluster", "ns", "vc", "kubelet", "pods", "u0", "stray"], Node.file) ]

def exampleFS : FS := { entries := exampleDirs ++ examplePhysical ++ exampleStale }

/-- The node with the log directory of a second physical pod of the same
name. -/
def exampleTwinFS : FS :=
  { entries := exampleFS.entries ++ [(["var", "log", "pods", "ns_p1-x-ns1-x-vc_pu2"], Node.dir)] }

/-- A physical pod `afile` of the namespace `ns`. -/
def exampleFilePod : Pod :=
  { Name := "afile", Namespace := "ns", UID := "pu5" }

def exampleFilePManager : Client := { Pods := [exampleFilePod] }

/-- The node where a regular file stands under the pod-logs mount at the token
of the pod `afile`. -/
def exampleFileFS : FS :=
  { entries := exampleFS.entries ++ [(["var", "log", "pods", "ns_afile_pu5"], Node.file)] }

/-- The node where an earlier pod left a directory in the pod-log root with a
file `a.log` that cannot be removed and a file `b.log` that can, next to the
link of `old` and a second stale link. -/
def exampleLockedFS : FS :=
  { entries := exampleFS.entries ++
      [ (["tmp", "vcluster", "ns", "vc", "log", "pods", "ns1_gone_u9"], Node.link "/gone9"),
        (["tmp", "vcluster", "ns", "vc", "log", "pods", "ns1_locked_u4"], Node.dir),
        (["tmp", "vcluster", "ns", "vc", "log", "pods", "ns1_locked_u4", "a.log"], Node.file),
        (["tmp", "vcluster", "ns", "vc", "log", "pods", "ns1_locked_u4", "b.log"], Node.file) ]
    pinned := [["tmp", "vcluster", "ns", "vc", "log", "pods", "ns1_locked_u4", "a.log"]] }

/-- The entry at `p` is a symbolic link whose target `os.Stat` finds. -/
def linkResolves (fs : FS) (p : Path) : Bool :=
  match fs.lookup p with
  | some (Node.link _) =>
    match osStat fs p with
    | .ok _ => true
    | .error _ => false
  | _ => false

/-- The state `fs1` comes from `fs` by removals at grandchildren of the root
`K` that are no symbolic links, under children that are no keys of `E`. -/
def RemovedBelowUnseen (K : Path) (E : List Path) (fs fs1 : FS) : Prop :=
  fs1.pinned = fs.pinned ∧ (∀ e ∈ fs1.entries, e ∈ fs.entries) ∧
  ∀ q, fs1.lookup q = fs.lookup q ∨
    (fs1.lookup q = none ∧ ∃ c g, plainName c = true ∧ plainName g = true ∧ K ++ [c] ∉ E ∧
      (∀ t, fs.lookup (K ++ [c, g]) ≠ some (Node.link t)) ∧ K ++ [c, g] <+: q)

/-- The key `cleanupOldContainerPaths` reads off the name of an entry: its
first two fields between underscores, joined by an underscore; there is none
when the name has fewer than two fields. -/
def containerKey (name : String) : Option String :=
  match stringsSplit name '_' with
  | vPodOnDiskName :: vPodOnDiskNS :: _ => some (sprintf2 vPodOnDiskName vPodOnDiskNS)
  | _ => none

/-- The state `fs1` comes from `fs` by new entries, all at paths that satisfy
`P`. -/
def ExtendsBy (P : Path → Prop) (fs fs1 : FS) : Prop :=
  fs1.pinned = fs.pinned ∧
  ∃ added : List (Path × Node), fs1.entries = fs.entries ++ added ∧ ∀ e ∈ added, P e.1

/-- Every component of the path is a plain name. -/
def plainPath (p : Path) : Prop := ∀ c ∈ p, plainName c = true

instance (p : Path) : Decidable (plainPath p) := by
  unfold plainPath; infer_instance

/-- The names of a virtual pod as the API server admits them, as far as the
paths depend on it: no underscore and no slash in the name and the namespace,
and a UID that is one path component. -/
def validPodNames (v : Pod) : Prop :=
  '_' ∉ v.Name.data ∧ '/' ∉ v.Name.data ∧ '_' ∉ v.Namespace.data ∧ '/' ∉ v.Namespace.data ∧
  plainName v.UID = true

instance (v : Pod) : Decidable (validPodNames v) := by
  unfold validPodNames; infer_instance

/-- A virtual pod whose name holds an underscore, with its physical pod. -/
def exampleUnderscorePod : Pod :=
  { Name := "web_1", Namespace := "ns1", UID := "u2"
    ContainerStatuses := [{ Name := "c1", ContainerID := "containerd://abc" }] }

def exampleUnderscorePhysicalPod : Pod :=
  { Name := "web_1-x-ns1-x-vc", Namespace := "ns", UID := "pu2" }

/-- The node with the physical pod of `web_1` on disk. -/
def exampleUnderscoreFS : FS :=
  { entries := exampleDirs ++
      [ (["var", "log", "pods", "ns_web_1-x-ns1-x-vc_pu2"], Node.dir),
        (["var", "log", "containers", "web_1-x-ns1-x-vc_ns_c1-abc.log"],
          Node.link "/var/log/pods/ns_web_1-x-ns1-x-vc_pu2/c1/0.log"),
        (["var", "vcluster", "physical", "kubelet", "pods", "pu2"], Node.dir) ] }

/-- The physical pod map of the example node. -/
def examplePodMappings : PhysicalPodMap :=
  [("p1-x-ns1-x-vc", { Target := "ns_p1-x-ns1-x-vc_pu1", PhysicalPod := examplePhysicalPod })]

def exampleUnderscorePManager : Client := { Pods := [exampleUnderscorePhysicalPod] }

def exampleUnderscoreVManager : Client := { Pods := [exampleUnderscorePod] }

def exampleUnderscoreMappings : PhysicalPodMap :=
  [("web_1-x-ns1-x-vc",
    { Target := "ns_web_1-x-ns1-x-vc_pu2", PhysicalPod := exampleUnderscorePhysicalPod })]

/-- The path `q` lies on the branch of `vp`: above it, or at or below it. -/
def Near (vp q : Path) : Prop := q <+: vp ∨ vp <+: q

instance (vp q : Path) : Decidable (Near vp q) := by
  unfold Near; infer_instance

/-- Neither path is above the other. -/
def Apart (a b : Path) : Prop := ¬ a <+: b ∧ ¬ b <+: a

instance (a b : Path) : Decidable (Apart a b) := by
  unfold Apart; infer_instance

/-- The entries of the disk away from the branch of `vp`. -/
def physEntries (vp : Path) (fs : FS) : List (Path × Node) :=
  fs.entries.filter (fun e => ¬ Near vp e.1)

/-- The state `fs1` is `fs` without the entries at some paths, each of them at
or below a path that satisfies `T`. -/
def RemovedAt (T : Path → Prop) (fs fs1 : FS) : Prop :=
  fs1.pinned = fs.pinned ∧
  ∃ f : Path → Bool, fs1.entries = fs.entries.filter (fun e => f e.1) ∧
    ∀ k, f k = false → ∃ t, T t ∧ t <+: k

/-- Nothing is left to do for the cleanup of the root `R` with the seen-set
`E`: under every child of `R` that is no key of `E`, what still stands cannot
be removed. -/
def SettledChildren (R : Path) (E : List Path) (fs : FS) : Prop :=
  fs.lookup R = some Node.dir →
    ∀ c, (∃ e0 ∈ fs.entries, e0.1 = R ++ [c]) → R ++ [c] ∉ E →
      ∀ e ∈ fs.entries, R ++ [c] <+: e.1 → fs.refuses e.1

/-- Nothing is left to do for the cleanup of the container-logs root `R`:
every entry has a key, and its key is among the observed pods or what stands
at and below the entry cannot be removed. -/
def SettledContainers (R : Path) (existing : List String) (fs : FS) : Prop :=
  fs.lookup R = some Node.dir →
    ∀ name, (∃ e0 ∈ fs.entries, e0.1 = R ++ [name]) →
      ∃ key, containerKey name = some key ∧
        (key ∈ existing ∨ ∀ e ∈ fs.entries, R ++ [name] <+: e.1 → fs.refuses e.1)

/-- Under the child `c` of the kubelet root `K`, when it is a directory, every
grandchild is a link, or what stands at and below it cannot be removed. -/
def ChildSettled (K : Path) (fs : FS) (c : String) : Prop :=
  fs.lookup (K ++ [c]) = some Node.dir →
    ∀ g, (∃ e0 ∈ fs.entries, e0.1 = K ++ [c, g]) →
      (∃ t, fs.lookup (K ++ [c, g]) = some (Node.link t)) ∨
      ∀ e ∈ fs.entries, K ++ [c, g] <+: e.1 → fs.refuses e.1

/-- Nothing is left to do for the cleanup of the kubelet root `K`: every child
that is no key of `E` is settled. -/
def SettledKubelet (K : Path) (E : List Path) (fs : FS) : Prop :=
  fs.lookup K = some Node.dir → ∀ c, K ++ [c] ∉ E → ChildSettled K fs c

/-- The container statuses of a pod bear names and IDs without slash. -/
def validContainers (v : Pod) : Prop :=
  ∀ cs ∈ v.ContainerStatuses,
    '/' ∉ cs.Name.data ∧ '/' ∉ (stringsCutAfter cs.ContainerID "://").data

instance (v : Pod) : Decidable (validContainers v) := by
  unfold validContainers; infer_instance

/-- The names of a physical pod as far as the paths depend on them: no slash
in the name and the namespace, a UID that is one path component. -/
def validPhysicalNames (p : Pod) : Prop :=
  '/' ∉ p.Name.data ∧ '/' ∉ p.Namespace.data ∧ plainName p.UID = true

instance (p : Pod) : Decidable (validPhysicalNames p) := by
  unfold validPhysicalNames; infer_instance

/-- The paths that the loop of a pass may create for the virtual pod `v`: its
pod-log link, its kubelet directory with all above it, a link in that
directory, the link of one of its containers. -/
def podPath (options : VirtualClusterOptions) (v : Pod) (q : Path) : Prop :=
  q = filepathJoin options.VirtualPodLogsPath [sprintf3 v.Namespace v.Name v.UID] ∨
  q <+: filepathJoin options.VirtualKubeletPodPath [v.UID] ∨
  (∃ c, plainName c = true ∧
    q = filepathJoin (filepathJoin options.VirtualKubeletPodPath [v.UID]) [c]) ∨
  (∃ cs ∈ v.ContainerStatuses, q = filepathJoin options.VirtualContainerLogsPath
    [ContainerSymlinkSourceTemplate v.Name v.Namespace cs.Name
      (stringsCutAfter cs.ContainerID "://")])


/-- The node of `web_1` as one pass has left it. -/
def exampleUnderscoreAfter : FS :=
  (mapFunc exampleTranslate exampleOptions exampleUnderscorePManager exampleUnderscoreVManager
    exampleUnderscoreFS).1

/-- The example node as one pass has left it. -/
def exampleAfter : FS :=
  (mapFunc exampleTranslate exampleOptions examplePManager exampleVManager exampleFS).1


/-- The example node with a file in the virtual container-logs root that the
program did not put there. -/
def exampleStrayFS : FS :=
  { entries := exampleFS.entries ++
      [(["tmp", "vcluster", "ns", "vc", "log", "containers", "README"], Node.file)] }


/-! ## Restart on init -/

/-- The host paths of `podtranslate` that a pod of the earlier layout mounts:
`PodLoggingHostPath`, `LogHostPath` and `KubeletPodPath`. -/
structure LegacyHostPaths where
  PodLoggingHostPath : String
  LogHostPath : String
  KubeletPodPath : String

/-- The loop of `restartTargetPods` over the volumes of a pod: whether it
reaches `continue podLoop`, the pod then being in the restart list. -/
def volumesLoop (hp : LegacyHostPaths) : List Volume → Bool
  | [] => false
  | volume :: rest =>
    match volume.HostPath with
    | some path =>
      if path = hp.PodLoggingHostPath ∨ path = hp.LogHostPath ∨ path = hp.KubeletPodPath then
        true
      else volumesLoop hp rest
    | none => volumesLoop hp rest

/-- The loop `podLoop` of `restartTargetPods`, from the restart list so far;
`selfName` is the value of the environment variable `POD_NAME`. -/
def podLoop (hp : LegacyHostPaths) (selfName : String) : List Pod → List Pod → List Pod
  | [], podRestartList => podRestartList
  | pPod :: rest, podRestartList =>
    if pPod.Name = selfName then podLoop hp selfName rest podRestartList
    else if volumesLoop hp pPod.Volumes then
      podLoop hp selfName rest (podRestartList ++ [pPod])
    else podLoop hp selfName rest podRestartList

/-- Go `GetClient().Delete(ctx, &pod)`: the pod of that namespace and name
leaves the cluster, unless the API server answers with an error; a pod that
is not there is not found. -/
def Client.delete (c : Client) (pod : Pod) : Client × Option GoError :=
  match c.DeleteErr pod with
  | some err => (c, some err)
  | none =>
    if ∃ q ∈ c.Pods, q.Namespace = pod.Namespace ∧ q.Name = pod.Name then
      ({ c with
          Pods := List.filter (fun q => ¬ (q.Namespace = pod.Namespace ∧ q.Name = pod.Name))
            c.Pods }, none)
    else (c, some (GoError.notFound pod.Name))

/-- The loop of `restartTargetPods` over the restart list; the error of a
deletion is logged. -/
def deleteLoop : List Pod → Client → Client
  | [], c => c
  | pPod :: rest, c => deleteLoop rest (c.delete pPod).1

/-- Go `restartTargetPods`: the cluster it leaves and the error it returns. -/
def restartTargetPods (hp : LegacyHostPaths) (selfName : String) (localManager : Client) :
    Client × Option GoError :=
  match localManager.listPods none with
  | .error err => (localManager, some err)
  | .ok items => (deleteLoop (podLoop hp selfName items []) localManager, none)

/-- The three host paths as `podtranslate` has them. -/
def exampleLegacy : LegacyHostPaths :=
  { PodLoggingHostPath := "/var/log/pods"
    LogHostPath := "/var/log"
    KubeletPodPath := "/var/lib/kubelet/pods" }

/-- The pods of a node at init: the agent itself, which mounts the log root;
a pod that mounts the raw log root after another host path; a pod with a
host path that is none of the three and a volume of another kind; a pod that
mounts the kubelet root and whose deletion the API server refuses; a pod that
mounts the pod-log root twice. -/
def exampleNodePods : List Pod :=
  [ { Name := "mapper", Namespace := "ns", UID := "m0"
      Volumes := [{ HostPath := some "/var/log" }] },
    { Name := "legacy", Namespace := "ns", UID := "a1"
      Volumes := [{ HostPath := some "/etc" }, { HostPath := some "/var/log" }] },
    { Name := "plain", Namespace := "ns", UID := "b2"
      Volumes := [{ HostPath := some "/var/log/" }, { HostPath := none }] },
    { Name := "stuck", Namespace := "ns", UID := "c3"
      Volumes := [{ HostPath := some "/var/lib/kubelet/pods" }] },
    { Name := "twice", Namespace := "ns", UID := "d4"
      Volumes := [{ HostPath := some "/var/log/pods" }, { HostPath := some "/var/log/pods" }] } ]

def exampleLocalManager : Client :=
  { Pods := exampleNodePods
    DeleteErr := fun pod => if pod.Name = "stuck" then some (GoError.api "forbidden") else none }


/-! ## Mode resolver -/

def MultiNamespaceMode : String := "multi-namespace-mode"

def SyncerContainer : String := "syncer"

/-- Go `fmt.Sprintf(configSecretNameTemplate, name)`, the template being
`vc-config-%s`. -/
def configSecretName (name : String) : String := "vc-config-" ++ name

def configFilename : String := "config.yaml"

/-- Whether `sub` occurs in the character list as a contiguous piece. -/
def containsChars (sub : List Char) : List Char → Bool
  | [] => sub.isEmpty
  | c :: cs => sub.isPrefixOf (c :: cs) || containsChars sub cs

/-- Go `strings.Contains(s, substr)`. -/
def stringsContains (s substr : String) : Bool := containsChars substr.data s.data

/-- A secret: its `Data`, the values kept as text. -/
structure Secret where
  Data : List (String × String)

/-- A container of a pod template: its name and its `Args`. -/
structure Container where
  Name : String
  Args : List String
deriving DecidableEq, Repr

/-- A pod template's `Spec`: its containers. -/
structure PodSpec where
  Containers : List Container
deriving DecidableEq, Repr

/-- The vcluster configuration as far as the program reads it:
`Experimental.MultiNamespaceMode.Enabled`. -/
structure Config where
  MultiNamespaceModeEnabled : Bool
deriving DecidableEq, Repr

/-- The typed client of the host cluster as far as the mode resolver uses it:
`Get` of a secret, of a stateful set and of a deployment by namespace and
name, the workloads as their `Spec.Template.Spec`. -/
structure KubeClient where
  GetSecret : String → String → Except GoError Secret
  GetStatefulSet : String → String → Except GoError PodSpec
  GetDeployment : String → String → Except GoError PodSpec

/-- The translator that `translate.Default` holds. -/
inductive Translator where
  | singleNamespace (targetNamespace : String)
  | multiNamespace (targetNamespace : String)
deriving DecidableEq, Repr

/-- What the mode resolver writes: the options and the package variable
`translate.Default`. -/
structure ModeState where
  options : VirtualClusterOptions
  Default : Translator

/-- Go `getSyncerPodSpec`. -/
def getSyncerPodSpec (kubeClient : KubeClient) (vclusterName vclusterNamespace : String) :
    Except GoError PodSpec :=
  match kubeClient.GetStatefulSet vclusterNamespace vclusterName with
  | .error err =>
    if err.IsNotFound then
      match kubeClient.GetDeployment vclusterNamespace vclusterName with
      | .error err2 => .error err2
      | .ok vclusterDeploy => .ok vclusterDeploy
    else .error err
  | .ok vclusterSts => .ok vclusterSts

/-- Go `getVclusterConfigFromSecret`; `unmarshalStrict` is the strict YAML
decoder, whose error is a message. -/
def getVclusterConfigFromSecret (unmarshalStrict : String → Except String Config)
    (kubeClient : KubeClient) (vclusterName vclusterNamespace : String) :
    Except GoError Config :=
  match kubeClient.GetSecret vclusterNamespace (configSecretName vclusterName) with
  | .error err => .error err
  | .ok configSecret =>
    match configSecret.Data.lookup configFilename with
    | none => .error (GoError.errorf "key 'config.yaml' not found in secret")
    | some rawBytes =>
      match unmarshalStrict rawBytes with
      | .error msg => .error (GoError.errorf msg)
      | .ok rawConfig => .ok rawConfig

/-- Go `setMultiNamespaceMode`. -/
def setMultiNamespaceMode (st : ModeState) : ModeState :=
  { options := { st.options with MultiNamespaceMode := true }
    Default := Translator.multiNamespace st.options.TargetNamespace }

/-- The loop over the arguments of a container: whether one contains the
marker. -/
def argsLoop : List String → Bool
  | [] => false
  | arg :: rest => if stringsContains arg MultiNamespaceMode then true else argsLoop rest

/-- The loop over the containers of the pod template: whether it reaches
`setMultiNamespaceMode`. -/
def containersLoop : List Container → Bool
  | [] => false
  | container :: rest =>
    if container.Name = SyncerContainer then
      if argsLoop container.Args then true else containersLoop rest
    else containersLoop rest

/-- The second half of `findVclusterModeAndSetDefaultTranslation`, from the
retrieval of the syncer workload on. -/
def findModeFromWorkload (kubeClient : KubeClient) (st : ModeState) :
    ModeState × Option GoError :=
  match getSyncerPodSpec kubeClient st.options.Name st.options.TargetNamespace with
  | .error err => (st, some err)
  | .ok vclusterPodSpec =>
    if containersLoop vclusterPodSpec.Containers then (setMultiNamespaceMode st, none)
    else ({ st with Default := Translator.singleNamespace st.options.TargetNamespace }, none)

/-- Go `findVclusterModeAndSetDefaultTranslation`: the state it leaves and the
error it returns. -/
def findVclusterModeAndSetDefaultTranslation (unmarshalStrict : String → Except String Config)
    (kubeClient : KubeClient) (st : ModeState) : ModeState × Option GoError :=
  match getVclusterConfigFromSecret unmarshalStrict kubeClient st.options.Name
      st.options.TargetNamespace with
  | .error err =>
    if !err.IsNotFound then (st, some err) else findModeFromWorkload kubeClient st
  | .ok vClusterConfig =>
    if vClusterConfig.MultiNamespaceModeEnabled then (setMultiNamespaceMode st, none)
    else findModeFromWorkload kubeClient st

/-- The configuration secret is found, decodes, and declares multi-namespace
mode enabled. -/
def SecretEnablesMulti (unmarshalStrict : String → Except String Config) (kube : KubeClient)
    (o : VirtualClusterOptions) : Prop :=
  ∃ secret raw cfg, kube.GetSecret o.TargetNamespace (configSecretName o.Name) = .ok secret ∧
    secret.Data.lookup configFilename = some raw ∧ unmarshalStrict raw = .ok cfg ∧
    cfg.MultiNamespaceModeEnabled = true

/-- Retrieving or decoding the configuration secret fails with `err`, and not
because the secret is not found: the retrieval fails otherwise, the secret has
no key `config.yaml`, or the strict decoder refuses the value. -/
def SecretFails (unmarshalStrict : String → Except String Config) (kube : KubeClient)
    (o : VirtualClusterOptions) (err : GoError) : Prop :=
  (kube.GetSecret o.TargetNamespace (configSecretName o.Name) = .error err ∧
    err.IsNotFound = false) ∨
  ∃ secret, kube.GetSecret o.TargetNamespace (configSecretName o.Name) = .ok secret ∧
    ((secret.Data.lookup configFilename = none ∧
        err = GoError.errorf "key 'config.yaml' not found in secret") ∨
      ∃ raw msg, secret.Data.lookup configFilename = some raw ∧
        unmarshalStrict raw = .error msg ∧ err = GoError.errorf msg)

/-- The pod template `spec` is that of the syncer workload: of the stateful
set, or of the deployment when the stateful set is not found. -/
def SyncerWorkload (kube : KubeClient) (o : VirtualClusterOptions) (spec : PodSpec) : Prop :=
  kube.GetStatefulSet o.TargetNamespace o.Name = .ok spec ∨
  ∃ e, kube.GetStatefulSet o.TargetNamespace o.Name = .error e ∧ e.IsNotFound = true ∧
    kube.GetDeployment o.TargetNamespace o.Name = .ok spec

/-- Retrieving the syncer workload fails with `err`: the stateful set with an
error other than not-found, or the stateful set is not found and the
deployment fails, not-found included. -/
def WorkloadFails (kube : KubeClient) (o : VirtualClusterOptions) (err : GoError) : Prop :=
  (kube.GetStatefulSet o.TargetNamespace o.Name = .error err ∧ err.IsNotFound = false) ∨
  ∃ e, kube.GetStatefulSet o.TargetNamespace o.Name = .error e ∧ e.IsNotFound = true ∧
    kube.GetDeployment o.TargetNamespace o.Name = .error err

/-- The pod template has a container named `syncer` with an argument in which
`multi-namespace-mode` occurs. -/
def HasMarker (spec : PodSpec) : Prop :=
  ∃ c ∈ spec.Containers, c.Name = "syncer" ∧
    ∃ arg ∈ c.Args, "multi-namespace-mode".data <:+: arg.data

/-- The pod template of a syncer that runs in multi-namespace mode. -/
def exampleDeployment : PodSpec :=
  { Containers := [{ Name := "syncer", Args := ["--name=vc", "--multi-namespace-mode=true"] }] }

/-- A host cluster without configuration secret and without stateful set,
whose deployment runs the syncer in multi-namespace mode. -/
def exampleKube : KubeClient :=
  { GetSecret := fun _ name => .error (GoError.notFound name)
    GetStatefulSet := fun _ name => .error (GoError.notFound name)
    GetDeployment := fun _ _ => .ok exampleDeployment }

/-- A host cluster whose API server fails on the secret, with the same
deployment. -/
def exampleBrokenKube : KubeClient :=
  { exampleKube with GetSecret := fun _ _ => .error (GoError.api "internal error") }

/-- The state at startup: single-namespace options, the default translator. -/
def exampleModeState : ModeState :=
  { options := exampleOptions, Default := Translator.singleNamespace "" }

/-- A decoder that reads the one line `enabled` as multi-namespace mode and
refuses what it does not know. -/
def exampleUnmarshal (raw : String) : Except String Config :=
  if raw = "enabled" then .ok { MultiNamespaceModeEnabled := true }
  else if raw = "" then .ok { MultiNamespaceModeEnabled := false }
  else .error "unknown field"

/-! ## Theorems -/

/-! ### Namespace filter -/

theorem filter_foldl_eq (S : List String) (L acc : List Pod) :
    L.foldl (fun pods pod => if pod.Namespace ∈ S then pods ++ [pod] else pods) acc
      = acc ++ L.filter (fun pod => decide (pod.Namespace ∈ S)) := by
  induction L generalizing acc with
  | nil => simp
  | cons pod rest ih =>
    simp only [List.foldl_cons, ih, List.filter_cons]
    by_cases h : pod.Namespace ∈ S <;> simp [h]

theorem filter_eq_listFilter (L : List Pod) (S : List String) :
    filter L S = L.filter (fun pod => decide (pod.Namespace ∈ S)) := by
  unfold filter
  rw [filter_foldl_eq]
  simp

/-- C1: `filter L S` is the sub-list of `L` of the pods whose namespace is in
`S`: same pods, same order, no pod more often than in `L`; it is empty when no
namespace of `L` is in `S` (so for the empty `S`), and it is `L` when every
namespace of `L` is in `S`. -/
theorem filter_spec (L : List Pod) (S : List String) :
    filter L S = L.filter (fun pod => decide (pod.Namespace ∈ S)) ∧
    (filter L S).Sublist L ∧
    (∀ pod, (filter L S).count pod ≤ L.count pod) ∧
    (∀ pod, pod ∈ filter L S ↔ pod ∈ L ∧ pod.Namespace ∈ S) ∧
    ((∀ pod ∈ L, pod.Namespace ∉ S) → filter L S = []) ∧
    filter L [] = [] ∧
    ((∀ pod ∈ L, pod.Namespace ∈ S) → filter L S = L) := by
  have hS : ∀ S : List String, filter L S = L.filter (fun pod => decide (pod.Namespace ∈ S)) :=
    fun S => filter_eq_listFilter L S
  refine ⟨hS S, ?_, ?_, ?_, ?_, ?_, ?_⟩
  · rw [hS]; exact List.filter_sublist L
  · intro pod; rw [hS]; exact (List.filter_sublist L).count_le pod
  · intro pod; rw [hS]; simp [List.mem_filter]
  · intro h; rw [hS, List.filter_eq_nil_iff]
    intro pod hpod; simpa using h pod hpod
  · rw [hS]; simp
  · intro h; rw [hS, List.filter_eq_self]
    intro pod hpod; simpa using h pod hpod

theorem filter_spec_witness :
    (filter testPodList ["test-ns1", "test-ns4"]
        = [{ Name := "test-pod1", Namespace := "test-ns1", UID := "" }]) ∧
    ((∀ pod ∈ testPodList, pod.Namespace ∉ ["test-ns3", "test-ns4"]) ∧
      filter testPodList ["test-ns3", "test-ns4"] = []) ∧
    ((∀ pod ∈ testPodList, pod.Namespace ∈ ["test-ns1", "test-ns2"]) ∧
      filter testPodList ["test-ns1", "test-ns2"] = testPodList) :=
  ⟨(filter_spec testPodList ["test-ns1", "test-ns4"]).1.trans (by decide),
   ⟨by decide, (filter_spec testPodList ["test-ns3", "test-ns4"]).2.2.2.2.1 (by decide)⟩,
   ⟨by decide, (filter_spec testPodList ["test-ns1", "test-ns2"]).2.2.2.2.2.2 (by decide)⟩⟩

/-! ### Physical pod locator -/

theorem PhysicalPodMap.get_put (m : PhysicalPodMap) (k : String) (d : PodDetail)
    (name : String) :
    (m.put k d).get name =
      match m.get name with
      | some x => some x
      | none => if k = name then some d else none := by
  induction m with
  | nil => simp [PhysicalPodMap.put, PhysicalPodMap.get]
  | cons hd tl ih =>
    obtain ⟨k1, d1⟩ := hd
    simp only [PhysicalPodMap.put, List.cons_append, PhysicalPodMap.get] at ih ⊢
    by_cases h : k1 = name
    · simp [h]
    · simp only [h, if_false]; exact ih

theorem PhysicalPodMap.get_eq_none_iff (m : PhysicalPodMap) (name : String) :
    m.get name = none ↔ name ∉ m.map Prod.fst := by
  induction m with
  | nil => simp [PhysicalPodMap.get]
  | cons hd tl ih =>
    obtain ⟨k1, d1⟩ := hd
    simp only [PhysicalPodMap.get, List.map_cons, List.mem_cons, not_or]
    by_cases h : k1 = name
    · simp [h]
    · simp [h, ih, Ne.symm h]

theorem podMappingsLoop_get (fs : FS) (pods : List Pod) (acc : PhysicalPodMap) (name : String) :
    (podMappingsLoop fs pods acc).get name =
      match acc.get name with
      | some x => some x
      | none =>
        (pods.find? (fun pod => decide (pod.Name = name) &&
          (checkIfPathExists fs (sprintf3 pod.Namespace pod.Name pod.UID)).1)).map
          (fun pod => { Target := sprintf3 pod.Namespace pod.Name pod.UID, PhysicalPod := pod }) := by
  induction pods generalizing acc with
  | nil => simp only [podMappingsLoop, List.find?_nil, Option.map_none']; cases acc.get name <;> rfl
  | cons pod rest ih =>
    simp only [podMappingsLoop, List.find?_cons]
    by_cases hok : (checkIfPathExists fs (sprintf3 pod.Namespace pod.Name pod.UID)).1 = true
    · simp only [hok, if_true, Bool.and_true]
      cases hget : acc.get pod.Name with
      | some d0 =>
        simp only [ih]
        by_cases hn : pod.Name = name
        · subst hn; simp [hget]
        · simp [hn]
      | none =>
        simp only [ih, PhysicalPodMap.get_put]
        by_cases hn : pod.Name = name
        · subst hn; simp [hget]
        · simp only [hn, if_false, decide_False, Bool.false_and]
          cases acc.get name <;> simp
    · simp only [hok, Bool.and_false]
      simp [ih]

theorem podMappingsLoop_nodup (fs : FS) (pods : List Pod) (acc : PhysicalPodMap)
    (hacc : (acc.map Prod.fst).Nodup) :
    ((podMappingsLoop fs pods acc).map Prod.fst).Nodup := by
  induction pods generalizing acc with
  | nil => simpa [podMappingsLoop] using hacc
  | cons pod rest ih =>
    simp only [podMappingsLoop]
    split
    · split
      · exact ih acc hacc
      · rename_i hnone
        apply ih
        rw [PhysicalPodMap.get_eq_none_iff] at hnone
        simp only [PhysicalPodMap.put, List.map_append, List.map_cons, List.map_nil]
        rw [List.nodup_append]
        refine ⟨hacc, List.nodup_singleton _, ?_⟩
        intro a ha hb
        simp at hb
        subst hb
        exact hnone ha
    · exact ih acc hacc

theorem checkIfPathExists_of_dir (fs : FS) (t : String)
    (h : fs.lookup (filepathJoin PodLogsMountPath [t]) = some Node.dir) :
    (checkIfPathExists fs t).1 = true := by
  simp [checkIfPathExists, osStat, statWalk, h]

theorem lookup_of_checkIfPathExists (fs : FS) (t : String)
    (h : (checkIfPathExists fs t).1 = true) :
    fs.lookup (filepathJoin PodLogsMountPath [t]) ≠ none := by
  intro hnone
  simp only [checkIfPathExists, osStat, statWalk, hnone] at h
  by_cases hx : ∃ q ∈ (filepathJoin PodLogsMountPath [t]).inits, fs.lookup q = some Node.file
  · rw [if_pos hx] at h; simp at h
  · rw [if_neg hx] at h; simp at h

/-- The map built by the loop of `getPhysicalPodMap` over the candidate pods
has a key for a name exactly when some candidate of that name passes
`checkIfPathExists` on its token `namespace_name_uid`; its keys are pairwise
different; the detail under a name is that of the first such candidate in
listing order. A token directory under the pod-logs mount makes the check
succeed, and the check succeeds only when an entry stands at that path. -/
theorem getPhysicalPodMap_first_match (fs : FS) (pods : List Pod) :
    (∀ name, ((podMappingsLoop fs pods []).get name).isSome ↔
      ∃ pod ∈ pods, pod.Name = name ∧
        (checkIfPathExists fs (sprintf3 pod.Namespace pod.Name pod.UID)).1 = true) ∧
    ((podMappingsLoop fs pods []).map Prod.fst).Nodup ∧
    (∀ name, (podMappingsLoop fs pods []).get name =
      (pods.find? (fun pod => decide (pod.Name = name) &&
        (checkIfPathExists fs (sprintf3 pod.Namespace pod.Name pod.UID)).1)).map
        (fun pod => { Target := sprintf3 pod.Namespace pod.Name pod.UID, PhysicalPod := pod })) ∧
    (∀ t, fs.lookup (filepathJoin PodLogsMountPath [t]) = some Node.dir →
      (checkIfPathExists fs t).1 = true) ∧
    (∀ t, (checkIfPathExists fs t).1 = true →
      fs.lookup (filepathJoin PodLogsMountPath [t]) ≠ none) := by
  have hget : ∀ name, (podMappingsLoop fs pods []).get name =
      (pods.find? (fun pod => decide (pod.Name = name) &&
        (checkIfPathExists fs (sprintf3 pod.Namespace pod.Name pod.UID)).1)).map
        (fun pod => { Target := sprintf3 pod.Namespace pod.Name pod.UID, PhysicalPod := pod }) := by
    intro name
    rw [podMappingsLoop_get]
    simp [PhysicalPodMap.get]
  refine ⟨?_, podMappingsLoop_nodup fs pods [] (by simp), hget,
    checkIfPathExists_of_dir fs, lookup_of_checkIfPathExists fs⟩
  intro name
  rw [hget, Option.isSome_map', List.find?_isSome]
  simp

theorem getPhysicalPodMap_first_match_witness :
    exampleFS.lookup (filepathJoin PodLogsMountPath ["ns_p1-x-ns1-x-vc_pu1"]) = some Node.dir ∧
    (checkIfPathExists exampleFS "ns_p1-x-ns1-x-vc_pu1").1 = true ∧
    (podMappingsLoop exampleTwinFS [examplePhysicalPod, { examplePhysicalPod with UID := "pu2" }]
        []).get "p1-x-ns1-x-vc"
      = some { Target := "ns_p1-x-ns1-x-vc_pu1", PhysicalPod := examplePhysicalPod } :=
  ⟨by decide,
   (getPhysicalPodMap_first_match exampleFS []).2.2.2.1 "ns_p1-x-ns1-x-vc_pu1" (by decide),
   ((getPhysicalPodMap_first_match exampleTwinFS
      [examplePhysicalPod, { examplePhysicalPod with UID := "pu2" }]).2.2.1
        "p1-x-ns1-x-vc").trans (by decide)⟩

/-- C9 (the code at the failing input): under the pod-logs mount a regular
file, no directory, stands at the token `ns_afile_pu5` of the listed physical
pod `afile`; `checkIfPathExists` answers true for it, `os.Stat` having
succeeded, and the map built by `getPhysicalPodMap` has a key for `afile`. -/
theorem getPhysicalPodMap_file_gets_key :
    exampleFileFS.lookup (PodLogsMountPath ++ ["ns_afile_pu5"]) = some Node.file ∧
    osStat exampleFileFS (filepathJoin PodLogsMountPath ["ns_afile_pu5"]) = .ok Node.file ∧
    checkIfPathExists exampleFileFS "ns_afile_pu5" = (true, none) ∧
    getPhysicalPodMap exampleOptions exampleFilePManager exampleFileFS
      = .ok [("afile", { Target := "ns_afile_pu5", PhysicalPod := exampleFilePod })] := by
  decide

/-! ### Strings and paths -/

theorem splitChars_ne_nil (sep : Char) (cs : List Char) : splitChars sep cs ≠ [] := by
  induction cs with
  | nil => simp [splitChars]
  | cons c cs ih =>
    simp only [splitChars]
    split
    · simp
    · split <;> simp

theorem splitChars_of_not_mem (sep : Char) (cs : List Char) (h : sep ∉ cs) :
    splitChars sep cs = [cs] := by
  induction cs with
  | nil => rfl
  | cons c cs ih =>
    simp only [List.mem_cons, not_or] at h
    simp only [splitChars, Ne.symm h.1, if_false, ih h.2]

theorem splitChars_append_sep (sep : Char) (a b : List Char) :
    splitChars sep (a ++ sep :: b) = splitChars sep a ++ splitChars sep b := by
  induction a with
  | nil => simp [splitChars]
  | cons c a ih =>
    simp only [List.cons_append, splitChars]
    split
    · simp [ih]
    · have ih2 : splitChars sep (a.append (sep :: b)) = splitChars sep a ++ splitChars sep b := ih
      rw [ih2]
      cases ha : splitChars sep a with
      | nil => exact absurd ha (splitChars_ne_nil sep a)
      | cons x xs => simp

theorem splitChars_getLastD_append_sep (sep : Char) (a b : List Char) :
    (splitChars sep (a ++ sep :: b)).getLastD [] = (splitChars sep b).getLastD [] := by
  rw [splitChars_append_sep]
  cases hb : splitChars sep b with
  | nil => exact absurd hb (splitChars_ne_nil sep b)
  | cons x xs =>
    rw [List.getLastD_eq_getLast?, List.getLastD_eq_getLast?, List.getLast?_append_cons]

theorem stringsSplit_of_not_mem (s : String) (sep : Char) (h : sep ∉ s.data) :
    stringsSplit s sep = [s] := by
  simp [stringsSplit, splitChars_of_not_mem sep s.data h]

theorem stringsSplit_append_sep (a b : String) (sep : Char) :
    stringsSplit (a ++ String.singleton sep ++ b) sep = stringsSplit a sep ++ stringsSplit b sep := by
  simp [stringsSplit, String.data_append, splitChars_append_sep, String.singleton]

/-- The last segment of `d ++ "/" ++ f` is `f` when `f` has no slash. -/
theorem stringsSplit_getLastD_segment (d f : String) (hf : '/' ∉ f.data) :
    (stringsSplit (d ++ "/" ++ f) '/').getLastD "" = f := by
  have h := stringsSplit_append_sep d f '/'
  have h1 : (String.singleton '/') = "/" := rfl
  rw [h1] at h
  rw [h, stringsSplit_of_not_mem f '/' hf]
  simp [List.getLastD_eq_getLast?]

theorem cleanInto_plain (base : Path) (s : String) (h : plainName s = true) :
    cleanInto base [s] = base ++ [s] := by
  simp only [plainName, Bool.and_eq_true, decide_eq_true_eq, Bool.not_eq_true', ne_eq] at h
  obtain ⟨⟨⟨h1, h2⟩, h3⟩, _⟩ := h
  simp [cleanInto, h1, h2, h3]

theorem not_mem_of_plainName (s : String) (h : plainName s = true) : '/' ∉ s.data := by
  simp only [plainName, Bool.and_eq_true, decide_eq_true_eq, Bool.not_eq_true', ne_eq] at h
  intro hm
  have := h.2
  simp at this
  exact this hm

/-- Joining a plain name to a path appends it as one component. -/
theorem filepathJoin_plain (base : Path) (s : String) (h : plainName s = true) :
    filepathJoin base [s] = base ++ [s] := by
  simp only [filepathJoin, List.flatMap_cons, List.flatMap_nil, List.append_nil]
  rw [stringsSplit_of_not_mem s '/' (not_mem_of_plainName s h)]
  exact cleanInto_plain base s h

theorem filepathJoin_plain_two (base : Path) (s t : String) (hs : plainName s = true)
    (ht : plainName t = true) :
    filepathJoin base [s, t] = base ++ [s, t] := by
  simp only [filepathJoin, List.flatMap_cons, List.flatMap_nil, List.append_nil]
  rw [stringsSplit_of_not_mem s '/' (not_mem_of_plainName s hs),
    stringsSplit_of_not_mem t '/' (not_mem_of_plainName t ht)]
  simp only [plainName, Bool.and_eq_true, decide_eq_true_eq, Bool.not_eq_true', ne_eq] at hs ht
  obtain ⟨⟨⟨h1, h2⟩, h3⟩, _⟩ := hs
  obtain ⟨⟨⟨h4, h5⟩, h6⟩, _⟩ := ht
  simp [cleanInto, h1, h2, h3, h4, h5, h6]

/-- A string without a slash that holds an underscore is a plain name. -/
theorem plainName_of_underscore (s : String) (h1 : '/' ∉ s.data) (h2 : '_' ∈ s.data) :
    plainName s = true := by
  simp only [plainName, Bool.and_eq_true, decide_eq_true_eq, Bool.not_eq_true', ne_eq]
  refine ⟨⟨⟨?_, ?_⟩, ?_⟩, ?_⟩
  · intro h; rw [h] at h2; simp at h2
  · intro h; rw [h] at h2; simp at h2
  · intro h; rw [h] at h2; simp at h2
  · simpa using h1

theorem plainName_sprintf3 (a b c : String) (ha : '/' ∉ a.data) (hb : '/' ∉ b.data)
    (hc : '/' ∉ c.data) : plainName (sprintf3 a b c) = true := by
  apply plainName_of_underscore
  · simp [sprintf3, String.data_append, ha, hb, hc]
  · simp [sprintf3, String.data_append]

theorem plainName_template (a b c d : String) (ha : '/' ∉ a.data) (hb : '/' ∉ b.data)
    (hc : '/' ∉ c.data) (hd : '/' ∉ d.data) :
    plainName (ContainerSymlinkSourceTemplate a b c d) = true := by
  apply plainName_of_underscore
  · simp [ContainerSymlinkSourceTemplate, String.data_append, ha, hb, hc, hd]
  · simp [ContainerSymlinkSourceTemplate, String.data_append]

/-- The first two fields of a template name are the pod name and the
namespace when these hold no underscore. -/
theorem stringsSplit_template (p n c h : String) (hp : '_' ∉ p.data) (hn : '_' ∉ n.data) :
    ∃ rest, stringsSplit (ContainerSymlinkSourceTemplate p n c h) '_' = p :: n :: rest := by
  have e : ContainerSymlinkSourceTemplate p n c h
      = p ++ String.singleton '_' ++ (n ++ String.singleton '_' ++ (c ++ "-" ++ h ++ ".log")) := by
    simp [ContainerSymlinkSourceTemplate, String.singleton, String.ext_iff, String.data_append]
  rw [e, stringsSplit_append_sep, stringsSplit_append_sep, stringsSplit_of_not_mem p '_' hp,
    stringsSplit_of_not_mem n '_' hn]
  exact ⟨_, rfl⟩

theorem cutAfterChars_scheme (r h : List Char) (hr : ¬ [':', '/', '/'] <:+: r) :
    cutAfterChars [':', '/', '/'] (r ++ [':', '/', '/'] ++ h) = some h := by
  induction r with
  | nil => simp [cutAfterChars, List.isPrefixOf]
  | cons c r ih =>
    have hr1 : ¬ [':', '/', '/'] <:+: r := fun hi => hr (hi.trans (List.infix_cons (List.infix_refl _)))
    have hnp : ([':', '/', '/'].isPrefixOf (c :: r ++ [':', '/', '/'] ++ h)) = false := by
      cases hb : ([':', '/', '/'].isPrefixOf (c :: r ++ [':', '/', '/'] ++ h)) with
      | false => rfl
      | true =>
        exfalso
        match r, hr with
        | [], _ => simp [List.isPrefixOf] at hb
        | [x], _ => simp [List.isPrefixOf] at hb
        | x :: y :: r2, hr =>
          simp [List.isPrefixOf] at hb
          obtain ⟨h1, h2, h3⟩ := hb
          subst h1 h2 h3
          exact hr ((List.prefix_append [':', '/', '/'] r2).isInfix)
    have e : (c :: r ++ [':', '/', '/'] ++ h) = c :: (r ++ [':', '/', '/'] ++ h) := by simp
    rw [e] at hnp ⊢
    simp only [cutAfterChars, hnp]
    simpa using ih hr1

/-- Cutting `r://h` at `://` gives `h` when `r` holds no `://`. -/
theorem stringsCutAfter_scheme (r h : String) (hr : ¬ "://".data <:+: r.data) :
    stringsCutAfter (r ++ "://" ++ h) "://" = h := by
  have hd : "://".data = [':', '/', '/'] := rfl
  simp only [stringsCutAfter, String.data_append]
  rw [hd] at hr
  rw [cutAfterChars_scheme r.data h.data hr]

/-! ### The file system -/

theorem lookupIn_append (l1 l2 : List (Path × Node)) (p : Path) :
    lookupIn (l1 ++ l2) p =
      match lookupIn l1 p with
      | some n => some n
      | none => lookupIn l2 p := by
  induction l1 with
  | nil => simp [lookupIn]
  | cons hd tl ih =>
    obtain ⟨k, n⟩ := hd
    simp only [List.cons_append, lookupIn]
    by_cases h : k = p
    · simp [h]
    · simp only [h, if_false]; exact ih

theorem lookupIn_filter_not_prefix (p : Path) (l : List (Path × Node)) (q : Path) :
    lookupIn (l.filter (fun e => ¬ p <+: e.1)) q = if p <+: q then none else lookupIn l q := by
  induction l with
  | nil => simp [lookupIn]
  | cons hd tl ih =>
    obtain ⟨k, n⟩ := hd
    by_cases hk : p <+: k
    · have e : (((k, n) :: tl).filter (fun e => ¬ p <+: e.1)) = tl.filter (fun e => ¬ p <+: e.1) := by
        simp [List.filter_cons, hk]
      rw [e, ih]
      by_cases hq : p <+: q
      · simp [hq]
      · have hkq : k ≠ q := fun h => hq (h ▸ hk)
        simp [hq, lookupIn, hkq]
    · have e : (((k, n) :: tl).filter (fun e => ¬ p <+: e.1))
          = (k, n) :: tl.filter (fun e => ¬ p <+: e.1) := by
        simp [List.filter_cons, hk]
      rw [e]
      simp only [lookupIn, ih]
      by_cases hkq : k = q
      · subst hkq; simp [hk]
      · simp [hkq]

theorem lookupIn_filter_key (f : Path → Bool) (l : List (Path × Node)) (q : Path) :
    lookupIn (l.filter (fun e => f e.1)) q = if f q = true then lookupIn l q else none := by
  induction l with
  | nil => simp [lookupIn]
  | cons hd tl ih =>
    obtain ⟨k, n⟩ := hd
    by_cases hk : f k = true
    · simp only [List.filter_cons, hk, if_true, lookupIn, ih]
      by_cases hkq : k = q
      · subst hkq; simp [hk]
      · simp [hkq]
    · have e : (((k, n) :: tl).filter (fun e => f e.1)) = tl.filter (fun e => f e.1) := by
        simp [List.filter_cons, hk]
      rw [e, ih]
      by_cases hkq : k = q
      · subst hkq; simp [hk]
      · simp [lookupIn, hkq]

theorem lookupIn_ne_none_iff (l : List (Path × Node)) (p : Path) :
    lookupIn l p ≠ none ↔ ∃ e ∈ l, e.1 = p := by
  induction l with
  | nil => simp [lookupIn]
  | cons hd tl ih =>
    obtain ⟨k, n⟩ := hd
    simp only [lookupIn, List.mem_cons, exists_eq_or_imp]
    by_cases h : k = p
    · simp [h]
    · simp [h, ih]

theorem FS.lookup_nil (fs : FS) : fs.lookup [] = some Node.dir := by
  simp [FS.lookup]

theorem FS.lookup_of_ne_nil (fs : FS) (p : Path) (h : p ≠ []) :
    fs.lookup p = lookupIn fs.entries p := by
  simp [FS.lookup, h]

theorem FS.lookup_append_entry (fs : FS) (k : Path) (n : Node) (q : Path) :
    FS.lookup { fs with entries := fs.entries ++ [(k, n)] } q =
      match fs.lookup q with
      | some x => some x
      | none => if k = q then some n else none := by
  by_cases hq : q = []
  · subst hq; simp [FS.lookup]
  · simp only [FS.lookup, hq, if_false, lookupIn_append, lookupIn]

/-! #### `os.RemoveAll` -/

theorem osRemoveAll_pinned (fs : FS) (p : Path) : (osRemoveAll fs p).1.pinned = fs.pinned :=
  rfl

/-- What is above a path that cannot be removed cannot be removed. -/
theorem refuses_above (fs : FS) {p q : Path} (h : p <+: q) (hq : fs.refuses q) :
    fs.refuses p := by
  obtain ⟨x, hx, hqx⟩ := hq
  exact ⟨x, hx, h.trans hqx⟩

theorem osRemoveAll_all_entries (fs : FS) (p : Path) :
    (osRemoveAll fs p).1.entries
      = fs.entries.filter (fun e => ¬ p <+: e.1 ∨ fs.refuses e.1) :=
  rfl

theorem osRemoveAll_entries (fs : FS) (p : Path) (h : ¬ fs.refuses p) :
    (osRemoveAll fs p).1.entries = fs.entries.filter (fun e => ¬ p <+: e.1) := by
  rw [osRemoveAll_all_entries]
  apply List.filter_congr
  intro e _
  by_cases hp : p <+: e.1
  · have hr : ¬ fs.refuses e.1 := fun hr => h (refuses_above fs hp hr)
    simp [hp, hr]
  · simp [hp]

/-- After `os.RemoveAll(p)` a path at or below `p` is gone unless its removal
is refused; every other path is as before. -/
theorem osRemoveAll_lookup (fs : FS) (p q : Path) :
    (osRemoveAll fs p).1.lookup q =
      if p <+: q ∧ ¬ fs.refuses q ∧ q ≠ [] then none else fs.lookup q := by
  by_cases hq : q = []
  · subst hq; simp [FS.lookup]
  · have hkey := lookupIn_filter_key (fun k => decide (¬ p <+: k ∨ fs.refuses k)) fs.entries q
    simp only [FS.lookup, hq, if_false, osRemoveAll_all_entries]
    rw [hkey]
    by_cases h1 : p <+: q
    · by_cases h2 : fs.refuses q
      · simp [h1, h2]
      · simp [h1, h2, hq]
    · simp [h1]

theorem osRemoveAll_lookup_of_not_prefix (fs : FS) (p q : Path) (h : ¬ p <+: q) :
    (osRemoveAll fs p).1.lookup q = fs.lookup q := by
  rw [osRemoveAll_lookup]; simp [h]

theorem osRemoveAll_lookup_of_refuses (fs : FS) (p q : Path) (h : fs.refuses q) :
    (osRemoveAll fs p).1.lookup q = fs.lookup q := by
  rw [osRemoveAll_lookup]; simp [h]

/-- Removing where everything that stands cannot be removed changes nothing. -/
theorem osRemoveAll_of_held (fs : FS) (p : Path)
    (h : ∀ e ∈ fs.entries, p <+: e.1 → fs.refuses e.1) : (osRemoveAll fs p).1 = fs := by
  have e : fs.entries.filter (fun e => ¬ p <+: e.1 ∨ fs.refuses e.1) = fs.entries := by
    rw [List.filter_eq_self]
    intro a ha
    by_cases hp : p <+: a.1
    · simp [h a ha hp]
    · simp [hp]
  have e2 := osRemoveAll_all_entries fs p
  rw [e] at e2
  have e3 := osRemoveAll_pinned fs p
  cases hfs : (osRemoveAll fs p).1 with
  | mk ents pins =>
    rw [hfs] at e2 e3
    simp only at e2 e3
    subst e2 e3
    rfl

/-- Removing where nothing stands changes nothing. -/
theorem osRemoveAll_eq_self (fs : FS) (p : Path) (h : ∀ e ∈ fs.entries, ¬ p <+: e.1) :
    (osRemoveAll fs p).1 = fs :=
  osRemoveAll_of_held fs p (fun e he hp => absurd hp (h e he))

theorem osRemoveAll_mem_entries (fs : FS) (p : Path) (e : Path × Node)
    (h : e ∈ (osRemoveAll fs p).1.entries) : e ∈ fs.entries := by
  rw [osRemoveAll_all_entries] at h
  exact List.mem_of_mem_filter h

/-! #### `os.Symlink` -/

theorem osSymlink_of_exists (fs : FS) (t : String) (p : Path) (h : fs.lookup p ≠ none) :
    osSymlink fs t p = (fs, some Errno.EEXIST) := by
  unfold osSymlink
  cases hl : fs.lookup p with
  | none => exact absurd hl h
  | some n => rfl

theorem osSymlink_of_absent (fs : FS) (t : String) (p : Path) (h : fs.lookup p = none)
    (hd : fs.lookup p.dropLast = some Node.dir) :
    osSymlink fs t p = ({ fs with entries := fs.entries ++ [(p, Node.link t)] }, none) := by
  simp [osSymlink, h, hd]

theorem osSymlink_cases (fs : FS) (t : String) (p : Path) :
    (osSymlink fs t p = ({ fs with entries := fs.entries ++ [(p, Node.link t)] }, none) ∧
        fs.lookup p = none ∧ fs.lookup p.dropLast = some Node.dir) ∨
    ((osSymlink fs t p).1 = fs ∧ (osSymlink fs t p).2 ≠ none ∧
      ((osSymlink fs t p).2 = some Errno.EEXIST ↔ fs.lookup p ≠ none)) := by
  unfold osSymlink
  cases hl : fs.lookup p with
  | some n => right; simp
  | none =>
    cases hd : fs.lookup p.dropLast with
    | none => right; simp
    | some nd =>
      cases nd with
      | dir => left; simp
      | file => right; simp
      | link x => right; simp

theorem osSymlink_pinned (fs : FS) (t : String) (p : Path) :
    (osSymlink fs t p).1.pinned = fs.pinned := by
  rcases osSymlink_cases fs t p with h | h
  · rw [h.1]
  · rw [h.1]

theorem osSymlink_lookup_mono (fs : FS) (t : String) (p q : Path) (n : Node)
    (h : fs.lookup q = some n) : (osSymlink fs t p).1.lookup q = some n := by
  rcases osSymlink_cases fs t p with hc | hc
  · rw [hc.1, FS.lookup_append_entry, h]
  · rw [hc.1, h]

theorem osSymlink_lookup_of_ne (fs : FS) (t : String) (p q : Path) (h : q ≠ p) :
    (osSymlink fs t p).1.lookup q = fs.lookup q := by
  rcases osSymlink_cases fs t p with hc | hc
  · rw [hc.1, FS.lookup_append_entry]
    cases fs.lookup q <;> simp [Ne.symm h]
  · rw [hc.1]

/-- After a call of `os.Symlink` that reports nothing or `EEXIST`, an entry
stands at the link path. -/
theorem osSymlink_lookup_self (fs : FS) (t : String) (p : Path)
    (h : (osSymlink fs t p).2 = none ∨ (osSymlink fs t p).2 = some Errno.EEXIST) :
    (osSymlink fs t p).1.lookup p ≠ none := by
  rcases osSymlink_cases fs t p with hc | hc
  · rw [hc.1, FS.lookup_append_entry, hc.2.1]; simp
  · rcases h with h | h
    · exact absurd h hc.2.1
    · rw [hc.1]; exact hc.2.2.1 h

/-! #### `os.ReadDir` -/

theorem mem_childNames (entries : List (Path × Node)) (p : Path) (c : String) :
    c ∈ childNames entries p ↔ ∃ e ∈ entries, e.1 = p ++ [c] := by
  simp only [childNames, List.mem_filterMap]
  constructor
  · rintro ⟨e, he, h⟩
    refine ⟨e, he, ?_⟩
    cases hl : e.1.getLast? with
    | none => simp [hl] at h
    | some name =>
      simp only [hl] at h
      by_cases hd : e.1.dropLast = p
      · simp only [hd, if_true, Option.some.injEq] at h
        subst h
        rw [← hd]
        exact (List.dropLast_append_getLast? name hl).symm
      · simp [hd] at h
  · rintro ⟨e, he, h⟩
    refine ⟨e, he, ?_⟩
    simp [h]

theorem mem_sortNames (l : List String) (c : String) : c ∈ sortNames l ↔ c ∈ l :=
  (List.perm_insertionSort _ l).mem_iff

theorem nodup_sortNames (l : List String) (h : l.Nodup) : (sortNames l).Nodup :=
  (List.perm_insertionSort _ l).nodup_iff.mpr h

theorem osReadDir_ok (fs : FS) (p : Path) (names : List String)
    (h : osReadDir fs p = .ok names) :
    fs.lookup p = some Node.dir ∧ names = sortNames (childNames fs.entries p).dedup := by
  unfold osReadDir at h
  cases hl : fs.lookup p with
  | none => simp [hl] at h
  | some n =>
    cases n with
    | dir => simp only [hl, Except.ok.injEq] at h; exact ⟨rfl, h.symm⟩
    | file => simp [hl] at h
    | link t => simp [hl] at h

theorem osReadDir_of_dir (fs : FS) (p : Path) (h : fs.lookup p = some Node.dir) :
    osReadDir fs p = .ok (sortNames (childNames fs.entries p).dedup) := by
  simp [osReadDir, h]

theorem mem_osReadDir (fs : FS) (p : Path) (names : List String)
    (h : osReadDir fs p = .ok names) (c : String) :
    c ∈ names ↔ ∃ e ∈ fs.entries, e.1 = p ++ [c] := by
  rw [(osReadDir_ok fs p names h).2, mem_sortNames, List.mem_dedup, mem_childNames]

theorem nodup_osReadDir (fs : FS) (p : Path) (names : List String)
    (h : osReadDir fs p = .ok names) : names.Nodup := by
  rw [(osReadDir_ok fs p names h).2]
  exact nodup_sortNames _ (List.nodup_dedup _)

/-- In a well-formed state the names read from a directory are plain, and an
entry stands at each of them. -/
theorem osReadDir_plain (fs : FS) (hwf : fs.WF) (p : Path) (names : List String)
    (h : osReadDir fs p = .ok names) (c : String) (hc : c ∈ names) :
    plainName c = true ∧ fs.lookup (p ++ [c]) ≠ none := by
  obtain ⟨e, he, hk⟩ := (mem_osReadDir fs p names h c).mp hc
  refine ⟨hwf e he c (by rw [hk]; simp), ?_⟩
  rw [FS.lookup_of_ne_nil _ _ (by simp), lookupIn_ne_none_iff]
  exact ⟨e, he, hk⟩

/-! #### Prefixes of paths -/

theorem prefix_append_singleton_eq {R : Path} {a b : String} {q : Path}
    (h1 : R ++ [a] <+: q) (h2 : R ++ [b] <+: q) : a = b := by
  have h := List.prefix_of_prefix_length_le h1 h2 (by simp)
  have e := List.IsPrefix.eq_of_length h (by simp)
  simpa using e

/-! ### Cleanup of the pod-log root -/

theorem cleanupPodDirEntry_other (options : VirtualClusterOptions) (R : Path) (E : List Path)
    (fs : FS) (name : String) (hR : R ≠ options.VirtualKubeletPodPath) :
    cleanupPodDirEntry options R E fs name =
      if filepathJoin R [name] ∈ E then fs else (osRemoveAll fs (filepathJoin R [name])).1 := by
  simp [cleanupPodDirEntry, hR]

theorem cleanupPodDirEntry_other_pinned (options : VirtualClusterOptions) (R : Path)
    (E : List Path) (fs : FS) (name : String) (hR : R ≠ options.VirtualKubeletPodPath) :
    (cleanupPodDirEntry options R E fs name).pinned = fs.pinned := by
  rw [cleanupPodDirEntry_other options R E fs name hR]
  split
  · rfl
  · exact osRemoveAll_pinned _ _

/-- What the loop of `cleanupOldPodPath` leaves of a state, on a root other
than the kubelet root. -/
theorem cleanupLoop_other_lookup (options : VirtualClusterOptions) (R : Path) (E : List Path)
    (hR : R ≠ options.VirtualKubeletPodPath) (names : List String) (fs : FS) (q : Path) :
    (names.foldl (cleanupPodDirEntry options R E) fs).pinned = fs.pinned ∧
    (names.foldl (cleanupPodDirEntry options R E) fs).lookup q =
      if ∃ c ∈ names, filepathJoin R [c] ∉ E ∧ filepathJoin R [c] <+: q ∧
          ¬ fs.refuses q ∧ q ≠ []
      then none else fs.lookup q := by
  induction names generalizing fs with
  | nil => simp
  | cons c rest ih =>
    simp only [List.foldl_cons]
    obtain ⟨ihp, ihl⟩ := ih (cleanupPodDirEntry options R E fs c)
    have hp := cleanupPodDirEntry_other_pinned options R E fs c hR
    refine ⟨ihp.trans hp, ?_⟩
    rw [ihl]
    have hrefuse : ∀ x, (cleanupPodDirEntry options R E fs c).refuses x ↔ fs.refuses x := by
      intro x; simp only [FS.refuses, hp]
    simp only [hrefuse, List.mem_cons, exists_eq_or_imp]
    rw [cleanupPodDirEntry_other options R E fs c hR]
    by_cases hrest : ∃ c ∈ rest, filepathJoin R [c] ∉ E ∧ filepathJoin R [c] <+: q ∧
        ¬ fs.refuses q ∧ q ≠ []
    · simp [hrest]
    · simp only [hrest, if_false, or_false]
      by_cases hE : filepathJoin R [c] ∈ E
      · simp [hE]
      · simp only [hE, if_false, not_false_eq_true, true_and, osRemoveAll_lookup]

theorem cleanupLoop_other_entries (options : VirtualClusterOptions) (R : Path) (E : List Path)
    (hR : R ≠ options.VirtualKubeletPodPath) (names : List String) (fs : FS)
    (e : Path × Node) (h : e ∈ (names.foldl (cleanupPodDirEntry options R E) fs).entries) :
    e ∈ fs.entries := by
  induction names generalizing fs with
  | nil => simpa using h
  | cons c rest ih =>
    simp only [List.foldl_cons] at h
    have h1 := ih _ h
    rw [cleanupPodDirEntry_other options R E fs c hR] at h1
    split at h1
    · exact h1
    · exact osRemoveAll_mem_entries fs _ e h1

/-- C5: on a root other than the kubelet root, `cleanupOldPodPath` returns no
error once the root is read, whether or not a removal fails; a child is gone
afterwards exactly when its joined path is no key of the seen-set and its
removal is not refused; a child that is a key of the seen-set keeps everything
at and below it; at and below a child that is no key `os.RemoveAll` removes
what it can, so that what is left there are the entries whose removal is
refused, as they were; and nothing outside the children of the root
changes. -/
theorem cleanupOldPodPath_podLogs (options : VirtualClusterOptions) (fs : FS) (R : Path)
    (E : List Path) (names : List String)
    (hR : R ≠ options.VirtualKubeletPodPath) (hwf : fs.WF)
    (hrd : osReadDir fs R = .ok names) :
    (cleanupOldPodPath options fs R E).2 = none ∧
    (∀ c ∈ names, fs.lookup (filepathJoin R [c]) ≠ none ∧
      ((cleanupOldPodPath options fs R E).1.lookup (filepathJoin R [c]) = none ↔
        (filepathJoin R [c] ∉ E ∧ ¬ fs.refuses (filepathJoin R [c])))) ∧
    (∀ c ∈ names, filepathJoin R [c] ∈ E → ∀ q, filepathJoin R [c] <+: q →
      (cleanupOldPodPath options fs R E).1.lookup q = fs.lookup q) ∧
    (∀ c ∈ names, filepathJoin R [c] ∉ E → ∀ q, filepathJoin R [c] <+: q →
      (cleanupOldPodPath options fs R E).1.lookup q
        = if fs.refuses q then fs.lookup q else none) ∧
    (∀ q, (∀ c ∈ names, ¬ filepathJoin R [c] <+: q) →
      (cleanupOldPodPath options fs R E).1.lookup q = fs.lookup q) := by
  have hjoin : ∀ c ∈ names, filepathJoin R [c] = R ++ [c] := fun c hc =>
    filepathJoin_plain R c (osReadDir_plain fs hwf R names hrd c hc).1
  have hres : (cleanupOldPodPath options fs R E)
      = (names.foldl (cleanupPodDirEntry options R E) fs, none) := by
    simp [cleanupOldPodPath, hrd]
  rw [hres]
  refine ⟨rfl, ?_, ?_, ?_, ?_⟩
  · intro c hc
    have hex := (osReadDir_plain fs hwf R names hrd c hc).2
    rw [← hjoin c hc] at hex
    refine ⟨hex, ?_⟩
    simp only [(cleanupLoop_other_lookup options R E hR names fs _).2]
    constructor
    · intro h
      by_cases hcond : ∃ c1 ∈ names, filepathJoin R [c1] ∉ E ∧
          filepathJoin R [c1] <+: filepathJoin R [c] ∧ ¬ fs.refuses (filepathJoin R [c]) ∧
          filepathJoin R [c] ≠ []
      · obtain ⟨c1, hc1, hE, hpre, hr, _⟩ := hcond
        rw [hjoin c1 hc1, hjoin c hc] at hpre
        have := prefix_append_singleton_eq hpre (List.prefix_refl _)
        subst this
        exact ⟨hE, hr⟩
      · rw [if_neg hcond] at h; exact absurd h hex
    · rintro ⟨hE, hr⟩
      rw [if_pos]
      exact ⟨c, hc, hE, List.prefix_refl _, hr, by rw [hjoin c hc]; simp⟩
  · intro c hc hkeep q hq
    simp only [(cleanupLoop_other_lookup options R E hR names fs _).2]
    rw [if_neg]
    rintro ⟨c1, hc1, hE, hpre, _, _⟩
    rw [hjoin c1 hc1] at hpre
    rw [hjoin c hc] at hq
    have := prefix_append_singleton_eq hpre hq
    subst this
    exact hE hkeep
  · intro c hc hE q hq
    simp only [(cleanupLoop_other_lookup options R E hR names fs _).2]
    have hqne : q ≠ [] := by
      intro h0
      rw [hjoin c hc, h0] at hq
      simp at hq
    by_cases hr : fs.refuses q
    · rw [if_pos hr, if_neg]
      rintro ⟨_, _, _, _, hnr, _⟩
      exact hnr hr
    · rw [if_neg hr, if_pos]
      exact ⟨c, hc, hE, hq, hr, hqne⟩
  · intro q hq
    simp only [(cleanupLoop_other_lookup options R E hR names fs _).2]
    rw [if_neg]
    rintro ⟨c1, hc1, _, hpre, _, _⟩
    exact hq c1 hc1 hpre

theorem cleanupOldPodPath_podLogs_witness :
    (exampleOptions.VirtualPodLogsPath ≠ exampleOptions.VirtualKubeletPodPath ∧
      exampleLockedFS.WF ∧
      osReadDir exampleLockedFS exampleOptions.VirtualPodLogsPath
        = .ok ["ns1_gone_u9", "ns1_locked_u4", "ns1_old_u0"] ∧
      (osRemoveAll exampleLockedFS
        (filepathJoin exampleOptions.VirtualPodLogsPath ["ns1_locked_u4"])).2
        = some Errno.EPERM) ∧
    (cleanupOldPodPath exampleOptions exampleLockedFS exampleOptions.VirtualPodLogsPath
      [exampleOptions.VirtualPodLogsPath ++ ["ns1_old_u0"]]).2 = none ∧
    (cleanupOldPodPath exampleOptions exampleLockedFS exampleOptions.VirtualPodLogsPath
      [exampleOptions.VirtualPodLogsPath ++ ["ns1_old_u0"]]).1.lookup
        (exampleOptions.VirtualPodLogsPath ++ ["ns1_locked_u4", "b.log"]) = none ∧
    (cleanupOldPodPath exampleOptions exampleLockedFS exampleOptions.VirtualPodLogsPath
      [exampleOptions.VirtualPodLogsPath ++ ["ns1_old_u0"]]).1.lookup
        (exampleOptions.VirtualPodLogsPath ++ ["ns1_locked_u4", "a.log"]) = some Node.file ∧
    (cleanupOldPodPath exampleOptions exampleLockedFS exampleOptions.VirtualPodLogsPath
      [exampleOptions.VirtualPodLogsPath ++ ["ns1_old_u0"]]).1.lookup
        (exampleOptions.VirtualPodLogsPath ++ ["ns1_locked_u4"]) = some Node.dir :=
  ⟨by decide,
   (cleanupOldPodPath_podLogs exampleOptions exampleLockedFS exampleOptions.VirtualPodLogsPath
      [exampleOptions.VirtualPodLogsPath ++ ["ns1_old_u0"]]
      ["ns1_gone_u9", "ns1_locked_u4", "ns1_old_u0"] (by decide) (by decide) (by decide)).1,
   ((cleanupOldPodPath_podLogs exampleOptions exampleLockedFS exampleOptions.VirtualPodLogsPath
      [exampleOptions.VirtualPodLogsPath ++ ["ns1_old_u0"]]
      ["ns1_gone_u9", "ns1_locked_u4", "ns1_old_u0"] (by decide) (by decide)
      (by decide)).2.2.2.1 "ns1_locked_u4" (by decide) (by decide)
      (exampleOptions.VirtualPodLogsPath ++ ["ns1_locked_u4", "b.log"]) (by decide)).trans
      (by decide),
   by decide, by decide⟩

/-! ### Cleanup of the kubelet root -/

theorem RemovedBelowUnseen.below_refl (K : Path) (E : List Path) (fs : FS) :
    RemovedBelowUnseen K E fs fs :=
  ⟨rfl, fun _ h => h, fun _ => Or.inl rfl⟩

theorem RemovedBelowUnseen.below_wf {K : Path} {E : List Path} {fs fs1 : FS}
    (h : RemovedBelowUnseen K E fs fs1) (hwf : fs.WF) : fs1.WF :=
  fun e he => hwf e (h.2.1 e he)

theorem prefix_two_eq {K : Path} {a b c d : String} {q : Path}
    (h1 : K ++ [a, b] <+: q) (h2 : K ++ [c, d] <+: q) : K ++ [a, b] = K ++ [c, d] := by
  have h := List.prefix_of_prefix_length_le h1 h2 (by simp)
  exact List.IsPrefix.eq_of_length h (by simp)

/-- One removal of the inner loop keeps the relation to the state the cleanup
started from. -/
theorem RemovedBelowUnseen.step {K : Path} {E : List Path} {fs cur : FS}
    (h : RemovedBelowUnseen K E fs cur) (c g : String) (hc : plainName c = true)
    (hg : plainName g = true) (hE : K ++ [c] ∉ E)
    (hl : ∀ t, cur.lookup (K ++ [c, g]) ≠ some (Node.link t)) :
    RemovedBelowUnseen K E fs (osRemoveAll cur (K ++ [c, g])).1 := by
  have horig : ∀ t, fs.lookup (K ++ [c, g]) ≠ some (Node.link t) := by
    intro t ht
    rcases h.2.2 (K ++ [c, g]) with e | ⟨_, c1, g1, _, _, _, hnl, hpre⟩
    · exact hl t (e.trans ht)
    · have := prefix_two_eq hpre (List.prefix_refl _)
      rw [this] at hnl
      exact hnl t ht
  refine ⟨(osRemoveAll_pinned _ _).trans h.1,
    fun e he => h.2.1 e (osRemoveAll_mem_entries _ _ e he), ?_⟩
  intro q
  rw [osRemoveAll_lookup]
  by_cases hcond : K ++ [c, g] <+: q ∧ ¬ cur.refuses q ∧ q ≠ []
  · rw [if_pos hcond]
    exact Or.inr ⟨rfl, c, g, hc, hg, hE, horig, hcond.1⟩
  · rw [if_neg hcond]
    exact h.2.2 q

theorem append_two (K : Path) (c g : String) : K ++ [c] ++ [g] = K ++ [c, g] := by simp

theorem RemovedBelowUnseen.inner {K : Path} {E : List Path} {fs : FS} (c : String)
    (hc : plainName c = true) (hE : K ++ [c] ∉ E) (symlinks : List String)
    (hs : ∀ g ∈ symlinks, plainName g = true) (cur : FS)
    (h : RemovedBelowUnseen K E fs cur) :
    RemovedBelowUnseen K E fs (cleanupKubeletLinks (K ++ [c]) symlinks cur) := by
  induction symlinks generalizing cur with
  | nil => simpa [cleanupKubeletLinks] using h
  | cons g rest ih =>
    have hg := hs g (List.mem_cons_self _ _)
    have hrest : ∀ g ∈ rest, plainName g = true := fun x hx => hs x (List.mem_cons_of_mem _ hx)
    simp only [cleanupKubeletLinks, filepathJoin_plain (K ++ [c]) g hg, append_two]
    cases hrl : osReadlink cur (K ++ [c, g]) with
    | ok t => exact ih hrest cur h
    | error err =>
      apply ih hrest
      apply h.step c g hc hg hE
      intro t ht
      simp [osReadlink, ht] at hrl

theorem RemovedBelowUnseen.entry {options : VirtualClusterOptions} {E : List Path} {fs : FS}
    (hwf : fs.WF) (c : String) (hc : plainName c = true) (cur : FS)
    (h : RemovedBelowUnseen options.VirtualKubeletPodPath E fs cur) :
    RemovedBelowUnseen options.VirtualKubeletPodPath E fs
      (cleanupPodDirEntry options options.VirtualKubeletPodPath E cur c) := by
  simp only [cleanupPodDirEntry, filepathJoin_plain _ c hc, if_true]
  split
  · exact h
  · rename_i hE
    apply RemovedBelowUnseen.inner c hc hE _ _ cur h
    intro g hg
    cases hrd : osReadDir cur (options.VirtualKubeletPodPath ++ [c]) with
    | error err => simp [hrd] at hg
    | ok l =>
      simp only [hrd] at hg
      exact (osReadDir_plain cur (h.below_wf hwf) _ l hrd g hg).1

theorem RemovedBelowUnseen.loop {options : VirtualClusterOptions} {E : List Path} {fs : FS}
    (hwf : fs.WF) (names : List String) (hn : ∀ c ∈ names, plainName c = true) (cur : FS)
    (h : RemovedBelowUnseen options.VirtualKubeletPodPath E fs cur) :
    RemovedBelowUnseen options.VirtualKubeletPodPath E fs
      (names.foldl (cleanupPodDirEntry options options.VirtualKubeletPodPath E) cur) := by
  induction names generalizing cur with
  | nil => simpa using h
  | cons c rest ih =>
    simp only [List.foldl_cons]
    exact ih (fun x hx => hn x (List.mem_cons_of_mem _ hx)) _
      (RemovedBelowUnseen.entry hwf c (hn c (List.mem_cons_self _ _)) cur h)

/-- The kubelet cleanup only removes at grandchildren that are no links, under
children that are no keys of the seen-set. -/
theorem cleanupOldPodPath_kubelet_rel (options : VirtualClusterOptions) (fs : FS)
    (E : List Path) (hwf : fs.WF) :
    RemovedBelowUnseen options.VirtualKubeletPodPath E fs
      (cleanupOldPodPath options fs options.VirtualKubeletPodPath E).1 := by
  unfold cleanupOldPodPath
  cases hrd : osReadDir fs options.VirtualKubeletPodPath with
  | error err => exact RemovedBelowUnseen.below_refl _ _ _
  | ok names =>
    exact RemovedBelowUnseen.loop hwf names
      (fun c hc => (osReadDir_plain fs hwf _ names hrd c hc).1) fs (RemovedBelowUnseen.below_refl _ _ _)

theorem linkResolves_link (fs : FS) (p : Path) (h : linkResolves fs p = true) :
    ∃ t, fs.lookup p = some (Node.link t) := by
  unfold linkResolves at h
  cases hl : fs.lookup p with
  | none => simp [hl] at h
  | some n =>
    cases n with
    | dir => simp [hl] at h
    | file => simp [hl] at h
    | link t => exact ⟨t, rfl⟩

/-- C3 (the code at the failing input): under the unseen kubelet directory
`u0` stands the regular file `stray`, which is no symbolic link whose target
cannot be resolved: `os.Stat` finds it. The cleanup of the kubelet root removes
it all the same, because `os.Readlink` fails on what is no link (`EINVAL`). The
directory `u0` and the link `etc-hosts`, whose target resolves, stay. -/
theorem cleanupOldPodPath_kubelet_removes_regular_file :
    exampleFS.lookup (exampleOptions.VirtualKubeletPodPath ++ ["u0"]) = some Node.dir ∧
    exampleFS.lookup (exampleOptions.VirtualKubeletPodPath ++ ["u0", "stray"])
      = some Node.file ∧
    osStat exampleFS (exampleOptions.VirtualKubeletPodPath ++ ["u0", "stray"])
      = .ok Node.file ∧
    osReadlink exampleFS (exampleOptions.VirtualKubeletPodPath ++ ["u0", "stray"])
      = .error Errno.EINVAL ∧
    (cleanupOldPodPath exampleOptions exampleFS exampleOptions.VirtualKubeletPodPath []).2
      = none ∧
    (cleanupOldPodPath exampleOptions exampleFS exampleOptions.VirtualKubeletPodPath []).1.lookup
        (exampleOptions.VirtualKubeletPodPath ++ ["u0", "stray"]) = none ∧
    (cleanupOldPodPath exampleOptions exampleFS exampleOptions.VirtualKubeletPodPath []).1.lookup
        (exampleOptions.VirtualKubeletPodPath ++ ["u0"]) = some Node.dir ∧
    linkResolves exampleFS (exampleOptions.VirtualKubeletPodPath ++ ["u0", "etc-hosts"]) = true ∧
    (cleanupOldPodPath exampleOptions exampleFS exampleOptions.VirtualKubeletPodPath []).1.lookup
        (exampleOptions.VirtualKubeletPodPath ++ ["u0", "etc-hosts"])
      = some (Node.link "/var/vcluster/physical/kubelet/pods/pu0/etc-hosts") := by
  decide

/-- C4 (the code at the failing input): under the unseen kubelet directory
`u0` stands a link whose target is gone, `os.Stat` does not find it, and the
cleanup of the kubelet root leaves the link in place: `os.Readlink` succeeds on
it, since it reads the link and does not look for its target. -/
theorem cleanupOldPodPath_kubelet_stale_link_stays :
    exampleFS.lookup (exampleOptions.VirtualKubeletPodPath ++ ["u0"]) = some Node.dir ∧
    exampleFS.lookup (exampleOptions.VirtualKubeletPodPath ++ ["u0", "volumes"])
      = some (Node.link "/var/vcluster/physical/kubelet/pods/pu0/volumes") ∧
    osStat exampleFS (exampleOptions.VirtualKubeletPodPath ++ ["u0", "volumes"])
      = .error Errno.ENOENT ∧
    linkResolves exampleFS (exampleOptions.VirtualKubeletPodPath ++ ["u0", "volumes"]) = false ∧
    osReadlink exampleFS (exampleOptions.VirtualKubeletPodPath ++ ["u0", "volumes"])
      = .ok "/var/vcluster/physical/kubelet/pods/pu0/volumes" ∧
    (cleanupOldPodPath exampleOptions exampleFS exampleOptions.VirtualKubeletPodPath []).1.lookup
        (exampleOptions.VirtualKubeletPodPath ++ ["u0", "volumes"])
      = some (Node.link "/var/vcluster/physical/kubelet/pods/pu0/volumes") := by
  decide

/-! ### Cleanup of the container-logs root -/

theorem cleanupContainerEntries_cons (options : VirtualClusterOptions) (existing : List String)
    (name : String) (rest : List String) (fs : FS) :
    cleanupContainerEntries options existing (name :: rest) fs =
      match containerKey name with
      | some key =>
        if key ∈ existing then cleanupContainerEntries options existing rest fs
        else cleanupContainerEntries options existing rest
          (osRemoveAll fs (filepathJoin options.VirtualContainerLogsPath [name])).1
      | none => (fs, Outcome.panicked) := by
  simp only [cleanupContainerEntries, containerKey]
  cases hs : stringsSplit name '_' with
  | nil => rfl
  | cons a t =>
    cases t with
    | nil => rfl
    | cons b t2 => rfl

/-- Whatever the outcome, the loop of `cleanupOldContainerPaths` only removes
at entries whose key is not among the observed pods. -/
theorem cleanupContainerEntries_safe (options : VirtualClusterOptions) (existing : List String)
    (names : List String) (fs : FS) :
    (cleanupContainerEntries options existing names fs).1.pinned = fs.pinned ∧
    (∀ e ∈ (cleanupContainerEntries options existing names fs).1.entries, e ∈ fs.entries) ∧
    ∀ q, (cleanupContainerEntries options existing names fs).1.lookup q = fs.lookup q ∨
      ((cleanupContainerEntries options existing names fs).1.lookup q = none ∧
        ∃ name ∈ names, ∃ key, containerKey name = some key ∧ key ∉ existing ∧
          filepathJoin options.VirtualContainerLogsPath [name] <+: q) := by
  induction names generalizing fs with
  | nil => simp [cleanupContainerEntries]
  | cons name rest ih =>
    rw [cleanupContainerEntries_cons]
    cases hk : containerKey name with
    | none => simp
    | some key =>
      simp only
      by_cases hmem : key ∈ existing
      · simp only [hmem, if_true]
        obtain ⟨h1, h2, h3⟩ := ih fs
        refine ⟨h1, h2, fun q => ?_⟩
        rcases h3 q with e | ⟨e, nm, hnm, k, hk1, hk2, hpre⟩
        · exact Or.inl e
        · exact Or.inr ⟨e, nm, List.mem_cons_of_mem _ hnm, k, hk1, hk2, hpre⟩
      · simp only [hmem, if_false]
        obtain ⟨h1, h2, h3⟩ :=
          ih (osRemoveAll fs (filepathJoin options.VirtualContainerLogsPath [name])).1
        refine ⟨h1.trans (osRemoveAll_pinned _ _),
          fun e he => osRemoveAll_mem_entries _ _ e (h2 e he), fun q => ?_⟩
        rcases h3 q with e | ⟨e, nm, hnm, k, hk1, hk2, hpre⟩
        · rw [e, osRemoveAll_lookup]
          by_cases hcond : filepathJoin options.VirtualContainerLogsPath [name] <+: q ∧
              ¬ fs.refuses q ∧ q ≠ []
          · rw [if_pos hcond]
            exact Or.inr ⟨rfl, name, List.mem_cons_self _ _, key, hk, hmem, hcond.1⟩
          · rw [if_neg hcond]; exact Or.inl rfl
        · exact Or.inr ⟨e, nm, List.mem_cons_of_mem _ hnm, k, hk1, hk2, hpre⟩

/-- When the loop of `cleanupOldContainerPaths` runs to its end, exactly what
stands at and below the entries whose key is not among the observed pods, and
can be removed, is gone. -/
theorem cleanupContainerEntries_lookup (options : VirtualClusterOptions)
    (existing : List String) (names : List String) (fs : FS)
    (hret : (cleanupContainerEntries options existing names fs).2 = Outcome.returned none)
    (q : Path) :
    (cleanupContainerEntries options existing names fs).1.lookup q =
      if ∃ name ∈ names, ∃ key, containerKey name = some key ∧ key ∉ existing ∧
          filepathJoin options.VirtualContainerLogsPath [name] <+: q ∧
          ¬ fs.refuses q ∧ q ≠ []
      then none else fs.lookup q := by
  induction names generalizing fs with
  | nil => simp [cleanupContainerEntries]
  | cons name rest ih =>
    rw [cleanupContainerEntries_cons] at hret ⊢
    cases hk : containerKey name with
    | none => simp [hk] at hret
    | some key =>
      simp only [hk] at hret
      simp only [List.mem_cons, exists_eq_or_imp, hk, Option.some.injEq, exists_eq_left']
      by_cases hmem : key ∈ existing
      · simp only [hmem, if_true] at hret ⊢
        rw [ih fs hret]
        simp
      · simp only [hmem, if_false] at hret ⊢
        rw [ih _ hret]
        have hrefuse : ∀ x, (osRemoveAll fs
            (filepathJoin options.VirtualContainerLogsPath [name])).1.refuses x ↔ fs.refuses x := by
          intro x; simp only [FS.refuses, osRemoveAll_pinned]
        simp only [hrefuse, osRemoveAll_lookup, not_false_eq_true, true_and]
        by_cases hrest : ∃ nm ∈ rest, ∃ k, containerKey nm = some k ∧ k ∉ existing ∧
            filepathJoin options.VirtualContainerLogsPath [nm] <+: q ∧
            ¬ fs.refuses q ∧ q ≠ []
        · simp [hrest]
        · simp only [hrest, if_false, or_false]

theorem containerKey_template (p n c h : String) (hp : '_' ∉ p.data) (hn : '_' ∉ n.data) :
    containerKey (ContainerSymlinkSourceTemplate p n c h) = some (sprintf2 p n) := by
  obtain ⟨rest, hr⟩ := stringsSplit_template p n c h hp hn
  simp [containerKey, hr]

theorem plainName_of_lookup (fs : FS) (hwf : fs.WF) (R : Path) (c : String)
    (h : fs.lookup (R ++ [c]) ≠ none) : plainName c = true ∧ ∃ e ∈ fs.entries, e.1 = R ++ [c] := by
  rw [FS.lookup_of_ne_nil _ _ (by simp), lookupIn_ne_none_iff] at h
  obtain ⟨e, he, hk⟩ := h
  exact ⟨hwf e he c (by rw [hk]; simp), e, he, hk⟩

/-- C6: for a pod name `p` and a namespace `n` without underscore, the key
that the cleanup reads off the entry name `p_n_c-h.log` is the key `p_n` that
the pass records for the pod; the loop of `cleanupOldContainerPaths` hands the
entry to `os.RemoveAll` exactly when that key is not among the observed pods;
and when the cleanup runs to its end and the removal is not refused, the entry
is gone afterwards exactly when the key is absent, and untouched when the key
is present. -/
theorem cleanupOldContainerPaths_key (options : VirtualClusterOptions) (existing : List String)
    (p n c h : String) (hp : '_' ∉ p.data) (hn : '_' ∉ n.data) :
    containerKey (ContainerSymlinkSourceTemplate p n c h) = some (sprintf2 p n) ∧
    (∀ rest fs, cleanupContainerEntries options existing
        (ContainerSymlinkSourceTemplate p n c h :: rest) fs =
      if sprintf2 p n ∈ existing then cleanupContainerEntries options existing rest fs
      else cleanupContainerEntries options existing rest
        (osRemoveAll fs (filepathJoin options.VirtualContainerLogsPath
          [ContainerSymlinkSourceTemplate p n c h])).1) ∧
    (∀ fs : FS, fs.WF →
      fs.lookup (options.VirtualContainerLogsPath) = some Node.dir →
      fs.lookup (options.VirtualContainerLogsPath ++ [ContainerSymlinkSourceTemplate p n c h])
        ≠ none →
      (cleanupOldContainerPaths options fs existing).2 = Outcome.returned none →
      ¬ fs.refuses (options.VirtualContainerLogsPath ++ [ContainerSymlinkSourceTemplate p n c h]) →
      ((cleanupOldContainerPaths options fs existing).1.lookup
          (options.VirtualContainerLogsPath ++ [ContainerSymlinkSourceTemplate p n c h]) = none ↔
        sprintf2 p n ∉ existing) ∧
      (sprintf2 p n ∈ existing →
        (cleanupOldContainerPaths options fs existing).1.lookup
            (options.VirtualContainerLogsPath ++ [ContainerSymlinkSourceTemplate p n c h])
          = fs.lookup
            (options.VirtualContainerLogsPath ++ [ContainerSymlinkSourceTemplate p n c h]))) := by
  have hkey := containerKey_template p n c h hp hn
  refine ⟨hkey, ?_, ?_⟩
  · intro rest fs
    rw [cleanupContainerEntries_cons, hkey]
  · intro fs hwf hroot hentry hret hnr
    obtain ⟨hplain, e, he, hek⟩ := plainName_of_lookup fs hwf _ _ hentry
    have hrd := osReadDir_of_dir fs _ hroot
    have hmem : ContainerSymlinkSourceTemplate p n c h ∈
        sortNames (childNames fs.entries options.VirtualContainerLogsPath).dedup :=
      (mem_osReadDir fs _ _ hrd _).mpr ⟨e, he, hek⟩
    have hres : cleanupOldContainerPaths options fs existing
        = cleanupContainerEntries options existing
            (sortNames (childNames fs.entries options.VirtualContainerLogsPath).dedup) fs := by
      simp [cleanupOldContainerPaths, hrd]
    rw [hres] at hret ⊢
    have hjoin : ∀ nm ∈ sortNames (childNames fs.entries options.VirtualContainerLogsPath).dedup,
        filepathJoin options.VirtualContainerLogsPath [nm]
          = options.VirtualContainerLogsPath ++ [nm] := fun nm hnm =>
      filepathJoin_plain _ nm (osReadDir_plain fs hwf _ _ hrd nm hnm).1
    rw [cleanupContainerEntries_lookup options existing _ fs hret]
    constructor
    · constructor
      · intro hnone
        by_cases hcond : ∃ name ∈ sortNames (childNames fs.entries
            options.VirtualContainerLogsPath).dedup, ∃ key, containerKey name = some key ∧
            key ∉ existing ∧
            filepathJoin options.VirtualContainerLogsPath [name] <+:
              options.VirtualContainerLogsPath ++ [ContainerSymlinkSourceTemplate p n c h] ∧
            ¬ fs.refuses
              (options.VirtualContainerLogsPath ++ [ContainerSymlinkSourceTemplate p n c h]) ∧
            options.VirtualContainerLogsPath ++ [ContainerSymlinkSourceTemplate p n c h] ≠ []
        · obtain ⟨nm, hnm, key, hk1, hk2, hpre, _, _⟩ := hcond
          rw [hjoin nm hnm] at hpre
          have := prefix_append_singleton_eq hpre (List.prefix_refl _)
          subst this
          rw [hkey] at hk1
          simp only [Option.some.injEq] at hk1
          subst hk1
          exact hk2
        · rw [if_neg hcond] at hnone
          exact absurd hnone hentry
      · intro habs
        rw [if_pos]
        refine ⟨_, hmem, _, hkey, habs, ?_, hnr, by simp⟩
        rw [hjoin _ hmem]
    · intro hpres
      rw [if_neg]
      rintro ⟨nm, hnm, key, hk1, hk2, hpre, _, _⟩
      rw [hjoin nm hnm] at hpre
      have := prefix_append_singleton_eq hpre (List.prefix_refl _)
      subst this
      rw [hkey] at hk1
      simp only [Option.some.injEq] at hk1
      subst hk1
      exact hk2 hpres

theorem cleanupOldContainerPaths_key_witness :
    ('_' ∉ "old".data ∧ '_' ∉ "ns1".data) ∧
    containerKey "old_ns1_c0-fff.log" = some "old_ns1" ∧
    (exampleFS.WF ∧
      exampleFS.lookup exampleOptions.VirtualContainerLogsPath = some Node.dir ∧
      exampleFS.lookup (exampleOptions.VirtualContainerLogsPath ++ ["old_ns1_c0-fff.log"]) ≠ none ∧
      (cleanupOldContainerPaths exampleOptions exampleFS ["p1_ns1"]).2 = Outcome.returned none ∧
      ¬ exampleFS.refuses (exampleOptions.VirtualContainerLogsPath ++ ["old_ns1_c0-fff.log"])) ∧
    (cleanupOldContainerPaths exampleOptions exampleFS ["p1_ns1"]).1.lookup
        (exampleOptions.VirtualContainerLogsPath ++ ["old_ns1_c0-fff.log"]) = none :=
  ⟨by decide,
   (cleanupOldContainerPaths_key exampleOptions ["p1_ns1"] "old" "ns1" "c0" "fff"
      (by decide) (by decide)).1,
   by decide,
   ((cleanupOldContainerPaths_key exampleOptions ["p1_ns1"] "old" "ns1" "c0" "fff"
      (by decide) (by decide)).2.2 exampleFS (by decide) (by decide) (by decide) (by decide)
      (by decide)).1.mpr (by decide)⟩

/-! ### Container links -/

theorem containerLinksLoop_lookup_mono (options : VirtualClusterOptions) (vPod : Pod)
    (pPodDetail : PodDetail) (targetDir : Path) (statuses : List ContainerStatus) (fs : FS)
    (q : Path) (n : Node) (h : fs.lookup q = some n) :
    (containerLinksLoop options vPod pPodDetail targetDir statuses fs).1.lookup q = some n := by
  induction statuses generalizing fs with
  | nil => simpa [containerLinksLoop] using h
  | cons cs rest ih =>
    simp only [containerLinksLoop]
    split
    · exact ih fs h
    · rename_i f hf
      split
      · rename_i fs1 err hs
        have hm := osSymlink_lookup_mono fs
          (pathString (filepathJoin targetDir [cs.Name, f]))
          (filepathJoin options.VirtualContainerLogsPath
            [ContainerSymlinkSourceTemplate vPod.Name vPod.Namespace cs.Name
              (stringsCutAfter cs.ContainerID "://")]) q n h
        rw [hs] at hm
        split
        · exact ih fs1 hm
        · exact hm
      · rename_i fs1 hs
        have hm := osSymlink_lookup_mono fs
          (pathString (filepathJoin targetDir [cs.Name, f]))
          (filepathJoin options.VirtualContainerLogsPath
            [ContainerSymlinkSourceTemplate vPod.Name vPod.Namespace cs.Name
              (stringsCutAfter cs.ContainerID "://")]) q n h
        rw [hs] at hm
        exact ih fs1 hm

theorem getPhysicalLogFilename_ok (fs : FS) (name d f : String) (hf : '/' ∉ f.data)
    (h : osReadlink fs (filepathJoin LogsMountPath ["containers", name]) = .ok (d ++ "/" ++ f)) :
    getPhysicalLogFilename fs name = .ok f := by
  simp only [getPhysicalLogFilename, h, stringsSplit_getLastD_segment d f hf]

theorem getPhysicalLogFilename_error (fs : FS) (name : String) (e : Errno)
    (h : osReadlink fs (filepathJoin LogsMountPath ["containers", name]) = .error e) :
    getPhysicalLogFilename fs name = .error (GoError.sys e) := by
  simp only [getPhysicalLogFilename, h]

/-- C7: for a container status `c`, `r://h` of the virtual pod at the head of
the loop of `createContainerToPodSymlink`: when the physical link
`/var/log/containers/pp_pn_c-h.log` reads as a target ending in the segment
`f`, the loop calls `os.Symlink` for the link `p_n_c-h.log` under the
container-logs root with the target `targetDir/c/f`: where nothing stands yet
under an existing root the link is created, stands with that target when the
call ends, and the loop goes on; where something stands already it is left and
the loop goes on. When the physical link cannot be read, the container is
skipped: the state is unchanged and the loop goes on with the remaining
containers. -/
theorem createContainerToPodSymlink_links (options : VirtualClusterOptions) (vPod : Pod)
    (pPodDetail : PodDetail) (targetDir : Path) (c r h : String) (rest : List ContainerStatus)
    (fs : FS) (hr : ¬ "://".data <:+: r.data)
    (hcs : vPod.ContainerStatuses = { Name := c, ContainerID := r ++ "://" ++ h } :: rest) :
    (∀ d f, '/' ∉ f.data →
      osReadlink fs (filepathJoin LogsMountPath ["containers",
        ContainerSymlinkSourceTemplate pPodDetail.PhysicalPod.Name
          pPodDetail.PhysicalPod.Namespace c h]) = .ok (d ++ "/" ++ f) →
      (fs.lookup (filepathJoin options.VirtualContainerLogsPath
          [ContainerSymlinkSourceTemplate vPod.Name vPod.Namespace c h]) = none →
        fs.lookup (filepathJoin options.VirtualContainerLogsPath
          [ContainerSymlinkSourceTemplate vPod.Name vPod.Namespace c h]).dropLast
            = some Node.dir →
        createContainerToPodSymlink options fs vPod pPodDetail targetDir =
          containerLinksLoop options vPod pPodDetail targetDir rest
            { fs with entries := fs.entries ++
              [(filepathJoin options.VirtualContainerLogsPath
                  [ContainerSymlinkSourceTemplate vPod.Name vPod.Namespace c h],
                Node.link (pathString (filepathJoin targetDir [c, f])))] } ∧
        (createContainerToPodSymlink options fs vPod pPodDetail targetDir).1.lookup
            (filepathJoin options.VirtualContainerLogsPath
              [ContainerSymlinkSourceTemplate vPod.Name vPod.Namespace c h])
          = some (Node.link (pathString (filepathJoin targetDir [c, f])))) ∧
      (fs.lookup (filepathJoin options.VirtualContainerLogsPath
          [ContainerSymlinkSourceTemplate vPod.Name vPod.Namespace c h]) ≠ none →
        createContainerToPodSymlink options fs vPod pPodDetail targetDir =
          containerLinksLoop options vPod pPodDetail targetDir rest fs)) ∧
    (∀ e,
      osReadlink fs (filepathJoin LogsMountPath ["containers",
        ContainerSymlinkSourceTemplate pPodDetail.PhysicalPod.Name
          pPodDetail.PhysicalPod.Namespace c h]) = .error e →
      createContainerToPodSymlink options fs vPod pPodDetail targetDir =
        containerLinksLoop options vPod pPodDetail targetDir rest fs) := by
  have hcut := stringsCutAfter_scheme r h hr
  refine ⟨?_, ?_⟩
  · intro d f hf hrl
    have hname := getPhysicalLogFilename_ok fs _ d f hf hrl
    refine ⟨?_, ?_⟩
    · intro habs hdir
      have hstep : createContainerToPodSymlink options fs vPod pPodDetail targetDir =
          containerLinksLoop options vPod pPodDetail targetDir rest
            { fs with entries := fs.entries ++
              [(filepathJoin options.VirtualContainerLogsPath
                  [ContainerSymlinkSourceTemplate vPod.Name vPod.Namespace c h],
                Node.link (pathString (filepathJoin targetDir [c, f])))] } := by
        simp only [createContainerToPodSymlink, hcs, containerLinksLoop, hcut, hname,
          osSymlink_of_absent fs _ _ habs hdir]
      refine ⟨hstep, ?_⟩
      rw [hstep]
      apply containerLinksLoop_lookup_mono
      rw [FS.lookup_append_entry, habs]
      simp
    · intro hex
      simp only [createContainerToPodSymlink, hcs, containerLinksLoop, hcut, hname,
        osSymlink_of_exists fs _ _ hex, if_true]
  · intro e hrl
    have hname := getPhysicalLogFilename_error fs _ e hrl
    simp only [createContainerToPodSymlink, hcs, containerLinksLoop, hcut, hname]

theorem createContainerToPodSymlink_links_witness :
    (¬ "://".data <:+: "containerd".data ∧
      exampleVirtualPod.ContainerStatuses
        = [{ Name := "c1", ContainerID := "containerd" ++ "://" ++ "abc" }] ∧
      '/' ∉ "0.log".data ∧
      osReadlink exampleFS (filepathJoin LogsMountPath ["containers", "p1-x-ns1-x-vc_ns_c1-abc.log"])
        = .ok ("/var/log/pods/ns_p1-x-ns1-x-vc_pu1/c1" ++ "/" ++ "0.log")) ∧
    (createContainerToPodSymlink exampleOptions exampleFS exampleVirtualPod
        { Target := "ns_p1-x-ns1-x-vc_pu1", PhysicalPod := examplePhysicalPod }
        (filepathJoin PodLogsMountPath ["ns1_p1_u1"])).1.lookup
      (exampleOptions.VirtualContainerLogsPath ++ ["p1_ns1_c1-abc.log"])
      = some (Node.link "/var/log/pods/ns1_p1_u1/c1/0.log") :=
  ⟨by decide,
   ((createContainerToPodSymlink_links exampleOptions exampleVirtualPod
      { Target := "ns_p1-x-ns1-x-vc_pu1", PhysicalPod := examplePhysicalPod }
      (filepathJoin PodLogsMountPath ["ns1_p1_u1"]) "c1" "containerd" "abc" [] exampleFS
      (by decide) (by decide)).1 "/var/log/pods/ns_p1-x-ns1-x-vc_pu1/c1" "0.log" (by decide)
      (by decide)).1 (by decide) (by decide) |>.2.trans (by decide)⟩

/-! ### Creation only adds entries -/

theorem splitChars_sep_not_mem (sep : Char) (cs : List Char) :
    ∀ piece ∈ splitChars sep cs, sep ∉ piece := by
  induction cs with
  | nil => simp [splitChars]
  | cons c cs ih =>
    simp only [splitChars]
    split
    · intro piece hp
      simp only [List.mem_cons] at hp
      rcases hp with h | h
      · subst h; simp
      · exact ih piece h
    · rename_i hne
      cases hs : splitChars sep cs with
      | nil => exact absurd hs (splitChars_ne_nil sep cs)
      | cons x xs =>
        rw [hs] at ih
        intro piece hp
        simp only [List.mem_cons] at hp
        rcases hp with h | h
        · subst h
          simp only [List.mem_cons, not_or]
          exact ⟨fun h => hne h.symm, ih x (List.mem_cons_self _ _)⟩
        · exact ih piece (List.mem_cons_of_mem _ h)

theorem cleanInto_plainPath (acc : Path) (comps : List String) (hacc : plainPath acc)
    (hc : ∀ c ∈ comps, '/' ∉ c.data) : plainPath (cleanInto acc comps) := by
  induction comps generalizing acc with
  | nil => simpa [cleanInto] using hacc
  | cons c rest ih =>
    have hrest : ∀ x ∈ rest, '/' ∉ x.data := fun x hx => hc x (List.mem_cons_of_mem _ hx)
    simp only [cleanInto]
    split
    · exact ih acc hacc hrest
    · rename_i h1
      split
      · exact ih _ (fun x hx => hacc x (List.dropLast_subset _ hx)) hrest
      · rename_i h2
        apply ih _ _ hrest
        intro x hx
        simp only [List.mem_append, List.mem_singleton] at hx
        rcases hx with hx | hx
        · exact hacc x hx
        · subst hx
          simp only [not_or] at h1
          have hs := hc x (List.mem_cons_self _ _)
          simp [plainName, h1.1, h1.2, h2, hs]

theorem filepathJoin_plainPath (base : Path) (elems : List String) (hb : plainPath base) :
    plainPath (filepathJoin base elems) := by
  apply cleanInto_plainPath base _ hb
  intro c hc
  simp only [List.mem_flatMap, stringsSplit, List.mem_map] at hc
  obtain ⟨e, _, piece, hp, rfl⟩ := hc
  exact splitChars_sep_not_mem '/' e.data piece hp

theorem plainPath_of_prefix {p q : Path} (hq : plainPath q) (h : p <+: q) : plainPath p :=
  fun c hc => hq c (h.subset hc)

theorem ExtendsBy.ext_refl (P : Path → Prop) (fs : FS) : ExtendsBy P fs fs :=
  ⟨rfl, [], by simp, by simp⟩

theorem ExtendsBy.ext_trans {P : Path → Prop} {a b c : FS} (h1 : ExtendsBy P a b)
    (h2 : ExtendsBy P b c) : ExtendsBy P a c := by
  obtain ⟨p1, l1, e1, q1⟩ := h1
  obtain ⟨p2, l2, e2, q2⟩ := h2
  refine ⟨p2.trans p1, l1 ++ l2, by rw [e2, e1, List.append_assoc], ?_⟩
  intro e he
  rcases List.mem_append.mp he with h | h
  · exact q1 e h
  · exact q2 e h

theorem ExtendsBy.ext_mono {P Q : Path → Prop} {a b : FS} (h : ExtendsBy P a b)
    (hPQ : ∀ q, P q → Q q) : ExtendsBy Q a b := by
  obtain ⟨p1, l1, e1, q1⟩ := h
  exact ⟨p1, l1, e1, fun e he => hPQ _ (q1 e he)⟩

theorem ExtendsBy.lookup_mono {P : Path → Prop} {a b : FS} (h : ExtendsBy P a b) (q : Path)
    (n : Node) (hq : a.lookup q = some n) : b.lookup q = some n := by
  obtain ⟨_, l1, e1, _⟩ := h
  by_cases hn : q = []
  · subst hn; simpa [FS.lookup] using hq
  · simp only [FS.lookup, hn, if_false] at hq ⊢
    rw [e1, lookupIn_append, hq]

theorem ExtendsBy.lookup_none {P : Path → Prop} {a b : FS} (h : ExtendsBy P a b) (q : Path)
    (hq : b.lookup q = none) : a.lookup q = none := by
  cases ha : a.lookup q with
  | none => rfl
  | some n => rw [h.lookup_mono q n ha] at hq; exact absurd hq (by simp)

theorem lookupIn_eq_none_of_forall (l : List (Path × Node)) (q : Path)
    (h : ∀ e ∈ l, e.1 ≠ q) : lookupIn l q = none := by
  by_contra hne
  obtain ⟨e, he, hk⟩ := (lookupIn_ne_none_iff l q).mp hne
  exact h e he hk

/-- A path that does not satisfy `P` reads the same after an extension by
`P`. -/
theorem ExtendsBy.lookup_of_not {P : Path → Prop} {a b : FS} (h : ExtendsBy P a b) (q : Path)
    (hq : ¬ P q) : b.lookup q = a.lookup q := by
  obtain ⟨_, l1, e1, q1⟩ := h
  by_cases hn : q = []
  · subst hn; simp [FS.lookup]
  · simp only [FS.lookup, hn, if_false]
    rw [e1, lookupIn_append]
    have : lookupIn l1 q = none :=
      lookupIn_eq_none_of_forall l1 q (fun e he hk => hq (hk ▸ q1 e he))
    rw [this]
    cases lookupIn a.entries q <;> rfl

theorem ExtendsBy.ext_wf {a b : FS} (h : ExtendsBy plainPath a b) (hwf : a.WF) : b.WF := by
  obtain ⟨_, l1, e1, q1⟩ := h
  intro e he
  rw [e1] at he
  rcases List.mem_append.mp he with h | h
  · exact hwf e h
  · exact q1 e h

theorem ExtendsBy.ext_refuses {P : Path → Prop} {a b : FS} (h : ExtendsBy P a b) (q : Path) :
    b.refuses q ↔ a.refuses q := by
  simp only [FS.refuses, h.1]

theorem osSymlink_extendsBy (P : Path → Prop) (fs : FS) (t : String) (p : Path) (hP : P p) :
    ExtendsBy P fs (osSymlink fs t p).1 := by
  rcases osSymlink_cases fs t p with hc | hc
  · rw [hc.1]
    exact ⟨rfl, [(p, Node.link t)], rfl, by simpa using hP⟩
  · rw [hc.1]; exact ExtendsBy.ext_refl P fs

theorem mkdirWalk_extendsBy (P : Path → Prop) (rest : List String) (fs : FS) (cur : Path)
    (hP : ∀ k, 1 ≤ k → k ≤ rest.length → fs.lookup (cur ++ rest.take k) = none →
      P (cur ++ rest.take k)) :
    ExtendsBy P fs (mkdirWalk fs cur rest).1 := by
  induction rest generalizing fs cur with
  | nil => exact ExtendsBy.ext_refl P fs
  | cons c rest ih =>
    have hshift : ∀ (fs1 : FS), ExtendsBy P fs fs1 →
        ∀ k, 1 ≤ k → k ≤ rest.length → fs1.lookup ((cur ++ [c]) ++ rest.take k) = none →
          P ((cur ++ [c]) ++ rest.take k) := by
      intro fs1 h1 k hk1 hk2 hnone
      have := hP (k + 1) (by omega) (by simp; omega)
        (by simpa using h1.lookup_none _ hnone)
      simpa using this
    simp only [mkdirWalk]
    split
    · exact ih fs (cur ++ [c]) (hshift fs (ExtendsBy.ext_refl P fs))
    · rename_i hnone
      have hPc : P (cur ++ [c]) := by
        simpa using hP 1 (by omega) (by simp) (by simpa using hnone)
      have h1 : ExtendsBy P fs { fs with entries := fs.entries ++ [(cur ++ [c], Node.dir)] } :=
        ⟨rfl, [(cur ++ [c], Node.dir)], rfl, by simpa using hPc⟩
      exact h1.ext_trans (ih _ (cur ++ [c]) (hshift _ h1))
    · exact ExtendsBy.ext_refl P fs

theorem osMkdirAll_extendsBy (P : Path → Prop) (fs : FS) (p : Path)
    (hP : ∀ q, q <+: p → fs.lookup q = none → P q) :
    ExtendsBy P fs (osMkdirAll fs p).1 := by
  apply mkdirWalk_extendsBy
  intro k _ _ hnone
  simp only [List.nil_append] at hnone ⊢
  exact hP _ (List.take_prefix k p) hnone

theorem kubeletLinksLoop_extendsBy (P : Path → Prop) (v p : Path) (contents : List String)
    (fs : FS) (hP : ∀ c ∈ contents, P (filepathJoin v [c])) :
    ExtendsBy P fs (kubeletLinksLoop v p contents fs).1 := by
  induction contents generalizing fs with
  | nil => exact ExtendsBy.ext_refl P fs
  | cons c rest ih =>
    have h1 := osSymlink_extendsBy P fs (pathString (filepathJoin p [c])) (filepathJoin v [c])
      (hP c (List.mem_cons_self _ _))
    have hrest : ∀ x ∈ rest, P (filepathJoin v [x]) := fun x hx => hP x (List.mem_cons_of_mem _ hx)
    simp only [kubeletLinksLoop]
    split
    · rename_i fs1 err hs
      rw [hs] at h1
      split
      · exact h1.ext_trans (ih fs1 hrest)
      · exact h1
    · rename_i fs1 hs
      rw [hs] at h1
      exact h1.ext_trans (ih fs1 hrest)

theorem createKubeletLinks_extendsBy (P : Path → Prop) (fs : FS) (v p : Path)
    (hdir : ∀ q, q <+: v → fs.lookup q = none → P q)
    (hlink : ∀ c, P (filepathJoin v [c])) :
    ExtendsBy P fs (createKubeletVirtualToPhysicalPodLinks fs v p).1 := by
  have h1 := osMkdirAll_extendsBy P fs v hdir
  simp only [createKubeletVirtualToPhysicalPodLinks]
  split
  · rename_i fs1 err hs
    rw [hs] at h1; exact h1
  · rename_i fs1 hs
    rw [hs] at h1
    split
    · exact h1
    · exact h1.ext_trans (kubeletLinksLoop_extendsBy P v p _ fs1 (fun c _ => hlink c))

theorem containerLinksLoop_extendsBy (P : Path → Prop) (options : VirtualClusterOptions)
    (vPod : Pod) (pPodDetail : PodDetail) (targetDir : Path) (statuses : List ContainerStatus)
    (fs : FS)
    (hP : ∀ cs ∈ statuses, P (filepathJoin options.VirtualContainerLogsPath
      [ContainerSymlinkSourceTemplate vPod.Name vPod.Namespace cs.Name
        (stringsCutAfter cs.ContainerID "://")])) :
    ExtendsBy P fs (containerLinksLoop options vPod pPodDetail targetDir statuses fs).1 := by
  induction statuses generalizing fs with
  | nil => exact ExtendsBy.ext_refl P fs
  | cons cs rest ih =>
    have hrest : ∀ x ∈ rest, P (filepathJoin options.VirtualContainerLogsPath
        [ContainerSymlinkSourceTemplate vPod.Name vPod.Namespace x.Name
          (stringsCutAfter x.ContainerID "://")]) := fun x hx => hP x (List.mem_cons_of_mem _ hx)
    simp only [containerLinksLoop]
    split
    · exact ih fs hrest
    · rename_i f hf
      have h1 := osSymlink_extendsBy P fs (pathString (filepathJoin targetDir [cs.Name, f]))
        _ (hP cs (List.mem_cons_self _ _))
      split
      · rename_i fs1 err hs
        rw [hs] at h1
        split
        · exact h1.ext_trans (ih fs1 hrest)
        · exact h1
      · rename_i fs1 hs
        rw [hs] at h1
        exact h1.ext_trans (ih fs1 hrest)

theorem createPodLogSymlink_extendsBy (P : Path → Prop) (fs : FS) (v : Path) (t : String)
    (hP : P v) : ExtendsBy P fs (createPodLogSymlinkToPhysical fs v t).1 := by
  have h1 := osSymlink_extendsBy P fs t v hP
  simp only [createPodLogSymlinkToPhysical]
  split
  · rename_i fs1 err hs
    rw [hs] at h1
    split <;> exact h1
  · rename_i fs1 hs
    rw [hs] at h1; exact h1

/-! ### The loop over the virtual pods -/

/-- What one iteration of the loop of `mapFunc` does to the three maps. -/
theorem mapPodStep_maps (tr : Translate) (options : VirtualClusterOptions)
    (podMappings : PhysicalPodMap) (vPod : Pod) (st : PassState) :
    (mapPodStep tr options podMappings vPod st).1.existingVPodsWithNamespace
      = sprintf2 vPod.Name vPod.Namespace :: st.existingVPodsWithNamespace ∧
    ((mapPodStep tr options podMappings vPod st).1.existingPodsPath = st.existingPodsPath ∨
      (mapPodStep tr options podMappings vPod st).1.existingPodsPath
        = filepathJoin options.VirtualPodLogsPath
            [sprintf3 vPod.Namespace vPod.Name vPod.UID] :: st.existingPodsPath) ∧
    ((mapPodStep tr options podMappings vPod st).1.existingKubeletPodsPath
        = st.existingKubeletPodsPath ∨
      (mapPodStep tr options podMappings vPod st).1.existingKubeletPodsPath
        = filepathJoin options.VirtualKubeletPodPath [vPod.UID] :: st.existingKubeletPodsPath) := by
  simp only [mapPodStep]
  split
  · simp
  · split
    · simp
    · split
      · simp
      · split <;> simp

theorem mapPodStep_extendsBy (P : Path → Prop) (tr : Translate)
    (options : VirtualClusterOptions) (podMappings : PhysicalPodMap) (vPod : Pod)
    (st : PassState)
    (h1 : P (filepathJoin options.VirtualPodLogsPath
      [sprintf3 vPod.Namespace vPod.Name vPod.UID]))
    (h2 : ∀ q, q <+: filepathJoin options.VirtualKubeletPodPath [vPod.UID] →
      st.fs.lookup q = none → P q)
    (h3 : ∀ c, P (filepathJoin (filepathJoin options.VirtualKubeletPodPath [vPod.UID]) [c]))
    (h4 : ∀ cs ∈ vPod.ContainerStatuses, P (filepathJoin options.VirtualContainerLogsPath
      [ContainerSymlinkSourceTemplate vPod.Name vPod.Namespace cs.Name
        (stringsCutAfter cs.ContainerID "://")])) :
    ExtendsBy P st.fs (mapPodStep tr options podMappings vPod st).1.fs := by
  simp only [mapPodStep]
  split
  · exact ExtendsBy.ext_refl P _
  · rename_i podDetail _
    have e1 := createPodLogSymlink_extendsBy P st.fs
      (filepathJoin options.VirtualPodLogsPath [sprintf3 vPod.Namespace vPod.Name vPod.UID])
      (pathString (filepathJoin tr.PhysicalPodLogVolumeMountPath [podDetail.Target])) h1
    split
    · rename_i fs1 err hs
      rw [hs] at e1; exact e1
    · rename_i fs1 _ hs
      rw [hs] at e1
      have e2 := createKubeletLinks_extendsBy P fs1
        (filepathJoin options.VirtualKubeletPodPath [vPod.UID])
        (filepathJoin tr.PhysicalKubeletVolumeMountPath [podDetail.PhysicalPod.UID])
        (fun q hq hn => h2 q hq (e1.lookup_none q hn)) h3
      split
      · rename_i fs2 err hs2
        rw [hs2] at e2; exact e1.ext_trans e2
      · rename_i fs2 hs2
        rw [hs2] at e2
        have e3 := containerLinksLoop_extendsBy P options vPod podDetail
          (filepathJoin PodLogsMountPath [sprintf3 vPod.Namespace vPod.Name vPod.UID])
          vPod.ContainerStatuses fs2 h4
        simp only [createContainerToPodSymlink]
        split
        · rename_i fs3 err hs3
          rw [hs3] at e3; exact (e1.ext_trans e2).ext_trans e3
        · rename_i fs3 hs3
          rw [hs3] at e3; exact (e1.ext_trans e2).ext_trans e3

theorem mapPodsLoop_extendsBy (P : Path → Prop) (tr : Translate)
    (options : VirtualClusterOptions) (podMappings : PhysicalPodMap) (fs0 : FS)
    (vPods : List Pod) (st : PassState) (hst : ExtendsBy P fs0 st.fs)
    (h1 : ∀ v ∈ vPods, P (filepathJoin options.VirtualPodLogsPath
      [sprintf3 v.Namespace v.Name v.UID]))
    (h2 : ∀ v ∈ vPods, ∀ q, q <+: filepathJoin options.VirtualKubeletPodPath [v.UID] →
      fs0.lookup q = none → P q)
    (h3 : ∀ v ∈ vPods, ∀ c,
      P (filepathJoin (filepathJoin options.VirtualKubeletPodPath [v.UID]) [c]))
    (h4 : ∀ v ∈ vPods, ∀ cs ∈ v.ContainerStatuses,
      P (filepathJoin options.VirtualContainerLogsPath
        [ContainerSymlinkSourceTemplate v.Name v.Namespace cs.Name
          (stringsCutAfter cs.ContainerID "://")])) :
    ExtendsBy P fs0 (mapPodsLoop tr options podMappings vPods st).1.fs := by
  induction vPods generalizing st with
  | nil => simpa [mapPodsLoop] using hst
  | cons v rest ih =>
    have hv := List.mem_cons_self v rest
    have hstep := mapPodStep_extendsBy P tr options podMappings v st (h1 v hv)
      (fun q hq hn => h2 v hv q hq (hst.lookup_none q hn)) (h3 v hv) (h4 v hv)
    simp only [mapPodsLoop]
    split
    · rename_i st1 err hs
      rw [hs] at hstep; exact hst.ext_trans hstep
    · rename_i st1 hs
      rw [hs] at hstep
      exact ih st1 (hst.ext_trans hstep) (fun x hx => h1 x (List.mem_cons_of_mem _ hx))
        (fun x hx => h2 x (List.mem_cons_of_mem _ hx))
        (fun x hx => h3 x (List.mem_cons_of_mem _ hx))
        (fun x hx => h4 x (List.mem_cons_of_mem _ hx))

/-- The loop never loses an entry. -/
theorem mapPodsLoop_lookup_mono (tr : Translate) (options : VirtualClusterOptions)
    (podMappings : PhysicalPodMap) (vPods : List Pod) (st : PassState) (q : Path) (n : Node)
    (h : st.fs.lookup q = some n) :
    (mapPodsLoop tr options podMappings vPods st).1.fs.lookup q = some n :=
  (mapPodsLoop_extendsBy (fun _ => True) tr options podMappings st.fs vPods st
    (ExtendsBy.ext_refl _ _) (fun _ _ => trivial) (fun _ _ _ _ _ => trivial)
    (fun _ _ _ => trivial) (fun _ _ _ _ => trivial)).lookup_mono q n h

/-- The maps of a pass: every key comes from the start or from a listed pod; no
key is lost; and a loop that ends without error has recorded every pod. -/
theorem mapPodsLoop_maps (tr : Translate) (options : VirtualClusterOptions)
    (podMappings : PhysicalPodMap) (vPods : List Pod) (st : PassState) :
    (∀ s ∈ (mapPodsLoop tr options podMappings vPods st).1.existingPodsPath,
      s ∈ st.existingPodsPath ∨ ∃ v ∈ vPods,
        s = filepathJoin options.VirtualPodLogsPath [sprintf3 v.Namespace v.Name v.UID]) ∧
    (∀ s ∈ (mapPodsLoop tr options podMappings vPods st).1.existingKubeletPodsPath,
      s ∈ st.existingKubeletPodsPath ∨ ∃ v ∈ vPods,
        s = filepathJoin options.VirtualKubeletPodPath [v.UID]) ∧
    (∀ s ∈ st.existingPodsPath,
      s ∈ (mapPodsLoop tr options podMappings vPods st).1.existingPodsPath) ∧
    (∀ s ∈ st.existingKubeletPodsPath,
      s ∈ (mapPodsLoop tr options podMappings vPods st).1.existingKubeletPodsPath) ∧
    (∀ s ∈ st.existingVPodsWithNamespace,
      s ∈ (mapPodsLoop tr options podMappings vPods st).1.existingVPodsWithNamespace) ∧
    ((mapPodsLoop tr options podMappings vPods st).2 = none →
      ∀ v ∈ vPods, sprintf2 v.Name v.Namespace ∈
        (mapPodsLoop tr options podMappings vPods st).1.existingVPodsWithNamespace) := by
  induction vPods generalizing st with
  | nil => simp [mapPodsLoop]
  | cons v rest ih =>
    obtain ⟨m1, m2, m3⟩ := mapPodStep_maps tr options podMappings v st
    have hsub1 : ∀ s ∈ (mapPodStep tr options podMappings v st).1.existingPodsPath,
        s ∈ st.existingPodsPath ∨
          s = filepathJoin options.VirtualPodLogsPath [sprintf3 v.Namespace v.Name v.UID] := by
      intro s hs
      rcases m2 with e | e <;> rw [e] at hs
      · exact Or.inl hs
      · rcases List.mem_cons.mp hs with h | h
        · exact Or.inr h
        · exact Or.inl h
    have hsub2 : ∀ s ∈ (mapPodStep tr options podMappings v st).1.existingKubeletPodsPath,
        s ∈ st.existingKubeletPodsPath ∨
          s = filepathJoin options.VirtualKubeletPodPath [v.UID] := by
      intro s hs
      rcases m3 with e | e <;> rw [e] at hs
      · exact Or.inl hs
      · rcases List.mem_cons.mp hs with h | h
        · exact Or.inr h
        · exact Or.inl h
    have hsup1 : ∀ s ∈ st.existingPodsPath,
        s ∈ (mapPodStep tr options podMappings v st).1.existingPodsPath := by
      intro s hs
      rcases m2 with e | e <;> rw [e]
      · exact hs
      · exact List.mem_cons_of_mem _ hs
    have hsup2 : ∀ s ∈ st.existingKubeletPodsPath,
        s ∈ (mapPodStep tr options podMappings v st).1.existingKubeletPodsPath := by
      intro s hs
      rcases m3 with e | e <;> rw [e]
      · exact hs
      · exact List.mem_cons_of_mem _ hs
    have hsup3 : ∀ s ∈ st.existingVPodsWithNamespace,
        s ∈ (mapPodStep tr options podMappings v st).1.existingVPodsWithNamespace := by
      intro s hs; rw [m1]; exact List.mem_cons_of_mem _ hs
    simp only [mapPodsLoop]
    cases hstep : mapPodStep tr options podMappings v st with
    | mk st1 r =>
      rw [hstep] at hsub1 hsub2 hsup1 hsup2 hsup3 m1
      simp only at hsub1 hsub2 hsup1 hsup2 hsup3 m1
      cases r with
      | some err =>
        simp only
        refine ⟨?_, ?_, hsup1, hsup2, hsup3, by simp⟩
        · intro s hs
          rcases hsub1 s hs with h | h
          · exact Or.inl h
          · exact Or.inr ⟨v, List.mem_cons_self _ _, h⟩
        · intro s hs
          rcases hsub2 s hs with h | h
          · exact Or.inl h
          · exact Or.inr ⟨v, List.mem_cons_self _ _, h⟩
      | none =>
        simp only
        obtain ⟨i1, i2, i3, i4, i5, i6⟩ := ih st1
        refine ⟨?_, ?_, fun s hs => i3 s (hsup1 s hs), fun s hs => i4 s (hsup2 s hs),
          fun s hs => i5 s (hsup3 s hs), ?_⟩
        · intro s hs
          rcases i1 s hs with h | ⟨x, hx, h⟩
          · rcases hsub1 s h with h | h
            · exact Or.inl h
            · exact Or.inr ⟨v, List.mem_cons_self _ _, h⟩
          · exact Or.inr ⟨x, List.mem_cons_of_mem _ hx, h⟩
        · intro s hs
          rcases i2 s hs with h | ⟨x, hx, h⟩
          · rcases hsub2 s h with h | h
            · exact Or.inl h
            · exact Or.inr ⟨v, List.mem_cons_self _ _, h⟩
          · exact Or.inr ⟨x, List.mem_cons_of_mem _ hx, h⟩
        · intro hnone x hx
          rcases List.mem_cons.mp hx with h | h
          · subst h
            apply i5
            rw [m1]; exact List.mem_cons_self _ _
          · exact i6 hnone x h


theorem mapPodStep_none (tr : Translate) (options : VirtualClusterOptions)
    (podMappings : PhysicalPodMap) (vPod : Pod) (st : PassState)
    (h : podMappings.get (tr.HostName vPod.Name vPod.Namespace) = none) :
    mapPodStep tr options podMappings vPod st =
      ({ st with existingVPodsWithNamespace :=
          sprintf2 vPod.Name vPod.Namespace :: st.existingVPodsWithNamespace }, none) := by
  simp only [mapPodStep, h]

theorem mapPodStep_some (tr : Translate) (options : VirtualClusterOptions)
    (podMappings : PhysicalPodMap) (vPod : Pod) (st : PassState) (d : PodDetail)
    (h : podMappings.get (tr.HostName vPod.Name vPod.Namespace) = some d) :
    mapPodStep tr options podMappings vPod st =
      match createPodLogSymlinkToPhysical st.fs
        (filepathJoin options.VirtualPodLogsPath [sprintf3 vPod.Namespace vPod.Name vPod.UID])
        (pathString (filepathJoin tr.PhysicalPodLogVolumeMountPath [d.Target])) with
      | (fs1, .error err) =>
        ({ fs := fs1
           existingVPodsWithNamespace :=
             sprintf2 vPod.Name vPod.Namespace :: st.existingVPodsWithNamespace
           existingPodsPath :=
             filepathJoin options.VirtualPodLogsPath [sprintf3 vPod.Namespace vPod.Name vPod.UID]
               :: st.existingPodsPath
           existingKubeletPodsPath := st.existingKubeletPodsPath },
          some (GoError.wrap "unable to create symlink" err))
      | (fs1, .ok _) =>
        match createKubeletVirtualToPhysicalPodLinks fs1
          (filepathJoin options.VirtualKubeletPodPath [vPod.UID])
          (filepathJoin tr.PhysicalKubeletVolumeMountPath [d.PhysicalPod.UID]) with
        | (fs2, some err) =>
          ({ fs := fs2
             existingVPodsWithNamespace :=
               sprintf2 vPod.Name vPod.Namespace :: st.existingVPodsWithNamespace
             existingPodsPath :=
               filepathJoin options.VirtualPodLogsPath
                 [sprintf3 vPod.Namespace vPod.Name vPod.UID] :: st.existingPodsPath
             existingKubeletPodsPath :=
               filepathJoin options.VirtualKubeletPodPath [vPod.UID]
                 :: st.existingKubeletPodsPath }, some err)
        | (fs2, none) =>
          ({ fs := (createContainerToPodSymlink options fs2 vPod d
               (filepathJoin PodLogsMountPath [sprintf3 vPod.Namespace vPod.Name vPod.UID])).1
             existingVPodsWithNamespace :=
               sprintf2 vPod.Name vPod.Namespace :: st.existingVPodsWithNamespace
             existingPodsPath :=
               filepathJoin options.VirtualPodLogsPath
                 [sprintf3 vPod.Namespace vPod.Name vPod.UID] :: st.existingPodsPath
             existingKubeletPodsPath :=
               filepathJoin options.VirtualKubeletPodPath [vPod.UID]
                 :: st.existingKubeletPodsPath },
            (createContainerToPodSymlink options fs2 vPod d
               (filepathJoin PodLogsMountPath [sprintf3 vPod.Namespace vPod.Name vPod.UID])).2) := by
  simp only [mapPodStep, h]
  cases createPodLogSymlinkToPhysical st.fs
      (filepathJoin options.VirtualPodLogsPath [sprintf3 vPod.Namespace vPod.Name vPod.UID])
      (pathString (filepathJoin tr.PhysicalPodLogVolumeMountPath [d.Target])) with
  | mk fs1 r1 =>
    cases r1 with
    | error err => rfl
    | ok a =>
      simp only
      cases createKubeletVirtualToPhysicalPodLinks fs1
          (filepathJoin options.VirtualKubeletPodPath [vPod.UID])
          (filepathJoin tr.PhysicalKubeletVolumeMountPath [d.PhysicalPod.UID]) with
      | mk fs2 r2 =>
        cases r2 with
        | some err => rfl
        | none =>
          simp only
          cases createContainerToPodSymlink options fs2 vPod d
              (filepathJoin PodLogsMountPath [sprintf3 vPod.Namespace vPod.Name vPod.UID]) with
          | mk fs3 r3 => cases r3 <;> rfl

theorem mapPodStep_recorded (tr : Translate) (options : VirtualClusterOptions)
    (podMappings : PhysicalPodMap) (vPod : Pod) (st : PassState) (d : PodDetail)
    (h : podMappings.get (tr.HostName vPod.Name vPod.Namespace) = some d) :
    filepathJoin options.VirtualPodLogsPath [sprintf3 vPod.Namespace vPod.Name vPod.UID]
      ∈ (mapPodStep tr options podMappings vPod st).1.existingPodsPath := by
  rw [mapPodStep_some tr options podMappings vPod st d h]
  split
  · simp
  · split <;> simp

theorem mapPodStep_link (tr : Translate) (options : VirtualClusterOptions)
    (podMappings : PhysicalPodMap) (vPod : Pod) (st : PassState) (d : PodDetail)
    (h : podMappings.get (tr.HostName vPod.Name vPod.Namespace) = some d)
    (habs : st.fs.lookup (filepathJoin options.VirtualPodLogsPath
      [sprintf3 vPod.Namespace vPod.Name vPod.UID]) = none)
    (hdir : st.fs.lookup (filepathJoin options.VirtualPodLogsPath
      [sprintf3 vPod.Namespace vPod.Name vPod.UID]).dropLast = some Node.dir) :
    (mapPodStep tr options podMappings vPod st).1.fs.lookup
        (filepathJoin options.VirtualPodLogsPath [sprintf3 vPod.Namespace vPod.Name vPod.UID])
      = some (Node.link (pathString
          (filepathJoin tr.PhysicalPodLogVolumeMountPath [d.Target]))) := by
  rw [mapPodStep_some tr options podMappings vPod st d h]
  have hnew : FS.lookup { st.fs with entries := st.fs.entries ++
      [(filepathJoin options.VirtualPodLogsPath [sprintf3 vPod.Namespace vPod.Name vPod.UID],
        Node.link (pathString (filepathJoin tr.PhysicalPodLogVolumeMountPath [d.Target])))] }
      (filepathJoin options.VirtualPodLogsPath [sprintf3 vPod.Namespace vPod.Name vPod.UID])
      = some (Node.link (pathString
          (filepathJoin tr.PhysicalPodLogVolumeMountPath [d.Target]))) := by
    rw [FS.lookup_append_entry, habs]; simp
  simp only [createPodLogSymlinkToPhysical, osSymlink_of_absent _ _ _ habs hdir]
  have e2 := createKubeletLinks_extendsBy (fun _ => True)
    { st.fs with entries := st.fs.entries ++
      [(filepathJoin options.VirtualPodLogsPath [sprintf3 vPod.Namespace vPod.Name vPod.UID],
        Node.link (pathString (filepathJoin tr.PhysicalPodLogVolumeMountPath [d.Target])))] }
    (filepathJoin options.VirtualKubeletPodPath [vPod.UID])
    (filepathJoin tr.PhysicalKubeletVolumeMountPath [d.PhysicalPod.UID])
    (fun _ _ _ => trivial) (fun _ => trivial)
  split
  · rename_i fs2 err hs
    rw [hs] at e2
    exact e2.lookup_mono _ _ hnew
  · rename_i fs2 hs
    rw [hs] at e2
    have e3 := containerLinksLoop_extendsBy (fun _ => True) options vPod d
      (filepathJoin PodLogsMountPath [sprintf3 vPod.Namespace vPod.Name vPod.UID])
      vPod.ContainerStatuses fs2 (fun _ _ => trivial)
    exact e3.lookup_mono _ _ (e2.lookup_mono _ _ hnew)

theorem mapPodsLoop_cons_fst (tr : Translate) (options : VirtualClusterOptions)
    (podMappings : PhysicalPodMap) (vPod : Pod) (rest : List Pod) (st : PassState) :
    (mapPodsLoop tr options podMappings (vPod :: rest) st).1
        = (mapPodStep tr options podMappings vPod st).1 ∨
    (mapPodsLoop tr options podMappings (vPod :: rest) st).1
        = (mapPodsLoop tr options podMappings rest
            (mapPodStep tr options podMappings vPod st).1).1 := by
  simp only [mapPodsLoop]
  split
  · rename_i st1 err hs; left; rw [hs]
  · rename_i st1 hs; right; rw [hs]

theorem podMappingsLoop_detail (fs0 : FS) (pods : List Pod) (name : String) (d : PodDetail)
    (h : (podMappingsLoop fs0 pods []).get name = some d) :
    d.Target = sprintf3 d.PhysicalPod.Namespace d.PhysicalPod.Name d.PhysicalPod.UID ∧
    d.PhysicalPod.Name = name ∧ d.PhysicalPod ∈ pods := by
  rw [podMappingsLoop_get] at h
  simp only [PhysicalPodMap.get, Option.map_eq_some'] at h
  obtain ⟨pod, hf, rfl⟩ := h
  have hm := List.mem_of_find?_eq_some hf
  have hp := List.find?_some hf
  simp only [Bool.and_eq_true, decide_eq_true_eq] at hp
  exact ⟨rfl, hp.1, hm⟩

/-- C8: in the loop of a pass, for the virtual pod at hand: when its translated
name is a key of the physical pod map, the path `root/n_p_u` under the pod-logs
root is recorded in the pod-log map, `os.Symlink` is called for it with the
target `mount/T`, so that where nothing stood under the existing root the link
stands with that target when the loop ends, and what stood there already is
left; `T` is the token `namespace_name_uid` of the matched physical pod. When
the translated name is no key, the pod only adds its `name_namespace` key: the
disk is not touched and the loop goes on. -/
theorem mapFunc_podLog_link (tr : Translate) (options : VirtualClusterOptions)
    (podMappings : PhysicalPodMap) (vPod : Pod) (rest : List Pod) (st : PassState) :
    (∀ d, podMappings.get (tr.HostName vPod.Name vPod.Namespace) = some d →
      filepathJoin options.VirtualPodLogsPath [sprintf3 vPod.Namespace vPod.Name vPod.UID]
        ∈ (mapPodsLoop tr options podMappings (vPod :: rest) st).1.existingPodsPath ∧
      (st.fs.lookup (filepathJoin options.VirtualPodLogsPath
          [sprintf3 vPod.Namespace vPod.Name vPod.UID]) = none →
        st.fs.lookup (filepathJoin options.VirtualPodLogsPath
          [sprintf3 vPod.Namespace vPod.Name vPod.UID]).dropLast = some Node.dir →
        (mapPodsLoop tr options podMappings (vPod :: rest) st).1.fs.lookup
            (filepathJoin options.VirtualPodLogsPath
              [sprintf3 vPod.Namespace vPod.Name vPod.UID])
          = some (Node.link (pathString
              (filepathJoin tr.PhysicalPodLogVolumeMountPath [d.Target])))) ∧
      (∀ n, st.fs.lookup (filepathJoin options.VirtualPodLogsPath
          [sprintf3 vPod.Namespace vPod.Name vPod.UID]) = some n →
        (mapPodsLoop tr options podMappings (vPod :: rest) st).1.fs.lookup
            (filepathJoin options.VirtualPodLogsPath
              [sprintf3 vPod.Namespace vPod.Name vPod.UID]) = some n)) ∧
    (podMappings.get (tr.HostName vPod.Name vPod.Namespace) = none →
      (mapPodStep tr options podMappings vPod st).1.fs = st.fs ∧
      mapPodsLoop tr options podMappings (vPod :: rest) st =
        mapPodsLoop tr options podMappings rest
          { st with existingVPodsWithNamespace :=
              sprintf2 vPod.Name vPod.Namespace :: st.existingVPodsWithNamespace }) ∧
    (∀ fs0 pods name d, (podMappingsLoop fs0 pods []).get name = some d →
      d.Target = sprintf3 d.PhysicalPod.Namespace d.PhysicalPod.Name d.PhysicalPod.UID ∧
      d.PhysicalPod.Name = name ∧ d.PhysicalPod ∈ pods) := by
  refine ⟨?_, ?_, podMappingsLoop_detail⟩
  · intro d hd
    refine ⟨?_, ?_, ?_⟩
    · have hrec := mapPodStep_recorded tr options podMappings vPod st d hd
      rcases mapPodsLoop_cons_fst tr options podMappings vPod rest st with e | e
      · rw [e]; exact hrec
      · rw [e]; exact (mapPodsLoop_maps tr options podMappings rest _).2.2.1 _ hrec
    · intro habs hdir
      have hl := mapPodStep_link tr options podMappings vPod st d hd habs hdir
      rcases mapPodsLoop_cons_fst tr options podMappings vPod rest st with e | e
      · rw [e]; exact hl
      · rw [e]; exact mapPodsLoop_lookup_mono tr options podMappings rest _ _ _ hl
    · intro n hn
      exact mapPodsLoop_lookup_mono tr options podMappings (vPod :: rest) st _ _ hn
  · intro hnone
    have hs := mapPodStep_none tr options podMappings vPod st hnone
    refine ⟨by rw [hs], ?_⟩
    simp only [mapPodsLoop, hs]

theorem mapFunc_podLog_link_witness :
    (PhysicalPodMap.get [("p1-x-ns1-x-vc",
        { Target := "ns_p1-x-ns1-x-vc_pu1", PhysicalPod := examplePhysicalPod })]
        (exampleTranslate.HostName exampleVirtualPod.Name exampleVirtualPod.Namespace)
      = some { Target := "ns_p1-x-ns1-x-vc_pu1", PhysicalPod := examplePhysicalPod }) ∧
    exampleFS.lookup (exampleOptions.VirtualPodLogsPath ++ ["ns1_p1_u1"]) = none ∧
    (mapPodsLoop exampleTranslate exampleOptions
        [("p1-x-ns1-x-vc", { Target := "ns_p1-x-ns1-x-vc_pu1", PhysicalPod := examplePhysicalPod })]
        [exampleVirtualPod] { fs := exampleFS }).1.fs.lookup
      (exampleOptions.VirtualPodLogsPath ++ ["ns1_p1_u1"])
      = some (Node.link "/var/vcluster/physical/log/pods/ns_p1-x-ns1-x-vc_pu1") :=
  ⟨by decide, by decide,
   ((mapFunc_podLog_link exampleTranslate exampleOptions
      [("p1-x-ns1-x-vc", { Target := "ns_p1-x-ns1-x-vc_pu1", PhysicalPod := examplePhysicalPod })]
      exampleVirtualPod [] { fs := exampleFS }).1
      { Target := "ns_p1-x-ns1-x-vc_pu1", PhysicalPod := examplePhysicalPod } (by decide)).2.1
      (by decide) (by decide)⟩

/-! ### What the cleanup of a pass can change -/

theorem startOptions_podLogs (multi : Bool) (tn name : String) (vp : Path) :
    (startOptions multi tn name vp).VirtualPodLogsPath = vp ++ ["log", "pods"] := by
  simp only [startOptions]
  rw [filepathJoin_plain vp "log" (by decide), filepathJoin_plain _ "pods" (by decide)]
  simp

theorem startOptions_containerLogs (multi : Bool) (tn name : String) (vp : Path) :
    (startOptions multi tn name vp).VirtualContainerLogsPath = vp ++ ["log", "containers"] := by
  simp only [startOptions]
  rw [filepathJoin_plain vp "log" (by decide), filepathJoin_plain _ "containers" (by decide)]
  simp

theorem startOptions_kubelet (multi : Bool) (tn name : String) (vp : Path) :
    (startOptions multi tn name vp).VirtualKubeletPodPath = vp ++ ["kubelet", "pods"] := by
  simp only [startOptions]
  rw [filepathJoin_plain_two vp "kubelet" "pods" (by decide) (by decide)]

theorem cleanupOldPodPath_other_changed (options : VirtualClusterOptions) (fs : FS) (R : Path)
    (E : List Path) (hR : R ≠ options.VirtualKubeletPodPath) (hwf : fs.WF) :
    (cleanupOldPodPath options fs R E).1.pinned = fs.pinned ∧
    (∀ e ∈ (cleanupOldPodPath options fs R E).1.entries, e ∈ fs.entries) ∧
    ∀ q, (cleanupOldPodPath options fs R E).1.lookup q ≠ fs.lookup q →
      ∃ c, plainName c = true ∧ R ++ [c] ∉ E ∧ R ++ [c] <+: q := by
  unfold cleanupOldPodPath
  cases hrd : osReadDir fs R with
  | error err => simp
  | ok names =>
    simp only
    refine ⟨(cleanupLoop_other_lookup options R E hR names fs []).1,
      fun e he => cleanupLoop_other_entries options R E hR names fs e he, ?_⟩
    intro q hq
    rw [(cleanupLoop_other_lookup options R E hR names fs q).2] at hq
    by_cases hcond : ∃ c ∈ names, filepathJoin R [c] ∉ E ∧ filepathJoin R [c] <+: q ∧
        ¬ fs.refuses q ∧ q ≠ []
    · obtain ⟨c, hc, hE, hpre, _, _⟩ := hcond
      have hp := (osReadDir_plain fs hwf R names hrd c hc).1
      rw [filepathJoin_plain R c hp] at hE hpre
      exact ⟨c, hp, hE, hpre⟩
    · rw [if_neg hcond] at hq; exact absurd rfl hq

theorem cleanupOldContainerPaths_changed (options : VirtualClusterOptions) (fs : FS)
    (existing : List String) (hwf : fs.WF) :
    (cleanupOldContainerPaths options fs existing).1.pinned = fs.pinned ∧
    (∀ e ∈ (cleanupOldContainerPaths options fs existing).1.entries, e ∈ fs.entries) ∧
    ∀ q, (cleanupOldContainerPaths options fs existing).1.lookup q ≠ fs.lookup q →
      ∃ name key, plainName name = true ∧ containerKey name = some key ∧ key ∉ existing ∧
        options.VirtualContainerLogsPath ++ [name] <+: q := by
  unfold cleanupOldContainerPaths
  cases hrd : osReadDir fs options.VirtualContainerLogsPath with
  | error err => simp
  | ok names =>
    simp only
    obtain ⟨h1, h2, h3⟩ := cleanupContainerEntries_safe options existing names fs
    refine ⟨h1, h2, ?_⟩
    intro q hq
    rcases h3 q with e | ⟨_, nm, hnm, key, hk1, hk2, hpre⟩
    · exact absurd e hq
    · have hp := (osReadDir_plain fs hwf _ names hrd nm hnm).1
      rw [filepathJoin_plain _ nm hp] at hpre
      exact ⟨nm, key, hp, hk1, hk2, hpre⟩

theorem wf_of_entries_subset {fs fs1 : FS} (hwf : fs.WF)
    (h : ∀ e ∈ fs1.entries, e ∈ fs.entries) : fs1.WF :=
  fun e he => hwf e (h e he)

/-- A path that reads differently after the three cleanups of a pass stands at
or below an unseen child of the pod-logs root, an entry of the container-logs
root whose key is not among the observed pods, or a grandchild under an unseen
child of the kubelet root. -/
theorem cleanupPass_changed (options : VirtualClusterOptions) (st : PassState)
    (hR : options.VirtualPodLogsPath ≠ options.VirtualKubeletPodPath) (hwf : st.fs.WF)
    (q : Path) (h : (cleanupPass options st).1.lookup q ≠ st.fs.lookup q) :
    (∃ c, plainName c = true ∧ options.VirtualPodLogsPath ++ [c] ∉ st.existingPodsPath ∧
      options.VirtualPodLogsPath ++ [c] <+: q) ∨
    (∃ name key, plainName name = true ∧ containerKey name = some key ∧
      key ∉ st.existingVPodsWithNamespace ∧
      options.VirtualContainerLogsPath ++ [name] <+: q) ∨
    (∃ c g, plainName c = true ∧ plainName g = true ∧
      options.VirtualKubeletPodPath ++ [c] ∉ st.existingKubeletPodsPath ∧
      options.VirtualKubeletPodPath ++ [c, g] <+: q) := by
  obtain ⟨_, a2, a3⟩ := cleanupOldPodPath_other_changed options st.fs
    options.VirtualPodLogsPath st.existingPodsPath hR hwf
  have hwf1 := wf_of_entries_subset hwf a2
  obtain ⟨_, b2, b3⟩ := cleanupOldContainerPaths_changed options
    (cleanupOldPodPath options st.fs options.VirtualPodLogsPath st.existingPodsPath).1
    st.existingVPodsWithNamespace hwf1
  have hwf2 := wf_of_entries_subset hwf1 b2
  by_cases h1 : (cleanupOldPodPath options st.fs options.VirtualPodLogsPath
      st.existingPodsPath).1.lookup q = st.fs.lookup q
  · by_cases h2 : (cleanupOldContainerPaths options
        (cleanupOldPodPath options st.fs options.VirtualPodLogsPath st.existingPodsPath).1
        st.existingVPodsWithNamespace).1.lookup q
        = (cleanupOldPodPath options st.fs options.VirtualPodLogsPath
            st.existingPodsPath).1.lookup q
    · right; right
      have hrel := cleanupOldPodPath_kubelet_rel options
        (cleanupOldContainerPaths options
          (cleanupOldPodPath options st.fs options.VirtualPodLogsPath st.existingPodsPath).1
          st.existingVPodsWithNamespace).1 st.existingKubeletPodsPath hwf2
      have hfin : (cleanupPass options st).1.lookup q ≠
          (cleanupOldContainerPaths options
            (cleanupOldPodPath options st.fs options.VirtualPodLogsPath st.existingPodsPath).1
            st.existingVPodsWithNamespace).1.lookup q := by
        rw [h2, h1]; exact h
      simp only [cleanupPass] at hfin
      cases hc : cleanupOldContainerPaths options
          (cleanupOldPodPath options st.fs options.VirtualPodLogsPath st.existingPodsPath).1
          st.existingVPodsWithNamespace with
      | mk fs2 out =>
        rw [hc] at hfin hrel
        cases out with
        | panicked => simp at hfin
        | returned r =>
          simp only at hfin
          rcases hrel.2.2 q with e | ⟨_, c, g, hc1, hg1, hE, _, hpre⟩
          · exact absurd e hfin
          · exact ⟨c, g, hc1, hg1, hE, hpre⟩
    · right; left
      exact b3 q h2
  · left
    exact a3 q h1

/-! ### Cleanup safety -/

theorem plainPath_append {p : Path} (hp : plainPath p) (l : List String)
    (hl : ∀ c ∈ l, plainName c = true) : plainPath (p ++ l) := by
  intro c hc
  rcases List.mem_append.mp hc with h | h
  · exact hp c h
  · exact hl c h

/-- The loop of a pass keeps the state well formed. -/
theorem mapPodsLoop_wf (tr : Translate) (options : VirtualClusterOptions)
    (podMappings : PhysicalPodMap) (vPods : List Pod) (fs0 : FS) (hwf : fs0.WF)
    (h1 : plainPath options.VirtualPodLogsPath) (h2 : plainPath options.VirtualContainerLogsPath)
    (h3 : plainPath options.VirtualKubeletPodPath) :
    (mapPodsLoop tr options podMappings vPods { fs := fs0 }).1.fs.WF := by
  apply ExtendsBy.ext_wf _ hwf
  apply mapPodsLoop_extendsBy plainPath tr options podMappings fs0 vPods { fs := fs0 }
    (ExtendsBy.ext_refl _ _)
  · intro v _; exact filepathJoin_plainPath _ _ h1
  · intro v _ q hq _; exact plainPath_of_prefix (filepathJoin_plainPath _ _ h3) hq
  · intro v _ c; exact filepathJoin_plainPath _ _ (filepathJoin_plainPath _ _ h3)
  · intro v _ cs _; exact filepathJoin_plainPath _ _ h2

theorem validPodNames_token (v : Pod) (hv : validPodNames v) :
    plainName (sprintf3 v.Namespace v.Name v.UID) = true :=
  plainName_sprintf3 _ _ _ hv.2.2.2.1 hv.2.1 (not_mem_of_plainName _ hv.2.2.2.2)

theorem prefix_append_append_left {K a b : Path} (h : K ++ a <+: K ++ b) : a <+: b :=
  (List.prefix_append_right_inj K).mp h

/-- C2: in a pass over virtual pods with names as the API server admits them
(no underscore and no slash in name and namespace, a UID that is one path
component), with roots derived by `Start` from a plain virtual path and a
well-formed disk, the pass is the loop followed by the three cleanups, and the
cleanups of that pass leave in place every entry the loop recorded as seen:
every key of the pod-log map and every key of the kubelet map, with all that
stands below it, and every container-log entry `p_n_c-h.log` (`c`, `h` without
slash) of a pod whose key `p_n` the loop recorded. -/
theorem cleanupPass_keeps_seen (tr : Translate) (multi : Bool) (tn name : String) (vp : Path)
    (pManager vManager : Client) (podMappings : PhysicalPodMap) (vPods : List Pod) (fs0 : FS)
    (st : PassState) (hvp : plainPath vp) (hwf : fs0.WF)
    (hvalid : ∀ v ∈ vPods, validPodNames v)
    (hmap : getPhysicalPodMap (startOptions multi tn name vp) pManager fs0 = .ok podMappings)
    (hlist : vManager.listPods none = .ok vPods)
    (hloop : mapPodsLoop tr (startOptions multi tn name vp) podMappings vPods { fs := fs0 }
      = (st, none)) :
    mapFunc tr (startOptions multi tn name vp) pManager vManager fs0
      = cleanupPass (startOptions multi tn name vp) st ∧
    (∀ s ∈ st.existingPodsPath, ∀ q, s <+: q →
      (cleanupPass (startOptions multi tn name vp) st).1.lookup q = st.fs.lookup q) ∧
    (∀ s ∈ st.existingKubeletPodsPath, ∀ q, s <+: q →
      (cleanupPass (startOptions multi tn name vp) st).1.lookup q = st.fs.lookup q) ∧
    (∀ v ∈ vPods, ∀ c h, '/' ∉ c.data → '/' ∉ h.data → ∀ q,
      (startOptions multi tn name vp).VirtualContainerLogsPath
        ++ [ContainerSymlinkSourceTemplate v.Name v.Namespace c h] <+: q →
      (cleanupPass (startOptions multi tn name vp) st).1.lookup q = st.fs.lookup q) := by
  have r1 := startOptions_podLogs multi tn name vp
  have r2 := startOptions_containerLogs multi tn name vp
  have r3 := startOptions_kubelet multi tn name vp
  have hne : (startOptions multi tn name vp).VirtualPodLogsPath
      ≠ (startOptions multi tn name vp).VirtualKubeletPodPath := by
    rw [r1, r3]; intro h
    have h2 := List.append_cancel_left h
    simp at h2
  have hst : (mapPodsLoop tr (startOptions multi tn name vp) podMappings vPods
      { fs := fs0 }).1 = st := by rw [hloop]
  have hwfst : st.fs.WF := by
    rw [← hst]
    apply mapPodsLoop_wf _ _ _ _ _ hwf
    · rw [r1]; exact plainPath_append hvp _ (by decide)
    · rw [r2]; exact plainPath_append hvp _ (by decide)
    · rw [r3]; exact plainPath_append hvp _ (by decide)
  obtain ⟨m1, m2, _, _, _, m6⟩ :=
    mapPodsLoop_maps tr (startOptions multi tn name vp) podMappings vPods { fs := fs0 }
  rw [hloop] at m1 m2 m6
  simp only [List.not_mem_nil, false_or, forall_true_left] at m1 m2 m6
  refine ⟨?_, ?_, ?_, ?_⟩
  · simp only [mapFunc, hmap, hlist, hloop]
  · intro s hs q hq
    by_contra hch
    obtain ⟨v, hv, rfl⟩ := m1 s hs
    rw [filepathJoin_plain _ _ (validPodNames_token v (hvalid v hv))] at hq hs
    rcases cleanupPass_changed _ st hne hwfst q hch with
      ⟨c, _, hE, hpre⟩ | ⟨nm, key, _, _, _, hpre⟩ | ⟨c, g, _, _, _, hpre⟩
    · have := prefix_append_singleton_eq hpre hq
      subst this
      exact hE hs
    · rw [r1] at hq; rw [r2] at hpre
      rcases List.prefix_or_prefix_of_prefix hq hpre with h | h
      · simp [List.append_assoc] at h
      · simp [List.append_assoc] at h
    · rw [r1] at hq; rw [r3] at hpre
      rcases List.prefix_or_prefix_of_prefix hq hpre with h | h
      · simp [List.append_assoc] at h
      · simp [List.append_assoc] at h
  · intro s hs q hq
    by_contra hch
    obtain ⟨v, hv, rfl⟩ := m2 s hs
    rw [filepathJoin_plain _ _ (hvalid v hv).2.2.2.2] at hq hs
    rcases cleanupPass_changed _ st hne hwfst q hch with
      ⟨c, _, hE, hpre⟩ | ⟨nm, key, _, _, _, hpre⟩ | ⟨c, g, _, _, hE, hpre⟩
    · rw [r3] at hq; rw [r1] at hpre
      rcases List.prefix_or_prefix_of_prefix hq hpre with h | h
      · simp [List.append_assoc] at h
      · simp [List.append_assoc] at h
    · rw [r3] at hq; rw [r2] at hpre
      rcases List.prefix_or_prefix_of_prefix hq hpre with h | h
      · simp [List.append_assoc] at h
      · simp [List.append_assoc] at h
    · have hle := List.prefix_of_prefix_length_le hq hpre (by simp)
      have hc : v.UID = c := by
        have := prefix_append_append_left hle
        simpa using this
      subst hc
      exact hE hs
  · intro v hv c h hc hh q hq
    by_contra hch
    have hkey := containerKey_template v.Name v.Namespace c h (hvalid v hv).1 (hvalid v hv).2.2.1
    rcases cleanupPass_changed _ st hne hwfst q hch with
      ⟨c1, _, hE, hpre⟩ | ⟨nm, key, _, hk1, hk2, hpre⟩ | ⟨c1, g, _, _, _, hpre⟩
    · rw [r2] at hq; rw [r1] at hpre
      rcases List.prefix_or_prefix_of_prefix hq hpre with h | h
      · simp [List.append_assoc] at h
      · simp [List.append_assoc] at h
    · have := prefix_append_singleton_eq hpre hq
      subst this
      rw [hkey] at hk1
      simp only [Option.some.injEq] at hk1
      subst hk1
      exact hk2 (m6 v hv)
    · rw [r2] at hq; rw [r3] at hpre
      rcases List.prefix_or_prefix_of_prefix hq hpre with h | h
      · simp [List.append_assoc] at h
      · simp [List.append_assoc] at h


theorem cleanupPass_keeps_seen_witness :
    (plainPath ["tmp", "vcluster", "ns", "vc"] ∧ exampleFS.WF ∧
      (∀ v ∈ [exampleVirtualPod], validPodNames v) ∧
      getPhysicalPodMap exampleOptions examplePManager exampleFS = .ok examplePodMappings ∧
      exampleVManager.listPods none = .ok [exampleVirtualPod] ∧
      (mapPodsLoop exampleTranslate exampleOptions examplePodMappings [exampleVirtualPod]
        { fs := exampleFS }).2 = none) ∧
    (cleanupPass exampleOptions
        (mapPodsLoop exampleTranslate exampleOptions examplePodMappings [exampleVirtualPod]
          { fs := exampleFS }).1).1.lookup
      (exampleOptions.VirtualContainerLogsPath ++ ["p1_ns1_c1-abc.log"])
      = some (Node.link "/var/log/pods/ns1_p1_u1/c1/0.log") :=
  ⟨by decide,
   ((cleanupPass_keeps_seen exampleTranslate false "ns" "vc" ["tmp", "vcluster", "ns", "vc"]
      examplePManager exampleVManager examplePodMappings [exampleVirtualPod] exampleFS
      (mapPodsLoop exampleTranslate exampleOptions examplePodMappings [exampleVirtualPod]
        { fs := exampleFS }).1
      (by decide) (by decide) (by decide) (by decide) (by decide)
      (Prod.ext rfl (by decide))).2.2.2 exampleVirtualPod (by decide) "c1" "abc"
      (by decide) (by decide) _ (List.prefix_refl _)).trans (by decide)⟩

/-- Why the names matter for the container-log cleanup: with a virtual pod
named `web_1`, a name the API server does not admit, the pass creates the
container link `web_1_ns1_c1-abc.log`, records the key `web_1_ns1`, and the
cleanup of the same pass, which reads the key `web_1` off the entry name,
removes the link. -/
theorem cleanupPass_removes_created_link :
    getPhysicalPodMap exampleOptions exampleUnderscorePManager exampleUnderscoreFS
      = .ok exampleUnderscoreMappings ∧
    exampleUnderscoreFS.lookup
      (exampleOptions.VirtualContainerLogsPath ++ ["web_1_ns1_c1-abc.log"]) = none ∧
    (mapPodsLoop exampleTranslate exampleOptions exampleUnderscoreMappings
      [exampleUnderscorePod] { fs := exampleUnderscoreFS }).2 = none ∧
    (mapPodsLoop exampleTranslate exampleOptions exampleUnderscoreMappings
      [exampleUnderscorePod] { fs := exampleUnderscoreFS }).1.fs.lookup
        (exampleOptions.VirtualContainerLogsPath ++ ["web_1_ns1_c1-abc.log"])
      = some (Node.link "/var/log/pods/ns1_web_1_u2/c1/0.log") ∧
    "web_1_ns1" ∈ (mapPodsLoop exampleTranslate exampleOptions exampleUnderscoreMappings
      [exampleUnderscorePod] { fs := exampleUnderscoreFS }).1.existingVPodsWithNamespace ∧
    mapFunc exampleTranslate exampleOptions exampleUnderscorePManager exampleUnderscoreVManager
        exampleUnderscoreFS
      = cleanupPass exampleOptions
          (mapPodsLoop exampleTranslate exampleOptions exampleUnderscoreMappings
            [exampleUnderscorePod] { fs := exampleUnderscoreFS }).1 ∧
    (mapFunc exampleTranslate exampleOptions exampleUnderscorePManager exampleUnderscoreVManager
        exampleUnderscoreFS).1.lookup
        (exampleOptions.VirtualContainerLogsPath ++ ["web_1_ns1_c1-abc.log"]) = none := by
  decide

/-! ### Removals as filters -/

theorem RemovedAt.rem_refl (T : Path → Prop) (fs : FS) : RemovedAt T fs fs :=
  ⟨rfl, fun _ => true, by simp, by simp⟩

theorem RemovedAt.rem_trans {T : Path → Prop} {a b c : FS} (h1 : RemovedAt T a b)
    (h2 : RemovedAt T b c) : RemovedAt T a c := by
  obtain ⟨p1, f1, e1, q1⟩ := h1
  obtain ⟨p2, f2, e2, q2⟩ := h2
  refine ⟨p2.trans p1, fun k => f1 k && f2 k, ?_, ?_⟩
  · rw [e2, e1, List.filter_filter]
    congr 1
    funext e
    simp [Bool.and_comm]
  · intro k hk
    simp only [Bool.and_eq_false_iff] at hk
    rcases hk with h | h
    · exact q1 k h
    · exact q2 k h

theorem RemovedAt.rem_mono {T U : Path → Prop} {a b : FS} (h : RemovedAt T a b)
    (hTU : ∀ t, T t → U t) : RemovedAt U a b := by
  obtain ⟨p1, f1, e1, q1⟩ := h
  refine ⟨p1, f1, e1, fun k hk => ?_⟩
  obtain ⟨t, ht, hpre⟩ := q1 k hk
  exact ⟨t, hTU t ht, hpre⟩

theorem osRemoveAll_removedAt (T : Path → Prop) (fs : FS) (t : Path) (ht : T t) :
    RemovedAt T fs (osRemoveAll fs t).1 := by
  refine ⟨osRemoveAll_pinned fs t, fun k => decide (¬ t <+: k ∨ fs.refuses k), rfl, ?_⟩
  intro k hk
  simp only [decide_eq_false_iff_not, not_or, not_not] at hk
  exact ⟨t, ht, hk.1⟩

theorem RemovedAt.mem {T : Path → Prop} {a b : FS} (h : RemovedAt T a b) (e : Path × Node)
    (he : e ∈ b.entries) : e ∈ a.entries := by
  obtain ⟨_, f1, e1, _⟩ := h
  rw [e1] at he
  exact List.mem_of_mem_filter he

theorem RemovedAt.rem_wf {T : Path → Prop} {a b : FS} (h : RemovedAt T a b) (hwf : a.WF) : b.WF :=
  fun e he => hwf e (h.mem e he)

theorem RemovedAt.rem_refuses {T : Path → Prop} {a b : FS} (h : RemovedAt T a b) (q : Path) :
    b.refuses q ↔ a.refuses q := by
  simp only [FS.refuses, h.1]

theorem RemovedAt.lookup {T : Path → Prop} {a b : FS} (h : RemovedAt T a b) (q : Path) :
    b.lookup q = a.lookup q ∨ (b.lookup q = none ∧ ∃ t, T t ∧ t <+: q) := by
  obtain ⟨_, f1, e1, q1⟩ := h
  by_cases hq : q = []
  · subst hq; left; simp [FS.lookup]
  · simp only [FS.lookup, hq, if_false, e1, lookupIn_filter_key]
    by_cases hf : f1 q = true
    · left; simp [hf]
    · right
      refine ⟨by simp [hf], ?_⟩
      exact q1 q (by simpa using hf)

theorem RemovedAt.lookup_of_some {T : Path → Prop} {a b : FS} (h : RemovedAt T a b) (q : Path)
    (n : Node) (hq : b.lookup q = some n) : a.lookup q = some n := by
  rcases h.lookup q with e | ⟨e, _⟩
  · rw [← e]; exact hq
  · rw [e] at hq; exact absurd hq (by simp)

theorem RemovedAt.keep {T : Path → Prop} {a b : FS} (h : RemovedAt T a b) (q : Path)
    (hq : ∀ t, T t → ¬ t <+: q) : b.lookup q = a.lookup q := by
  rcases h.lookup q with e | ⟨_, t, ht, hpre⟩
  · exact e
  · exact absurd hpre (hq t ht)

theorem RemovedAt.rem_phys_eq {T : Path → Prop} {a b : FS} (h : RemovedAt T a b) (vp : Path)
    (hT : ∀ t, T t → vp <+: t) : physEntries vp b = physEntries vp a := by
  obtain ⟨_, f1, e1, q1⟩ := h
  unfold physEntries
  rw [e1, List.filter_filter]
  apply List.filter_congr
  intro e _
  by_cases hf : f1 e.1 = true
  · simp [hf]
  · obtain ⟨t, ht, hpre⟩ := q1 e.1 (by simpa using hf)
    have hn : Near vp e.1 := Or.inr ((hT t ht).trans hpre)
    simp [hn]

theorem ExtendsBy.ext_phys_eq {a b : FS} {vp : Path} (h : ExtendsBy (Near vp) a b) :
    physEntries vp b = physEntries vp a := by
  obtain ⟨_, l1, e1, q1⟩ := h
  unfold physEntries
  rw [e1, List.filter_append]
  have : l1.filter (fun e => decide (¬ Near vp e.1)) = [] := by
    rw [List.filter_eq_nil_iff]
    intro e he
    simpa using q1 e he
  rw [this, List.append_nil]

theorem foldl_eq_self {α β : Type} (f : α → β → α) (l : List β) (a : α)
    (h : ∀ x ∈ l, f a x = a) : l.foldl f a = a := by
  induction l with
  | nil => rfl
  | cons x xs ih =>
    simp only [List.foldl_cons]
    rw [h x (List.mem_cons_self _ _)]
    exact ih (fun y hy => h y (List.mem_cons_of_mem _ hy))

/-! ### The three cleanups as filters -/

theorem cleanupLoop_other_removedAt (options : VirtualClusterOptions) (R : Path)
    (E : List Path) (hR : R ≠ options.VirtualKubeletPodPath) (names : List String)
    (hn : ∀ c ∈ names, plainName c = true) (fs : FS) :
    RemovedAt (fun t => ∃ c, plainName c = true ∧ t = R ++ [c] ∧ t ∉ E) fs
      (names.foldl (cleanupPodDirEntry options R E) fs) := by
  induction names generalizing fs with
  | nil => exact RemovedAt.rem_refl _ _
  | cons c rest ih =>
    have hc := hn c (List.mem_cons_self _ _)
    simp only [List.foldl_cons]
    refine RemovedAt.rem_trans ?_ (ih (fun x hx => hn x (List.mem_cons_of_mem _ hx)) _)
    rw [cleanupPodDirEntry_other options R E fs c hR, filepathJoin_plain R c hc]
    split
    · exact RemovedAt.rem_refl _ _
    · rename_i hE
      exact osRemoveAll_removedAt _ fs _ ⟨c, hc, rfl, hE⟩

theorem cleanupOldPodPath_other_removedAt (options : VirtualClusterOptions) (fs : FS)
    (R : Path) (E : List Path) (hR : R ≠ options.VirtualKubeletPodPath) (hwf : fs.WF) :
    RemovedAt (fun t => ∃ c, plainName c = true ∧ t = R ++ [c] ∧ t ∉ E) fs
      (cleanupOldPodPath options fs R E).1 := by
  unfold cleanupOldPodPath
  cases hrd : osReadDir fs R with
  | error err => exact RemovedAt.rem_refl _ _
  | ok names =>
    exact cleanupLoop_other_removedAt options R E hR names
      (fun c hc => (osReadDir_plain fs hwf R names hrd c hc).1) fs

theorem cleanupContainerEntries_removedAt (options : VirtualClusterOptions)
    (existing : List String) (names : List String) (hn : ∀ c ∈ names, plainName c = true)
    (fs : FS) :
    RemovedAt (fun t => ∃ name key, plainName name = true ∧ containerKey name = some key ∧
        key ∉ existing ∧ t = options.VirtualContainerLogsPath ++ [name]) fs
      (cleanupContainerEntries options existing names fs).1 := by
  induction names generalizing fs with
  | nil => exact RemovedAt.rem_refl _ _
  | cons name rest ih =>
    have hc := hn name (List.mem_cons_self _ _)
    have hrest : ∀ x ∈ rest, plainName x = true := fun x hx => hn x (List.mem_cons_of_mem _ hx)
    rw [cleanupContainerEntries_cons]
    cases hk : containerKey name with
    | none => exact RemovedAt.rem_refl _ _
    | some key =>
      simp only
      split
      · exact ih hrest fs
      · rename_i hmem
        refine RemovedAt.rem_trans ?_ (ih hrest _)
        rw [filepathJoin_plain _ name hc]
        exact osRemoveAll_removedAt _ fs _ ⟨name, key, hc, hk, hmem, rfl⟩

theorem cleanupOldContainerPaths_removedAt (options : VirtualClusterOptions) (fs : FS)
    (existing : List String) (hwf : fs.WF) :
    RemovedAt (fun t => ∃ name key, plainName name = true ∧ containerKey name = some key ∧
        key ∉ existing ∧ t = options.VirtualContainerLogsPath ++ [name]) fs
      (cleanupOldContainerPaths options fs existing).1 := by
  unfold cleanupOldContainerPaths
  cases hrd : osReadDir fs options.VirtualContainerLogsPath with
  | error err => exact RemovedAt.rem_refl _ _
  | ok names =>
    exact cleanupContainerEntries_removedAt options existing names
      (fun c hc => (osReadDir_plain fs hwf _ names hrd c hc).1) fs

theorem cleanupKubeletLinks_removedAt (K : Path) (E : List Path) (c : String)
    (hc : plainName c = true) (hE : K ++ [c] ∉ E) (symlinks : List String)
    (hs : ∀ g ∈ symlinks, plainName g = true) (fs : FS) :
    RemovedAt (fun t => ∃ c g, plainName c = true ∧ plainName g = true ∧ K ++ [c] ∉ E ∧
        t = K ++ [c, g]) fs (cleanupKubeletLinks (K ++ [c]) symlinks fs) := by
  induction symlinks generalizing fs with
  | nil => exact RemovedAt.rem_refl _ _
  | cons g rest ih =>
    have hg := hs g (List.mem_cons_self _ _)
    have hrest : ∀ x ∈ rest, plainName x = true := fun x hx => hs x (List.mem_cons_of_mem _ hx)
    simp only [cleanupKubeletLinks, filepathJoin_plain (K ++ [c]) g hg, append_two]
    split
    · refine RemovedAt.rem_trans ?_ (ih hrest _)
      exact osRemoveAll_removedAt _ fs _ ⟨c, g, hc, hg, hE, rfl⟩
    · exact ih hrest fs

theorem cleanupPodDirEntry_kubelet_removedAt (options : VirtualClusterOptions) (E : List Path)
    (c : String) (hc : plainName c = true) (fs : FS) (hwf : fs.WF) :
    RemovedAt (fun t => ∃ c g, plainName c = true ∧ plainName g = true ∧
        options.VirtualKubeletPodPath ++ [c] ∉ E ∧ t = options.VirtualKubeletPodPath ++ [c, g])
      fs (cleanupPodDirEntry options options.VirtualKubeletPodPath E fs c) := by
  simp only [cleanupPodDirEntry, filepathJoin_plain _ c hc, if_true]
  split
  · exact RemovedAt.rem_refl _ _
  · rename_i hE
    apply cleanupKubeletLinks_removedAt _ E c hc hE
    intro g hg
    cases hrd : osReadDir fs (options.VirtualKubeletPodPath ++ [c]) with
    | error err => simp [hrd] at hg
    | ok l =>
      simp only [hrd] at hg
      exact (osReadDir_plain fs hwf _ l hrd g hg).1

theorem cleanupLoop_kubelet_removedAt (options : VirtualClusterOptions) (E : List Path)
    (names : List String) (hn : ∀ c ∈ names, plainName c = true) (fs : FS) (hwf : fs.WF) :
    RemovedAt (fun t => ∃ c g, plainName c = true ∧ plainName g = true ∧
        options.VirtualKubeletPodPath ++ [c] ∉ E ∧ t = options.VirtualKubeletPodPath ++ [c, g])
      fs (names.foldl (cleanupPodDirEntry options options.VirtualKubeletPodPath E) fs) := by
  induction names generalizing fs with
  | nil => exact RemovedAt.rem_refl _ _
  | cons c rest ih =>
    simp only [List.foldl_cons]
    have h1 := cleanupPodDirEntry_kubelet_removedAt options E c
      (hn c (List.mem_cons_self _ _)) fs hwf
    exact h1.rem_trans (ih (fun x hx => hn x (List.mem_cons_of_mem _ hx)) _ (h1.rem_wf hwf))

theorem cleanupOldPodPath_kubelet_removedAt (options : VirtualClusterOptions) (fs : FS)
    (E : List Path) (hwf : fs.WF) :
    RemovedAt (fun t => ∃ c g, plainName c = true ∧ plainName g = true ∧
        options.VirtualKubeletPodPath ++ [c] ∉ E ∧ t = options.VirtualKubeletPodPath ++ [c, g])
      fs (cleanupOldPodPath options fs options.VirtualKubeletPodPath E).1 := by
  unfold cleanupOldPodPath
  cases hrd : osReadDir fs options.VirtualKubeletPodPath with
  | error err => exact RemovedAt.rem_refl _ _
  | ok names =>
    exact cleanupLoop_kubelet_removedAt options E names
      (fun c hc => (osReadDir_plain fs hwf _ names hrd c hc).1) fs hwf

/-! ### When a cleanup has nothing left to do -/

theorem exists_entry_of_lookup {fs : FS} {q : Path} (hq : q ≠ []) (h : fs.lookup q ≠ none) :
    ∃ e ∈ fs.entries, e.1 = q := by
  rw [FS.lookup_of_ne_nil _ _ hq, lookupIn_ne_none_iff] at h
  exact h

theorem lookup_ne_none_of_entry {fs : FS} {e : Path × Node} (he : e ∈ fs.entries)
    (hq : e.1 ≠ []) : fs.lookup e.1 ≠ none := by
  rw [FS.lookup_of_ne_nil _ _ hq, lookupIn_ne_none_iff]
  exact ⟨e, he, rfl⟩

theorem SettledChildren.children_removedAt {R : Path} {E : List Path} {T : Path → Prop} {a b : FS}
    (h : SettledChildren R E a) (hr : RemovedAt T a b) : SettledChildren R E b := by
  intro hdir c hex hE e he hpre
  obtain ⟨e0, he0, hk0⟩ := hex
  exact (hr.rem_refuses _).mpr
    (h (hr.lookup_of_some R _ hdir) c ⟨e0, hr.mem e0 he0, hk0⟩ hE e (hr.mem e he) hpre)

theorem SettledContainers.containers_removedAt {R : Path} {existing : List String} {T : Path → Prop}
    {a b : FS} (h : SettledContainers R existing a) (hr : RemovedAt T a b) :
    SettledContainers R existing b := by
  intro hdir name hex
  obtain ⟨e0, he0, hk0⟩ := hex
  obtain ⟨key, hkey, h1⟩ := h (hr.lookup_of_some R _ hdir) name ⟨e0, hr.mem e0 he0, hk0⟩
  refine ⟨key, hkey, ?_⟩
  rcases h1 with h1 | h1
  · exact Or.inl h1
  · exact Or.inr (fun e he hpre => (hr.rem_refuses _).mpr (h1 e (hr.mem e he) hpre))

theorem ChildSettled.child_removedAt {K : Path} {c : String} {T : Path → Prop} {a b : FS}
    (h : ChildSettled K a c) (hr : RemovedAt T a b) : ChildSettled K b c := by
  intro hcdir g hex
  obtain ⟨e0, he0, hk0⟩ := hex
  rcases h (hr.lookup_of_some _ _ hcdir) g ⟨e0, hr.mem e0 he0, hk0⟩ with ⟨t, ht⟩ | h1
  · left
    have hne : b.lookup (K ++ [c, g]) ≠ none := by
      rw [← hk0]; exact lookup_ne_none_of_entry he0 (by rw [hk0]; simp)
    rcases hr.lookup (K ++ [c, g]) with e1 | ⟨e1, _⟩
    · exact ⟨t, e1.trans ht⟩
    · exact absurd e1 hne
  · exact Or.inr (fun e he hpre => (hr.rem_refuses _).mpr (h1 e (hr.mem e he) hpre))

theorem SettledKubelet.kubelet_removedAt {K : Path} {E : List Path} {T : Path → Prop} {a b : FS}
    (h : SettledKubelet K E a) (hr : RemovedAt T a b) : SettledKubelet K E b :=
  fun hdir c hE => (h (hr.lookup_of_some K _ hdir) c hE).child_removedAt hr

theorem ne_nil_of_child_prefix {R q : Path} {c : String} (h : R ++ [c] <+: q) : q ≠ [] := by
  intro h0
  rw [h0] at h
  simp at h

/-- After the cleanup of a root other than the kubelet root, nothing is left to
do there. -/
theorem cleanupOldPodPath_settles (options : VirtualClusterOptions) (fs : FS) (R : Path)
    (E : List Path) (hR : R ≠ options.VirtualKubeletPodPath) (hwf : fs.WF) :
    SettledChildren R E (cleanupOldPodPath options fs R E).1 := by
  have hrem := cleanupOldPodPath_other_removedAt options fs R E hR hwf
  intro hdir c hex hE e he hpre
  obtain ⟨e0, he0, hk0⟩ := hex
  have hdir0 := hrem.lookup_of_some R _ hdir
  have hrd := osReadDir_of_dir fs R hdir0
  have hc : c ∈ sortNames (childNames fs.entries R).dedup :=
    (mem_osReadDir fs R _ hrd c).mpr ⟨e0, hrem.mem e0 he0, hk0⟩
  have hplain := (osReadDir_plain fs hwf R _ hrd c hc).1
  have hq : e.1 ≠ [] := ne_nil_of_child_prefix hpre
  have hne : (cleanupOldPodPath options fs R E).1.lookup e.1 ≠ none :=
    lookup_ne_none_of_entry he hq
  have hres : (cleanupOldPodPath options fs R E).1
      = (sortNames (childNames fs.entries R).dedup).foldl (cleanupPodDirEntry options R E) fs := by
    simp [cleanupOldPodPath, hrd]
  rw [hres] at hne ⊢
  rw [(cleanupLoop_other_lookup options R E hR _ fs _).2] at hne
  have hp := (cleanupLoop_other_lookup options R E hR
    (sortNames (childNames fs.entries R).dedup) fs []).1
  by_contra hnr
  have hnr0 : ¬ fs.refuses e.1 := by
    intro h0; apply hnr; simp only [FS.refuses, hp]; exact h0
  apply hne
  rw [if_pos]
  refine ⟨c, hc, ?_, ?_, hnr0, hq⟩
  · rw [filepathJoin_plain R c hplain]; exact hE
  · rw [filepathJoin_plain R c hplain]; exact hpre

/-- Where nothing is left to do, the cleanup of a root other than the kubelet
root changes nothing. -/
theorem cleanupOldPodPath_of_settled (options : VirtualClusterOptions) (fs : FS) (R : Path)
    (E : List Path) (hR : R ≠ options.VirtualKubeletPodPath) (hwf : fs.WF)
    (h : SettledChildren R E fs) : (cleanupOldPodPath options fs R E).1 = fs := by
  unfold cleanupOldPodPath
  cases hrd : osReadDir fs R with
  | error err => rfl
  | ok names =>
    simp only
    apply foldl_eq_self
    intro c hc
    obtain ⟨e, he, hk⟩ := (mem_osReadDir fs R names hrd c).mp hc
    have hplain := (osReadDir_plain fs hwf R names hrd c hc).1
    rw [cleanupPodDirEntry_other options R E fs c hR, filepathJoin_plain R c hplain]
    split
    · rfl
    · rename_i hE
      exact osRemoveAll_of_held fs _ (h (osReadDir_ok fs R names hrd).1 c ⟨e, he, hk⟩ hE)

theorem cleanupContainerEntries_keys (options : VirtualClusterOptions) (existing : List String)
    (names : List String) (fs : FS)
    (hret : (cleanupContainerEntries options existing names fs).2 ≠ Outcome.panicked) :
    ∀ name ∈ names, ∃ key, containerKey name = some key := by
  induction names generalizing fs with
  | nil => simp
  | cons name rest ih =>
    rw [cleanupContainerEntries_cons] at hret
    intro x hx
    cases hk : containerKey name with
    | none => simp [hk] at hret
    | some key =>
      simp only [hk] at hret
      rcases List.mem_cons.mp hx with h | h
      · subst h; exact ⟨key, hk⟩
      · split at hret
        · exact ih fs hret x h
        · exact ih _ hret x h

theorem cleanupContainerEntries_returned (options : VirtualClusterOptions)
    (existing : List String) (names : List String) (fs : FS)
    (hret : (cleanupContainerEntries options existing names fs).2 ≠ Outcome.panicked) :
    (cleanupContainerEntries options existing names fs).2 = Outcome.returned none := by
  induction names generalizing fs with
  | nil => rfl
  | cons name rest ih =>
    rw [cleanupContainerEntries_cons] at hret ⊢
    cases hk : containerKey name with
    | none => simp [hk] at hret
    | some key =>
      simp only [hk] at hret ⊢
      split
      · rename_i hm; simp only [hm, if_true] at hret; exact ih fs hret
      · rename_i hm; simp only [hm, if_false] at hret; exact ih _ hret

/-- After a cleanup of the container-logs root that did not panic, nothing is
left to do there. -/
theorem cleanupOldContainerPaths_settles (options : VirtualClusterOptions) (fs : FS)
    (existing : List String) (hwf : fs.WF)
    (hret : (cleanupOldContainerPaths options fs existing).2 ≠ Outcome.panicked) :
    SettledContainers options.VirtualContainerLogsPath existing
      (cleanupOldContainerPaths options fs existing).1 := by
  have hrem := cleanupOldContainerPaths_removedAt options fs existing hwf
  intro hdir name hex
  obtain ⟨e0, he0, hk0⟩ := hex
  have hdir0 := hrem.lookup_of_some _ _ hdir
  have hrd := osReadDir_of_dir fs _ hdir0
  have hc : name ∈ sortNames (childNames fs.entries options.VirtualContainerLogsPath).dedup :=
    (mem_osReadDir fs _ _ hrd name).mpr ⟨e0, hrem.mem e0 he0, hk0⟩
  have hplain := (osReadDir_plain fs hwf _ _ hrd name hc).1
  have hres : cleanupOldContainerPaths options fs existing
      = cleanupContainerEntries options existing
          (sortNames (childNames fs.entries options.VirtualContainerLogsPath).dedup) fs := by
    simp [cleanupOldContainerPaths, hrd]
  rw [hres] at hret ⊢
  obtain ⟨key, hkey⟩ := cleanupContainerEntries_keys options existing _ fs hret name hc
  have hret2 := cleanupContainerEntries_returned options existing _ fs hret
  have hp := (cleanupContainerEntries_safe options existing
    (sortNames (childNames fs.entries options.VirtualContainerLogsPath).dedup) fs).1
  refine ⟨key, hkey, ?_⟩
  by_cases hE : key ∈ existing
  · exact Or.inl hE
  · right
    intro e he hpre
    have hq : e.1 ≠ [] := ne_nil_of_child_prefix hpre
    have hne := lookup_ne_none_of_entry he hq
    rw [cleanupContainerEntries_lookup options existing _ fs hret2] at hne
    by_contra hnr
    have hnr0 : ¬ fs.refuses e.1 := by
      intro h0; apply hnr; simp only [FS.refuses, hp]; exact h0
    apply hne
    rw [if_pos]
    refine ⟨name, hc, key, hkey, hE, ?_, hnr0, hq⟩
    rw [filepathJoin_plain _ name hplain]; exact hpre

theorem cleanupContainerEntries_of_settled (options : VirtualClusterOptions)
    (existing : List String) (names : List String) (fs : FS)
    (h : ∀ name ∈ names, ∃ key, containerKey name = some key ∧
      (key ∈ existing ∨ ∀ e ∈ fs.entries,
        filepathJoin options.VirtualContainerLogsPath [name] <+: e.1 → fs.refuses e.1)) :
    cleanupContainerEntries options existing names fs = (fs, Outcome.returned none) := by
  induction names with
  | nil => rfl
  | cons name rest ih =>
    rw [cleanupContainerEntries_cons]
    obtain ⟨key, hkey, hor⟩ := h name (List.mem_cons_self _ _)
    have ih2 := ih (fun x hx => h x (List.mem_cons_of_mem _ hx))
    simp only [hkey]
    split
    · exact ih2
    · rcases hor with h1 | h1
      · rename_i hm; exact absurd h1 hm
      · rw [osRemoveAll_of_held fs _ h1]; exact ih2

/-- Where nothing is left to do, the cleanup of the container-logs root
changes nothing and does not panic. -/
theorem cleanupOldContainerPaths_of_settled (options : VirtualClusterOptions) (fs : FS)
    (existing : List String) (hwf : fs.WF)
    (h : SettledContainers options.VirtualContainerLogsPath existing fs) :
    (cleanupOldContainerPaths options fs existing).1 = fs ∧
    ∃ r, (cleanupOldContainerPaths options fs existing).2 = Outcome.returned r := by
  unfold cleanupOldContainerPaths
  cases hrd : osReadDir fs options.VirtualContainerLogsPath with
  | error err => exact ⟨rfl, _, rfl⟩
  | ok names =>
    simp only
    have hall : ∀ name ∈ names, ∃ key, containerKey name = some key ∧
        (key ∈ existing ∨ ∀ e ∈ fs.entries,
          filepathJoin options.VirtualContainerLogsPath [name] <+: e.1 → fs.refuses e.1) := by
      intro name hn
      obtain ⟨e, he, hk⟩ := (mem_osReadDir fs _ names hrd name).mp hn
      have hplain := (osReadDir_plain fs hwf _ names hrd name hn).1
      rw [filepathJoin_plain _ name hplain]
      exact h (osReadDir_ok fs _ names hrd).1 name ⟨e, he, hk⟩
    rw [cleanupContainerEntries_of_settled options existing names fs hall]
    exact ⟨rfl, _, rfl⟩

/-! #### The kubelet root -/

theorem cleanupKubeletLinks_done (K : Path) (E : List Path) (c : String)
    (hc : plainName c = true) (hE : K ++ [c] ∉ E) (symlinks : List String)
    (hs : ∀ g ∈ symlinks, plainName g = true) (fs : FS) :
    ∀ g ∈ symlinks,
      (cleanupKubeletLinks (K ++ [c]) symlinks fs).lookup (K ++ [c, g]) = none ∨
      (∃ t, (cleanupKubeletLinks (K ++ [c]) symlinks fs).lookup (K ++ [c, g])
        = some (Node.link t)) ∨
      (∀ e ∈ (cleanupKubeletLinks (K ++ [c]) symlinks fs).entries, K ++ [c, g] <+: e.1 →
        (cleanupKubeletLinks (K ++ [c]) symlinks fs).refuses e.1) := by
  induction symlinks generalizing fs with
  | nil => simp
  | cons g rest ih =>
    have hg := hs g (List.mem_cons_self _ _)
    have hrest : ∀ x ∈ rest, plainName x = true := fun x hx => hs x (List.mem_cons_of_mem _ hx)
    intro x hx
    simp only [cleanupKubeletLinks, filepathJoin_plain (K ++ [c]) g hg, append_two]
    cases hrl : osReadlink fs (K ++ [c, g]) with
    | ok t =>
      simp only
      rcases List.mem_cons.mp hx with h | h
      · subst h
        have hl : fs.lookup (K ++ [c, x]) = some (Node.link t) := by
          unfold osReadlink at hrl
          cases hlk : fs.lookup (K ++ [c, x]) with
          | none => simp [hlk] at hrl
          | some n =>
            cases n with
            | dir => simp [hlk] at hrl
            | file => simp [hlk] at hrl
            | link t2 => simp [hlk] at hrl; rw [hrl]
        have hrem := cleanupKubeletLinks_removedAt K E c hc hE rest hrest fs
        rcases hrem.lookup (K ++ [c, x]) with e | ⟨e, _⟩
        · exact Or.inr (Or.inl ⟨t, e.trans hl⟩)
        · exact Or.inl e
      · exact ih hrest fs x h
    | error err =>
      simp only
      rcases List.mem_cons.mp hx with h | h
      · subst h
        have hrem := cleanupKubeletLinks_removedAt K E c hc hE rest hrest
          (osRemoveAll fs (K ++ [c, x])).1
        right; right
        intro e he hpre
        have he1 := hrem.mem e he
        rw [osRemoveAll_all_entries, List.mem_filter] at he1
        have he2 : ¬ K ++ [c, x] <+: e.1 ∨ fs.refuses e.1 := by simpa using he1.2
        rw [hrem.rem_refuses]
        simp only [FS.refuses, osRemoveAll_pinned]
        rcases he2 with h2 | h2
        · exact absurd hpre h2
        · exact h2
      · exact ih hrest _ x h

theorem cleanupPodDirEntry_kubelet_done (options : VirtualClusterOptions) (E : List Path)
    (c : String) (hc : plainName c = true)
    (hE : options.VirtualKubeletPodPath ++ [c] ∉ E) (fs : FS) (hwf : fs.WF) :
    ChildSettled options.VirtualKubeletPodPath
      (cleanupPodDirEntry options options.VirtualKubeletPodPath E fs c) c := by
  have hrem := cleanupPodDirEntry_kubelet_removedAt options E c hc fs hwf
  intro hcdir g hex
  obtain ⟨e0, he0, hk0⟩ := hex
  have hdir0 := hrem.lookup_of_some _ _ hcdir
  have hrd := osReadDir_of_dir fs _ hdir0
  have hg : g ∈ sortNames (childNames fs.entries (options.VirtualKubeletPodPath ++ [c])).dedup :=
    (mem_osReadDir fs _ _ hrd g).mpr ⟨e0, hrem.mem e0 he0, by rw [hk0]; simp⟩
  have hne : (cleanupPodDirEntry options options.VirtualKubeletPodPath E fs c).lookup
      (options.VirtualKubeletPodPath ++ [c, g]) ≠ none := by
    rw [← hk0]; exact lookup_ne_none_of_entry he0 (by rw [hk0]; simp)
  have hres : cleanupPodDirEntry options options.VirtualKubeletPodPath E fs c
      = cleanupKubeletLinks (options.VirtualKubeletPodPath ++ [c])
          (sortNames (childNames fs.entries (options.VirtualKubeletPodPath ++ [c])).dedup) fs := by
    simp only [cleanupPodDirEntry, filepathJoin_plain _ c hc, if_true, hE, if_false, hrd]
  rw [hres] at hne ⊢
  rcases cleanupKubeletLinks_done _ E c hc hE _
      (fun x hx => (osReadDir_plain fs hwf _ _ hrd x hx).1) fs g hg with h1 | h1 | h1
  · exact absurd h1 hne
  · exact Or.inl h1
  · exact Or.inr h1

theorem cleanupLoop_kubelet_done (options : VirtualClusterOptions) (E : List Path)
    (names : List String) (hn : ∀ c ∈ names, plainName c = true) (fs : FS) (hwf : fs.WF) :
    ∀ c ∈ names, options.VirtualKubeletPodPath ++ [c] ∉ E →
      ChildSettled options.VirtualKubeletPodPath
        (names.foldl (cleanupPodDirEntry options options.VirtualKubeletPodPath E) fs) c := by
  induction names generalizing fs with
  | nil => simp
  | cons c rest ih =>
    have hc := hn c (List.mem_cons_self _ _)
    have hrest : ∀ x ∈ rest, plainName x = true := fun x hx => hn x (List.mem_cons_of_mem _ hx)
    have h1 := cleanupPodDirEntry_kubelet_removedAt options E c hc fs hwf
    intro x hx hE
    simp only [List.foldl_cons]
    rcases List.mem_cons.mp hx with h | h
    · subst h
      exact (cleanupPodDirEntry_kubelet_done options E x hc hE fs hwf).child_removedAt
        (cleanupLoop_kubelet_removedAt options E rest hrest _ (h1.rem_wf hwf))
    · exact ih hrest _ (h1.rem_wf hwf) x h hE

/-- After the cleanup of the kubelet root, nothing is left to do there. -/
theorem cleanupOldPodPath_kubelet_settles (options : VirtualClusterOptions) (fs : FS)
    (E : List Path) (hwf : fs.WF) :
    SettledKubelet options.VirtualKubeletPodPath E
      (cleanupOldPodPath options fs options.VirtualKubeletPodPath E).1 := by
  have hrem := cleanupOldPodPath_kubelet_removedAt options fs E hwf
  intro hdir c hE hcdir
  have hdir0 := hrem.lookup_of_some _ _ hdir
  have hrd := osReadDir_of_dir fs _ hdir0
  have hne : (cleanupOldPodPath options fs options.VirtualKubeletPodPath E).1.lookup
      (options.VirtualKubeletPodPath ++ [c]) ≠ none := by rw [hcdir]; simp
  obtain ⟨e, he, hk⟩ := exists_entry_of_lookup (by simp) hne
  have hc : c ∈ sortNames (childNames fs.entries options.VirtualKubeletPodPath).dedup :=
    (mem_osReadDir fs _ _ hrd c).mpr ⟨e, hrem.mem e he, hk⟩
  have hres : (cleanupOldPodPath options fs options.VirtualKubeletPodPath E).1
      = (sortNames (childNames fs.entries options.VirtualKubeletPodPath).dedup).foldl
          (cleanupPodDirEntry options options.VirtualKubeletPodPath E) fs := by
    simp [cleanupOldPodPath, hrd]
  rw [hres] at hcdir ⊢
  exact cleanupLoop_kubelet_done options E _
    (fun x hx => (osReadDir_plain fs hwf _ _ hrd x hx).1) fs hwf c hc hE hcdir

theorem cleanupKubeletLinks_of_settled (Kc : Path) (symlinks : List String) (fs : FS)
    (h : ∀ g ∈ symlinks, (∃ t, fs.lookup (filepathJoin Kc [g]) = some (Node.link t)) ∨
      ∀ e ∈ fs.entries, filepathJoin Kc [g] <+: e.1 → fs.refuses e.1) :
    cleanupKubeletLinks Kc symlinks fs = fs := by
  induction symlinks with
  | nil => rfl
  | cons g rest ih =>
    have ih2 := ih (fun x hx => h x (List.mem_cons_of_mem _ hx))
    simp only [cleanupKubeletLinks]
    rcases h g (List.mem_cons_self _ _) with ⟨t, ht⟩ | hr
    · simp only [osReadlink, ht]
      exact ih2
    · split
      · rw [osRemoveAll_of_held fs _ hr]; exact ih2
      · exact ih2

/-- Where nothing is left to do, the cleanup of the kubelet root changes
nothing. -/
theorem cleanupOldPodPath_kubelet_of_settled (options : VirtualClusterOptions) (fs : FS)
    (E : List Path) (hwf : fs.WF) (h : SettledKubelet options.VirtualKubeletPodPath E fs) :
    (cleanupOldPodPath options fs options.VirtualKubeletPodPath E).1 = fs := by
  unfold cleanupOldPodPath
  cases hrd : osReadDir fs options.VirtualKubeletPodPath with
  | error err => rfl
  | ok names =>
    simp only
    apply foldl_eq_self
    intro c hc
    have hplain := (osReadDir_plain fs hwf _ names hrd c hc).1
    simp only [cleanupPodDirEntry, filepathJoin_plain _ c hplain, if_true]
    split
    · rfl
    · rename_i hE
      apply cleanupKubeletLinks_of_settled
      intro g hg
      cases hrd2 : osReadDir fs (options.VirtualKubeletPodPath ++ [c]) with
      | error err => simp [hrd2] at hg
      | ok l =>
        simp only [hrd2] at hg
        obtain ⟨e, he, hk⟩ := (mem_osReadDir fs _ l hrd2 g).mp hg
        have hgp := (osReadDir_plain fs hwf _ l hrd2 g hg).1
        rw [filepathJoin_plain _ g hgp, append_two]
        exact h (osReadDir_ok fs _ names hrd).1 c hE (osReadDir_ok fs _ l hrd2).1 g
          ⟨e, he, by rw [hk]; simp⟩

/-! ### The physical side of the disk -/

theorem not_near_nil_false (vp : Path) : Near vp [] := Or.inl List.nil_prefix

theorem apart_not_near {vp A : Path} (h : Apart vp A) (l : List String) : ¬ Near vp (A ++ l) := by
  rintro (hn | hn)
  · exact h.2 ((List.prefix_append A l).trans hn)
  · rcases List.prefix_or_prefix_of_prefix hn (List.prefix_append A l) with h1 | h1
    · exact h.1 h1
    · exact h.2 h1

theorem not_near_child {vp x : Path} (h : ¬ Near vp x) (c : String) : ¬ Near vp (x ++ [c]) := by
  rintro (hn | hn)
  · exact h (Or.inl ((List.prefix_append x [c]).trans hn))
  · rcases List.prefix_or_prefix_of_prefix hn (List.prefix_append x [c]) with h1 | h1
    · exact h (Or.inr h1)
    · exact h (Or.inl h1)

theorem lookup_physEntries (vp : Path) (fs : FS) (x : Path) (hx : ¬ Near vp x) :
    fs.lookup x = lookupIn (physEntries vp fs) x := by
  have hne : x ≠ [] := fun h => hx (h ▸ not_near_nil_false vp)
  have := lookupIn_filter_key (fun k => decide (¬ Near vp k)) fs.entries x
  simp only [hx, not_false_eq_true, decide_True, if_true] at this
  rw [FS.lookup_of_ne_nil _ _ hne]
  exact this.symm

theorem lookup_of_phys_eq {vp : Path} {a b : FS} (h : physEntries vp a = physEntries vp b)
    (x : Path) (hx : ¬ Near vp x) : a.lookup x = b.lookup x := by
  rw [lookup_physEntries vp a x hx, lookup_physEntries vp b x hx, h]

theorem filterMap_filter_of_none {α β : Type} (g : α → Option β) (p : α → Bool) (l : List α)
    (h : ∀ e ∈ l, p e = false → g e = none) : (l.filter p).filterMap g = l.filterMap g := by
  induction l with
  | nil => rfl
  | cons x xs ih =>
    have ih2 := ih (fun e he => h e (List.mem_cons_of_mem _ he))
    by_cases hp : p x = true
    · simp only [List.filter_cons, hp, if_true, List.filterMap_cons, ih2]
    · have hp2 : p x = false := by simpa using hp
      have hg := h x (List.mem_cons_self _ _) hp2
      have e : (x :: xs).filter p = xs.filter p := by simp [List.filter_cons, hp2]
      rw [e, ih2, List.filterMap_cons, hg]

theorem childNames_physEntries (vp : Path) (fs : FS) (x : Path) (hx : ¬ Near vp x) :
    childNames fs.entries x = childNames (physEntries vp fs) x := by
  unfold childNames physEntries
  symm
  apply filterMap_filter_of_none
  intro e _ hp
  simp only [decide_eq_false_iff_not, not_not] at hp
  cases hl : e.1.getLast? with
  | none => rfl
  | some name =>
    simp only
    by_cases hd : e.1.dropLast = x
    · exfalso
      have hk : e.1 = x ++ [name] := by
        rw [← hd]; exact (List.dropLast_append_getLast? name hl).symm
      rw [hk] at hp
      exact not_near_child hx name hp
    · simp [hd]

theorem osReadDir_of_phys_eq {vp : Path} {a b : FS} (h : physEntries vp a = physEntries vp b)
    (x : Path) (hx : ¬ Near vp x) : osReadDir a x = osReadDir b x := by
  unfold osReadDir
  rw [lookup_of_phys_eq h x hx, childNames_physEntries vp a x hx,
    childNames_physEntries vp b x hx, h]

theorem osReadlink_of_phys_eq {vp : Path} {a b : FS} (h : physEntries vp a = physEntries vp b)
    (x : Path) (hx : ¬ Near vp x) : osReadlink a x = osReadlink b x := by
  unfold osReadlink
  rw [lookup_of_phys_eq h x hx]

theorem statWalk_of_not_link (fs : FS) (n : Nat) (x : Path)
    (hl : ∀ t, fs.lookup x ≠ some (Node.link t)) :
    statWalk fs (n + 1) x =
      match fs.lookup x with
      | none =>
        if ∃ q ∈ x.inits, fs.lookup q = some Node.file then .error Errno.ENOTDIR
        else .error Errno.ENOENT
      | some nd => .ok nd := by
  simp only [statWalk]
  cases hlk : fs.lookup x with
  | none => rfl
  | some nd =>
    cases nd with
    | dir => rfl
    | file => rfl
    | link t => exact absurd hlk (hl t)

/-- Whether `checkIfPathExists` finds a path that is no link is whether
something stands there. -/
theorem checkIfPathExists_fst (fs : FS) (t : String)
    (hl : ∀ l, fs.lookup (filepathJoin PodLogsMountPath [t]) ≠ some (Node.link l)) :
    (checkIfPathExists fs t).1 = (fs.lookup (filepathJoin PodLogsMountPath [t])).isSome := by
  simp only [checkIfPathExists, osStat, statWalk_of_not_link fs 40 _ hl]
  cases fs.lookup (filepathJoin PodLogsMountPath [t]) with
  | none =>
    by_cases hx : ∃ q ∈ (filepathJoin PodLogsMountPath [t]).inits, fs.lookup q = some Node.file
    · simp only [if_pos hx]; rfl
    · simp only [if_neg hx]; rfl
  | some nd => rfl

theorem checkIfPathExists_of_phys_eq {vp : Path} {a b : FS}
    (h : physEntries vp a = physEntries vp b) (t : String)
    (hx : ¬ Near vp (filepathJoin PodLogsMountPath [t]))
    (hl : ∀ l, a.lookup (filepathJoin PodLogsMountPath [t]) ≠ some (Node.link l)) :
    (checkIfPathExists a t).1 = (checkIfPathExists b t).1 := by
  have e := lookup_of_phys_eq h _ hx
  have hl2 : ∀ l, b.lookup (filepathJoin PodLogsMountPath [t]) ≠ some (Node.link l) := by
    intro l; rw [← e]; exact hl l
  rw [checkIfPathExists_fst a t hl, checkIfPathExists_fst b t hl2, e]

theorem podMappingsLoop_congr (a b : FS) (pods : List Pod) (acc : PhysicalPodMap)
    (h : ∀ pod ∈ pods, (checkIfPathExists a (sprintf3 pod.Namespace pod.Name pod.UID)).1
      = (checkIfPathExists b (sprintf3 pod.Namespace pod.Name pod.UID)).1) :
    podMappingsLoop a pods acc = podMappingsLoop b pods acc := by
  induction pods generalizing acc with
  | nil => rfl
  | cons pod rest ih =>
    have ih2 := fun acc => ih acc (fun x hx => h x (List.mem_cons_of_mem _ hx))
    simp only [podMappingsLoop, h pod (List.mem_cons_self _ _), ih2]

theorem mem_of_mem_filterPods (L : List Pod) (S : List String) (pod : Pod)
    (h : pod ∈ filter L S) : pod ∈ L := by
  rw [filter_eq_listFilter] at h
  exact List.mem_of_mem_filter h

theorem getPhysicalPodMap_congr (options : VirtualClusterOptions) (pManager : Client)
    (a b : FS)
    (h : ∀ pod ∈ pManager.Pods, (checkIfPathExists a (sprintf3 pod.Namespace pod.Name pod.UID)).1
      = (checkIfPathExists b (sprintf3 pod.Namespace pod.Name pod.UID)).1) :
    getPhysicalPodMap options pManager a = getPhysicalPodMap options pManager b := by
  have hsub : ∀ ns items, pManager.listPods ns = .ok items → ∀ pod ∈ items, pod ∈ pManager.Pods := by
    intro ns items hl pod hp
    unfold Client.listPods at hl
    cases he : pManager.ListPodsErr with
    | some err => simp [he] at hl
    | none =>
      simp only [he] at hl
      cases ns with
      | none => simp only [Except.ok.injEq] at hl; rw [← hl] at hp; exact hp
      | some n =>
        simp only [Except.ok.injEq] at hl
        rw [← hl] at hp
        exact List.mem_of_mem_filter hp
  unfold getPhysicalPodMap
  simp only
  cases hl : pManager.listPods (if options.MultiNamespaceMode = true then none
      else some options.TargetNamespace) with
  | error err => rfl
  | ok items =>
    simp only
    split
    · cases hn : pManager.ListNamespaces options.TargetNamespace with
      | error err => rfl
      | ok nss =>
        simp only
        rw [podMappingsLoop_congr a b _ [] (fun pod hp =>
          h pod (hsub _ items hl pod (mem_of_mem_filterPods _ _ pod hp)))]
    · rw [podMappingsLoop_congr a b _ [] (fun pod hp => h pod (hsub _ items hl pod hp))]

/-! ### Running the creation again -/

theorem createPodLogSymlink_ok_exists (fs : FS) (v : Path) (t : String) (fs1 : FS) (p : Path)
    (h : createPodLogSymlinkToPhysical fs v t = (fs1, .ok p)) : fs1.lookup v ≠ none := by
  have hself := osSymlink_lookup_self fs t v
  simp only [createPodLogSymlinkToPhysical] at h
  cases hs : osSymlink fs t v with
  | mk fs2 r =>
    rw [hs] at h hself
    cases r with
    | none =>
      simp only [Prod.mk.injEq] at h
      rw [← h.1]; exact hself (Or.inl rfl)
    | some err =>
      simp only at h
      by_cases he : err = Errno.EEXIST
      · simp only [he, if_true, Prod.mk.injEq] at h
        rw [← h.1]; exact hself (Or.inr (by rw [he]))
      · simp [he] at h

theorem createPodLogSymlink_replay (fsX : FS) (v : Path) (t : String)
    (h : fsX.lookup v ≠ none) : createPodLogSymlinkToPhysical fsX v t = (fsX, .ok v) := by
  simp [createPodLogSymlinkToPhysical, osSymlink_of_exists fsX t v h]

theorem mkdirWalk_lookup_mono (rest : List String) (fs : FS) (cur : Path) (q : Path) (n : Node)
    (h : fs.lookup q = some n) : (mkdirWalk fs cur rest).1.lookup q = some n :=
  (mkdirWalk_extendsBy (fun _ => True) rest fs cur (fun _ _ _ _ => trivial)).lookup_mono q n h

theorem mkdirWalk_ok_dirs (rest : List String) (fs : FS) (cur : Path)
    (h : (mkdirWalk fs cur rest).2 = none) :
    ∀ k, 1 ≤ k → k ≤ rest.length →
      (mkdirWalk fs cur rest).1.lookup (cur ++ rest.take k) = some Node.dir := by
  induction rest generalizing fs cur with
  | nil => intro k h1 h2; simp at h2; omega
  | cons c rest ih =>
    intro k hk1 hk2
    simp only [mkdirWalk] at h ⊢
    cases hl : fs.lookup (cur ++ [c]) with
    | none =>
      simp only [hl] at h ⊢
      by_cases hk : k = 1
      · subst hk
        apply mkdirWalk_lookup_mono
        simp only [List.take_succ_cons, List.take_zero]
        rw [FS.lookup_append_entry, hl]; simp
      · have := ih _ (cur ++ [c]) h (k - 1) (by omega) (by simp at hk2; omega)
        obtain ⟨j, rfl⟩ : ∃ j, k = j + 1 := ⟨k - 1, by omega⟩
        simpa using this
    | some nd =>
      cases nd with
      | dir =>
        simp only [hl] at h ⊢
        by_cases hk : k = 1
        · subst hk
          apply mkdirWalk_lookup_mono
          simpa using hl
        · have := ih _ (cur ++ [c]) h (k - 1) (by omega) (by simp at hk2; omega)
          obtain ⟨j, rfl⟩ : ∃ j, k = j + 1 := ⟨k - 1, by omega⟩
          simpa using this
      | file => simp [hl] at h
      | link t => simp [hl] at h

theorem prefix_eq_take {q p : Path} (h : q <+: p) : q = p.take q.length := by
  obtain ⟨r, rfl⟩ := h
  simp

theorem osMkdirAll_ok_dirs (fs : FS) (p : Path) (h : (osMkdirAll fs p).2 = none) (q : Path)
    (hq : q <+: p) : (osMkdirAll fs p).1.lookup q = some Node.dir := by
  by_cases hn : q = []
  · subst hn; exact FS.lookup_nil _
  · have hlen : 1 ≤ q.length := by
      cases q with
      | nil => exact absurd rfl hn
      | cons a l => simp
    have := mkdirWalk_ok_dirs p fs [] h q.length hlen hq.length_le
    rw [List.nil_append, ← prefix_eq_take hq] at this
    exact this

theorem mkdirWalk_replay (rest : List String) (fsX : FS) (cur : Path)
    (h : ∀ k, 1 ≤ k → k ≤ rest.length → fsX.lookup (cur ++ rest.take k) = some Node.dir) :
    mkdirWalk fsX cur rest = (fsX, none) := by
  induction rest generalizing cur with
  | nil => rfl
  | cons c rest ih =>
    have h1 : fsX.lookup (cur ++ [c]) = some Node.dir := by
      simpa using h 1 (by omega) (by simp)
    simp only [mkdirWalk, h1]
    apply ih
    intro k hk1 hk2
    have := h (k + 1) (by omega) (by simp; omega)
    simpa using this

theorem osMkdirAll_replay (fsX : FS) (p : Path)
    (h : ∀ q, q <+: p → fsX.lookup q = some Node.dir) : osMkdirAll fsX p = (fsX, none) := by
  apply mkdirWalk_replay
  intro k _ _
  simp only [List.nil_append]
  exact h _ (List.take_prefix k p)

theorem kubeletLinksLoop_lookup_mono (v p : Path) (contents : List String) (fs : FS) (q : Path)
    (n : Node) (h : fs.lookup q = some n) :
    (kubeletLinksLoop v p contents fs).1.lookup q = some n :=
  (kubeletLinksLoop_extendsBy (fun _ => True) v p contents fs (fun _ _ => trivial)).lookup_mono
    q n h

theorem kubeletLinksLoop_ok_exists (v p : Path) (contents : List String) (fs : FS)
    (h : (kubeletLinksLoop v p contents fs).2 = none) :
    ∀ c ∈ contents, (kubeletLinksLoop v p contents fs).1.lookup (filepathJoin v [c]) ≠ none := by
  induction contents generalizing fs with
  | nil => simp
  | cons c rest ih =>
    intro x hx
    have hself := osSymlink_lookup_self fs (pathString (filepathJoin p [c])) (filepathJoin v [c])
    simp only [kubeletLinksLoop] at h ⊢
    cases hs : osSymlink fs (pathString (filepathJoin p [c])) (filepathJoin v [c]) with
    | mk fs1 r =>
      rw [hs] at hself
      simp only [hs] at h ⊢
      have hstep : ∀ (hok : r = none ∨ r = some Errno.EEXIST)
          (hrest : (kubeletLinksLoop v p rest fs1).2 = none),
          (kubeletLinksLoop v p rest fs1).1.lookup (filepathJoin v [x]) ≠ none := by
        intro hok hrest
        rcases List.mem_cons.mp hx with hxc | hxr
        · subst hxc
          cases hl : fs1.lookup (filepathJoin v [x]) with
          | none => exact absurd hl (hself hok)
          | some n => rw [kubeletLinksLoop_lookup_mono v p rest fs1 _ n hl]; simp
        · exact ih fs1 hrest x hxr
      cases r with
      | none => exact hstep (Or.inl rfl) h
      | some err =>
        by_cases he : err = Errno.EEXIST
        · subst he
          simp only [if_true] at h ⊢
          exact hstep (Or.inr rfl) h
        · simp [he] at h

theorem kubeletLinksLoop_replay (v p : Path) (contents : List String) (fsX : FS)
    (h : ∀ c ∈ contents, fsX.lookup (filepathJoin v [c]) ≠ none) :
    kubeletLinksLoop v p contents fsX = (fsX, none) := by
  induction contents with
  | nil => rfl
  | cons c rest ih =>
    simp only [kubeletLinksLoop, osSymlink_of_exists fsX _ _ (h c (List.mem_cons_self _ _)),
      if_true]
    exact ih (fun x hx => h x (List.mem_cons_of_mem _ hx))

/-- What a call of `createKubeletVirtualToPhysicalPodLinks` without error
leaves: the virtual directory with all above it, and an entry for every name
read from the physical directory. -/
theorem createKubeletLinks_ok (fs : FS) (v p : Path)
    (h : (createKubeletVirtualToPhysicalPodLinks fs v p).2 = none) :
    (osMkdirAll fs v).2 = none ∧
    (∀ q, q <+: v → (createKubeletVirtualToPhysicalPodLinks fs v p).1.lookup q
      = some Node.dir) ∧
    ∃ contents, osReadDir (osMkdirAll fs v).1 p = .ok contents ∧
      ∀ c ∈ contents,
        (createKubeletVirtualToPhysicalPodLinks fs v p).1.lookup (filepathJoin v [c]) ≠ none := by
  have hdirs := osMkdirAll_ok_dirs fs v
  simp only [createKubeletVirtualToPhysicalPodLinks] at h ⊢
  cases hm : osMkdirAll fs v with
  | mk fs1 r =>
    rw [hm] at hdirs
    simp only [hm] at h ⊢
    cases r with
    | some err => simp at h
    | none =>
      simp only at h ⊢
      cases hrd : osReadDir fs1 p with
      | error err => simp [hrd] at h
      | ok contents =>
        simp only [hrd] at h ⊢
        refine ⟨trivial, ?_, contents, rfl, kubeletLinksLoop_ok_exists v p contents fs1 h⟩
        intro q hq
        exact kubeletLinksLoop_lookup_mono v p contents fs1 q _ (hdirs rfl q hq)

theorem createKubeletLinks_replay (fsX : FS) (v p : Path) (contents : List String)
    (hd : ∀ q, q <+: v → fsX.lookup q = some Node.dir)
    (hrd : osReadDir fsX p = .ok contents)
    (hl : ∀ c ∈ contents, fsX.lookup (filepathJoin v [c]) ≠ none) :
    createKubeletVirtualToPhysicalPodLinks fsX v p = (fsX, none) := by
  simp only [createKubeletVirtualToPhysicalPodLinks, osMkdirAll_replay fsX v hd, hrd,
    kubeletLinksLoop_replay v p contents fsX hl]


theorem containerLinksLoop_ok_exists (vp : Path) (options : VirtualClusterOptions) (vPod : Pod)
    (d : PodDetail) (targetDir : Path) (rd : ContainerStatus → Except GoError String)
    (statuses : List ContainerStatus) (fs : FS)
    (hnear : ∀ cs ∈ statuses, Near vp (filepathJoin options.VirtualContainerLogsPath
      [ContainerSymlinkSourceTemplate vPod.Name vPod.Namespace cs.Name
        (stringsCutAfter cs.ContainerID "://")]))
    (hread : ∀ fs1, ExtendsBy (Near vp) fs fs1 → ∀ cs ∈ statuses,
      getPhysicalLogFilename fs1 (ContainerSymlinkSourceTemplate d.PhysicalPod.Name
        d.PhysicalPod.Namespace cs.Name (stringsCutAfter cs.ContainerID "://")) = rd cs)
    (h : (containerLinksLoop options vPod d targetDir statuses fs).2 = none) :
    ∀ cs ∈ statuses, ∀ f, rd cs = .ok f →
      (containerLinksLoop options vPod d targetDir statuses fs).1.lookup
        (filepathJoin options.VirtualContainerLogsPath
          [ContainerSymlinkSourceTemplate vPod.Name vPod.Namespace cs.Name
            (stringsCutAfter cs.ContainerID "://")]) ≠ none := by
  induction statuses generalizing fs with
  | nil => simp
  | cons cs rest ih =>
    have hrest : ∀ x ∈ rest, Near vp (filepathJoin options.VirtualContainerLogsPath
        [ContainerSymlinkSourceTemplate vPod.Name vPod.Namespace x.Name
          (stringsCutAfter x.ContainerID "://")]) := fun x hx => hnear x (List.mem_cons_of_mem _ hx)
    have hrd0 := hread fs (ExtendsBy.ext_refl _ _) cs (List.mem_cons_self _ _)
    intro x hx f hf
    simp only [containerLinksLoop, hrd0] at h ⊢
    cases hr : rd cs with
    | error err =>
      simp only [hr] at h ⊢
      rcases List.mem_cons.mp hx with hxc | hxr
      · subst hxc; rw [hr] at hf; simp at hf
      · exact ih fs hrest (fun fs1 h1 y hy => hread fs1 h1 y (List.mem_cons_of_mem _ hy)) h x hxr
          f hf
    | ok g =>
      simp only [hr] at h ⊢
      have hext := osSymlink_extendsBy (Near vp) fs
        (pathString (filepathJoin targetDir [cs.Name, g]))
        (filepathJoin options.VirtualContainerLogsPath
          [ContainerSymlinkSourceTemplate vPod.Name vPod.Namespace cs.Name
            (stringsCutAfter cs.ContainerID "://")]) (hnear cs (List.mem_cons_self _ _))
      have hself := osSymlink_lookup_self fs
        (pathString (filepathJoin targetDir [cs.Name, g]))
        (filepathJoin options.VirtualContainerLogsPath
          [ContainerSymlinkSourceTemplate vPod.Name vPod.Namespace cs.Name
            (stringsCutAfter cs.ContainerID "://")])
      cases hs : osSymlink fs (pathString (filepathJoin targetDir [cs.Name, g]))
          (filepathJoin options.VirtualContainerLogsPath
            [ContainerSymlinkSourceTemplate vPod.Name vPod.Namespace cs.Name
              (stringsCutAfter cs.ContainerID "://")]) with
      | mk fs1 r =>
        rw [hs] at hext hself
        simp only [hs] at h ⊢
        have hstep : ∀ (hok : r = none ∨ r = some Errno.EEXIST)
            (hrest2 : (containerLinksLoop options vPod d targetDir rest fs1).2 = none),
            (containerLinksLoop options vPod d targetDir rest fs1).1.lookup
              (filepathJoin options.VirtualContainerLogsPath
                [ContainerSymlinkSourceTemplate vPod.Name vPod.Namespace x.Name
                  (stringsCutAfter x.ContainerID "://")]) ≠ none := by
          intro hok hrest2
          rcases List.mem_cons.mp hx with hxc | hxr
          · subst hxc
            cases hl : fs1.lookup (filepathJoin options.VirtualContainerLogsPath
                [ContainerSymlinkSourceTemplate vPod.Name vPod.Namespace x.Name
                  (stringsCutAfter x.ContainerID "://")]) with
            | none => exact absurd hl (hself hok)
            | some n =>
              rw [containerLinksLoop_lookup_mono options vPod d targetDir rest fs1 _ n hl]; simp
          · exact ih fs1 hrest
              (fun fs2 h2 y hy => hread fs2 (hext.ext_trans h2) y (List.mem_cons_of_mem _ hy))
              hrest2 x hxr f hf
        cases r with
        | none => exact hstep (Or.inl rfl) h
        | some err =>
          by_cases he : err = Errno.EEXIST
          · subst he
            simp only [if_true] at h ⊢
            exact hstep (Or.inr rfl) h
          · simp [he] at h

theorem containerLinksLoop_replay (options : VirtualClusterOptions) (vPod : Pod)
    (d : PodDetail) (targetDir : Path) (rd : ContainerStatus → Except GoError String)
    (statuses : List ContainerStatus) (fsX : FS)
    (hread : ∀ cs ∈ statuses,
      getPhysicalLogFilename fsX (ContainerSymlinkSourceTemplate d.PhysicalPod.Name
        d.PhysicalPod.Namespace cs.Name (stringsCutAfter cs.ContainerID "://")) = rd cs)
    (hex : ∀ cs ∈ statuses, ∀ f, rd cs = .ok f →
      fsX.lookup (filepathJoin options.VirtualContainerLogsPath
        [ContainerSymlinkSourceTemplate vPod.Name vPod.Namespace cs.Name
          (stringsCutAfter cs.ContainerID "://")]) ≠ none) :
    containerLinksLoop options vPod d targetDir statuses fsX = (fsX, none) := by
  induction statuses with
  | nil => rfl
  | cons cs rest ih =>
    have ih2 := ih (fun x hx => hread x (List.mem_cons_of_mem _ hx))
      (fun x hx => hex x (List.mem_cons_of_mem _ hx))
    simp only [containerLinksLoop, hread cs (List.mem_cons_self _ _)]
    cases hr : rd cs with
    | error err => simp only; exact ih2
    | ok g =>
      simp only [osSymlink_of_exists fsX _ _ (hex cs (List.mem_cons_self _ _) g hr), if_true]
      exact ih2

/-! #### The paths of a pod -/

theorem createKubeletLinks_extendsBy_wf (P : Path → Prop) (fs : FS) (hwf : fs.WF) (v p : Path)
    (hv : plainPath v) (hdir : ∀ q, q <+: v → P q)
    (hlink : ∀ c, plainName c = true → P (filepathJoin v [c])) :
    ExtendsBy P fs (createKubeletVirtualToPhysicalPodLinks fs v p).1 := by
  have h1 := osMkdirAll_extendsBy P fs v (fun q hq _ => hdir q hq)
  have h1w := (osMkdirAll_extendsBy plainPath fs v
    (fun q hq _ => plainPath_of_prefix hv hq)).ext_wf hwf
  simp only [createKubeletVirtualToPhysicalPodLinks]
  cases hm : osMkdirAll fs v with
  | mk fs1 r =>
    rw [hm] at h1 h1w
    cases r with
    | some err => exact h1
    | none =>
      simp only
      cases hrd : osReadDir fs1 p with
      | error err => exact h1
      | ok contents =>
        simp only
        exact h1.ext_trans (kubeletLinksLoop_extendsBy P v p contents fs1
          (fun c hc => hlink c (osReadDir_plain fs1 h1w p contents hrd c hc).1))

theorem mapPodStep_wf (tr : Translate) (options : VirtualClusterOptions)
    (podMappings : PhysicalPodMap) (vPod : Pod) (st : PassState) (hwf : st.fs.WF)
    (h1 : plainPath options.VirtualPodLogsPath) (h2 : plainPath options.VirtualContainerLogsPath)
    (h3 : plainPath options.VirtualKubeletPodPath) :
    (mapPodStep tr options podMappings vPod st).1.fs.WF := by
  apply ExtendsBy.ext_wf _ hwf
  apply mapPodStep_extendsBy plainPath
  · exact filepathJoin_plainPath _ _ h1
  · intro q hq _; exact plainPath_of_prefix (filepathJoin_plainPath _ _ h3) hq
  · intro c; exact filepathJoin_plainPath _ _ (filepathJoin_plainPath _ _ h3)
  · intro cs _; exact filepathJoin_plainPath _ _ h2

/-- One iteration of the loop only adds entries at paths of the pod. -/
theorem mapPodStep_extendsBy_paths (P : Path → Prop) (tr : Translate)
    (options : VirtualClusterOptions) (podMappings : PhysicalPodMap) (vPod : Pod)
    (st : PassState) (hwf : st.fs.WF)
    (h1 : plainPath options.VirtualPodLogsPath)
    (h3 : plainPath options.VirtualKubeletPodPath)
    (hP : ∀ q, podPath options vPod q → P q) :
    ExtendsBy P st.fs (mapPodStep tr options podMappings vPod st).1.fs := by
  cases hg : podMappings.get (tr.HostName vPod.Name vPod.Namespace) with
  | none => rw [mapPodStep_none tr options podMappings vPod st hg]; exact ExtendsBy.ext_refl P _
  | some d =>
    rw [mapPodStep_some tr options podMappings vPod st d hg]
    have e1 := createPodLogSymlink_extendsBy P st.fs
      (filepathJoin options.VirtualPodLogsPath [sprintf3 vPod.Namespace vPod.Name vPod.UID])
      (pathString (filepathJoin tr.PhysicalPodLogVolumeMountPath [d.Target]))
      (hP _ (Or.inl rfl))
    have e1w := (createPodLogSymlink_extendsBy plainPath st.fs
      (filepathJoin options.VirtualPodLogsPath [sprintf3 vPod.Namespace vPod.Name vPod.UID])
      (pathString (filepathJoin tr.PhysicalPodLogVolumeMountPath [d.Target]))
      (filepathJoin_plainPath _ _ h1)).ext_wf hwf
    cases hc1 : createPodLogSymlinkToPhysical st.fs
        (filepathJoin options.VirtualPodLogsPath [sprintf3 vPod.Namespace vPod.Name vPod.UID])
        (pathString (filepathJoin tr.PhysicalPodLogVolumeMountPath [d.Target])) with
    | mk fs1 r1 =>
      rw [hc1] at e1 e1w
      cases r1 with
      | error err => exact e1
      | ok a =>
        simp only
        have e2 := createKubeletLinks_extendsBy_wf P fs1 e1w
          (filepathJoin options.VirtualKubeletPodPath [vPod.UID])
          (filepathJoin tr.PhysicalKubeletVolumeMountPath [d.PhysicalPod.UID])
          (filepathJoin_plainPath _ _ h3)
          (fun q hq => hP q (Or.inr (Or.inl hq)))
          (fun c hc => hP _ (Or.inr (Or.inr (Or.inl ⟨c, hc, rfl⟩))))
        cases hc2 : createKubeletVirtualToPhysicalPodLinks fs1
            (filepathJoin options.VirtualKubeletPodPath [vPod.UID])
            (filepathJoin tr.PhysicalKubeletVolumeMountPath [d.PhysicalPod.UID]) with
        | mk fs2 r2 =>
          rw [hc2] at e2
          cases r2 with
          | some err => exact e1.ext_trans e2
          | none =>
            simp only
            exact (e1.ext_trans e2).ext_trans (containerLinksLoop_extendsBy P options vPod d _
              vPod.ContainerStatuses fs2
              (fun cs hcs => hP _ (Or.inr (Or.inr (Or.inr ⟨cs, hcs, rfl⟩)))))


theorem getPhysicalLogFilename_of_phys_eq {vp : Path} {a b : FS}
    (h : physEntries vp a = physEntries vp b) (name : String)
    (hx : ¬ Near vp (filepathJoin LogsMountPath ["containers", name])) :
    getPhysicalLogFilename a name = getPhysicalLogFilename b name := by
  simp only [getPhysicalLogFilename, osReadlink_of_phys_eq h _ hx]

theorem createContainerLinks_lookup_mono (options : VirtualClusterOptions) (fs : FS)
    (vPod : Pod) (d : PodDetail) (targetDir : Path) (q : Path) (n : Node)
    (h : fs.lookup q = some n) :
    (createContainerToPodSymlink options fs vPod d targetDir).1.lookup q = some n :=
  containerLinksLoop_lookup_mono options vPod d targetDir _ fs q n h

/-- One iteration of the loop, run again on a state that has all the paths of
the pod that the first run left, and the same physical side, changes
nothing. -/
theorem mapPodStep_replay (vp : Path) (tr : Translate) (options : VirtualClusterOptions)
    (pm : PhysicalPodMap) (v : Pod) (st st1 : PassState) (fsX : FS)
    (hstep : mapPodStep tr options pm v st = (st1, none))
    (hwf : st.fs.WF) (hwfX : fsX.WF)
    (h1 : plainPath options.VirtualPodLogsPath) (h3 : plainPath options.VirtualKubeletPodPath)
    (hphys : physEntries vp fsX = physEntries vp st.fs)
    (hnear : ∀ q, podPath options v q → Near vp q)
    (hp1 : ∀ d, pm.get (tr.HostName v.Name v.Namespace) = some d →
      ¬ Near vp (filepathJoin tr.PhysicalKubeletVolumeMountPath [d.PhysicalPod.UID]))
    (hp2 : ∀ d, pm.get (tr.HostName v.Name v.Namespace) = some d →
      ∀ cs ∈ v.ContainerStatuses, ¬ Near vp (filepathJoin LogsMountPath ["containers",
        ContainerSymlinkSourceTemplate d.PhysicalPod.Name d.PhysicalPod.Namespace cs.Name
          (stringsCutAfter cs.ContainerID "://")]))
    (hkeep : pm.get (tr.HostName v.Name v.Namespace) ≠ none →
      ∀ q n, podPath options v q → st1.fs.lookup q = some n → fsX.lookup q = some n) :
    mapPodStep tr options pm v { st with fs := fsX } = ({ st1 with fs := fsX }, none) := by
  cases hg : pm.get (tr.HostName v.Name v.Namespace) with
  | none =>
    rw [mapPodStep_none tr options pm v st hg] at hstep
    rw [mapPodStep_none tr options pm v _ hg]
    simp only [Prod.mk.injEq, and_true] at hstep
    rw [← hstep]
  | some d =>
    have hk := hkeep (by rw [hg]; simp)
    rw [mapPodStep_some tr options pm v st d hg] at hstep
    rw [mapPodStep_some tr options pm v _ d hg]
    have x1 := createPodLogSymlink_extendsBy (Near vp) st.fs
      (filepathJoin options.VirtualPodLogsPath [sprintf3 v.Namespace v.Name v.UID])
      (pathString (filepathJoin tr.PhysicalPodLogVolumeMountPath [d.Target]))
      (hnear _ (Or.inl rfl))
    cases hc1 : createPodLogSymlinkToPhysical st.fs
        (filepathJoin options.VirtualPodLogsPath [sprintf3 v.Namespace v.Name v.UID])
        (pathString (filepathJoin tr.PhysicalPodLogVolumeMountPath [d.Target])) with
    | mk fs1 r1 =>
      rw [hc1] at hstep x1
      cases r1 with
      | error err => simp at hstep
      | ok a =>
        simp only at hstep
        have f1 := createPodLogSymlink_ok_exists _ _ _ _ _ hc1
        have x2 := osMkdirAll_extendsBy (Near vp) fs1
          (filepathJoin options.VirtualKubeletPodPath [v.UID])
          (fun q hq _ => hnear q (Or.inr (Or.inl hq)))
        have f2 := createKubeletLinks_ok fs1
          (filepathJoin options.VirtualKubeletPodPath [v.UID])
          (filepathJoin tr.PhysicalKubeletVolumeMountPath [d.PhysicalPod.UID])
        have x3 := createKubeletLinks_extendsBy_wf (Near vp) fs1
          ((createPodLogSymlink_extendsBy plainPath st.fs
            (filepathJoin options.VirtualPodLogsPath [sprintf3 v.Namespace v.Name v.UID])
            (pathString (filepathJoin tr.PhysicalPodLogVolumeMountPath [d.Target]))
            (filepathJoin_plainPath _ _ h1)).ext_wf hwf |> fun w => by rw [hc1] at w; exact w)
          (filepathJoin options.VirtualKubeletPodPath [v.UID])
          (filepathJoin tr.PhysicalKubeletVolumeMountPath [d.PhysicalPod.UID])
          (filepathJoin_plainPath _ _ h3)
          (fun q hq => hnear q (Or.inr (Or.inl hq)))
          (fun c hc => hnear _ (Or.inr (Or.inr (Or.inl ⟨c, hc, rfl⟩))))
        cases hc2 : createKubeletVirtualToPhysicalPodLinks fs1
            (filepathJoin options.VirtualKubeletPodPath [v.UID])
            (filepathJoin tr.PhysicalKubeletVolumeMountPath [d.PhysicalPod.UID]) with
        | mk fs2 r2 =>
          rw [hc2] at hstep f2 x3
          cases r2 with
          | some err => simp at hstep
          | none =>
            simp only [Prod.mk.injEq] at hstep
            obtain ⟨hst1, hcnone⟩ := hstep
            obtain ⟨_, fdirs, contents, hrd, flinks⟩ := f2 rfl
            have hfs3 : st1.fs = (createContainerToPodSymlink options fs2 v d
                (filepathJoin PodLogsMountPath [sprintf3 v.Namespace v.Name v.UID])).1 := by
              rw [← hst1]
            have up : ∀ q n, fs2.lookup q = some n → st1.fs.lookup q = some n := by
              intro q n hq
              rw [hfs3]; exact createContainerLinks_lookup_mono options fs2 v d _ q n hq
            have pX1 : physEntries vp fsX = physEntries vp fs1 := hphys.trans x1.ext_phys_eq.symm
            have pXm : physEntries vp fsX = physEntries vp (osMkdirAll fs1
                (filepathJoin options.VirtualKubeletPodPath [v.UID])).1 :=
              pX1.trans x2.ext_phys_eq.symm
            have pX2 : physEntries vp fsX = physEntries vp fs2 := pX1.trans x3.ext_phys_eq.symm
            -- the pod-log link
            have g1 : fsX.lookup (filepathJoin options.VirtualPodLogsPath
                [sprintf3 v.Namespace v.Name v.UID]) ≠ none := by
              cases hl : fs1.lookup (filepathJoin options.VirtualPodLogsPath
                  [sprintf3 v.Namespace v.Name v.UID]) with
              | none => exact absurd hl f1
              | some n =>
                rw [hk _ n (Or.inl rfl) (up _ n (x3.lookup_mono _ n hl))]; simp
            rw [createPodLogSymlink_replay fsX _ _ g1]
            simp only
            -- the kubelet directory
            have hrdX : osReadDir fsX (filepathJoin tr.PhysicalKubeletVolumeMountPath
                [d.PhysicalPod.UID]) = .ok contents := by
              rw [osReadDir_of_phys_eq pXm _ (hp1 d hg)]; exact hrd
            have g2 : createKubeletVirtualToPhysicalPodLinks fsX
                (filepathJoin options.VirtualKubeletPodPath [v.UID])
                (filepathJoin tr.PhysicalKubeletVolumeMountPath [d.PhysicalPod.UID])
                = (fsX, none) := by
              apply createKubeletLinks_replay fsX _ _ contents _ hrdX
              · intro c hc
                have hcp := (osReadDir_plain fsX hwfX _ contents hrdX c hc).1
                cases hl : fs2.lookup (filepathJoin
                    (filepathJoin options.VirtualKubeletPodPath [v.UID]) [c]) with
                | none => exact absurd hl (flinks c hc)
                | some n =>
                  rw [hk _ n (Or.inr (Or.inr (Or.inl ⟨c, hcp, rfl⟩))) (up _ n hl)]; simp
              · intro q hq
                exact hk q _ (Or.inr (Or.inl hq)) (up _ _ (fdirs q hq))
            rw [g2]
            simp only
            -- the container links
            have hreadX : ∀ cs ∈ v.ContainerStatuses,
                getPhysicalLogFilename fsX (ContainerSymlinkSourceTemplate d.PhysicalPod.Name
                  d.PhysicalPod.Namespace cs.Name (stringsCutAfter cs.ContainerID "://"))
                = getPhysicalLogFilename fs2 (ContainerSymlinkSourceTemplate d.PhysicalPod.Name
                  d.PhysicalPod.Namespace cs.Name (stringsCutAfter cs.ContainerID "://")) :=
              fun cs hcs => getPhysicalLogFilename_of_phys_eq pX2 _ (hp2 d hg cs hcs)
            have f3 := containerLinksLoop_ok_exists vp options v d
              (filepathJoin PodLogsMountPath [sprintf3 v.Namespace v.Name v.UID])
              (fun cs => getPhysicalLogFilename fs2 (ContainerSymlinkSourceTemplate
                d.PhysicalPod.Name d.PhysicalPod.Namespace cs.Name
                (stringsCutAfter cs.ContainerID "://")))
              v.ContainerStatuses fs2
              (fun cs hcs => hnear _ (Or.inr (Or.inr (Or.inr ⟨cs, hcs, rfl⟩))))
              (fun fs3 h3 cs hcs =>
                getPhysicalLogFilename_of_phys_eq h3.ext_phys_eq _ (hp2 d hg cs hcs))
              hcnone
            have g3 : createContainerToPodSymlink options fsX v d
                (filepathJoin PodLogsMountPath [sprintf3 v.Namespace v.Name v.UID])
                = (fsX, none) := by
              apply containerLinksLoop_replay options v d _
                (fun cs => getPhysicalLogFilename fs2 (ContainerSymlinkSourceTemplate
                  d.PhysicalPod.Name d.PhysicalPod.Namespace cs.Name
                  (stringsCutAfter cs.ContainerID "://"))) _ fsX hreadX
              intro cs hcs f hf
              cases hl : (createContainerToPodSymlink options fs2 v d
                  (filepathJoin PodLogsMountPath [sprintf3 v.Namespace v.Name v.UID])).1.lookup
                  (filepathJoin options.VirtualContainerLogsPath
                    [ContainerSymlinkSourceTemplate v.Name v.Namespace cs.Name
                      (stringsCutAfter cs.ContainerID "://")]) with
              | none => exact absurd hl (f3 cs hcs f hf)
              | some n =>
                rw [← hfs3] at hl
                rw [hk _ n (Or.inr (Or.inr (Or.inr ⟨cs, hcs, rfl⟩))) hl]; simp
            rw [g3, ← hst1]

/-- The loop of a pass, run again on a state that has all the paths of the
listed pods that the first run left, and the same physical side, changes
nothing. -/
theorem mapPodsLoop_replay (vp : Path) (tr : Translate) (options : VirtualClusterOptions)
    (pm : PhysicalPodMap) (vPods : List Pod) (st stA : PassState) (fsX : FS)
    (hloop : mapPodsLoop tr options pm vPods st = (stA, none))
    (hwf : st.fs.WF) (hwfX : fsX.WF)
    (h1 : plainPath options.VirtualPodLogsPath) (h2 : plainPath options.VirtualContainerLogsPath)
    (h3 : plainPath options.VirtualKubeletPodPath)
    (hphys : physEntries vp fsX = physEntries vp st.fs)
    (hnear : ∀ v ∈ vPods, ∀ q, podPath options v q → Near vp q)
    (hp1 : ∀ v ∈ vPods, ∀ d, pm.get (tr.HostName v.Name v.Namespace) = some d →
      ¬ Near vp (filepathJoin tr.PhysicalKubeletVolumeMountPath [d.PhysicalPod.UID]))
    (hp2 : ∀ v ∈ vPods, ∀ d, pm.get (tr.HostName v.Name v.Namespace) = some d →
      ∀ cs ∈ v.ContainerStatuses, ¬ Near vp (filepathJoin LogsMountPath ["containers",
        ContainerSymlinkSourceTemplate d.PhysicalPod.Name d.PhysicalPod.Namespace cs.Name
          (stringsCutAfter cs.ContainerID "://")]))
    (hkeep : ∀ v ∈ vPods, pm.get (tr.HostName v.Name v.Namespace) ≠ none →
      ∀ q n, podPath options v q → stA.fs.lookup q = some n → fsX.lookup q = some n) :
    mapPodsLoop tr options pm vPods { st with fs := fsX } = ({ stA with fs := fsX }, none) := by
  induction vPods generalizing st with
  | nil =>
    simp only [mapPodsLoop, Prod.mk.injEq, and_true] at hloop ⊢
    rw [hloop]
  | cons v rest ih =>
    have hv := List.mem_cons_self v rest
    simp only [mapPodsLoop] at hloop ⊢
    cases hs : mapPodStep tr options pm v st with
    | mk st1 r =>
      rw [hs] at hloop
      cases r with
      | some err => simp at hloop
      | none =>
        simp only at hloop
        have hwf1 : st1.fs.WF := by
          have := mapPodStep_wf tr options pm v st hwf h1 h2 h3
          rw [hs] at this; exact this
        have hext : ExtendsBy (Near vp) st.fs st1.fs := by
          have := mapPodStep_extendsBy_paths (Near vp) tr options pm v st hwf h1 h3 (hnear v hv)
          rw [hs] at this; exact this
        have hmono : ∀ q n, st1.fs.lookup q = some n → stA.fs.lookup q = some n := by
          intro q n hq
          have := mapPodsLoop_lookup_mono tr options pm rest st1 q n hq
          rw [hloop] at this; exact this
        have hrep := mapPodStep_replay vp tr options pm v st st1 fsX hs hwf hwfX h1 h3 hphys
          (hnear v hv) (hp1 v hv) (hp2 v hv)
          (fun hm q n hq hl => hkeep v hv hm q n hq (hmono q n hl))
        rw [hrep]
        simp only
        exact ih st1 hloop hwf1 (hphys.trans hext.ext_phys_eq.symm)
          (fun x hx => hnear x (List.mem_cons_of_mem _ hx))
          (fun x hx => hp1 x (List.mem_cons_of_mem _ hx))
          (fun x hx => hp2 x (List.mem_cons_of_mem _ hx))
          (fun x hx => hkeep x (List.mem_cons_of_mem _ hx))


theorem prefix_append_near {vp q : Path} {l : List String} (h : q <+: vp ++ l) : Near vp q :=
  List.prefix_or_prefix_of_prefix h (List.prefix_append vp l)

/-- With names as the API server admits them, every path that the loop may
create for a pod lies on the branch of the virtual path. -/
theorem podPath_near (multi : Bool) (tn name : String) (vp : Path) (v : Pod)
    (hv : validPodNames v) (hc : validContainers v) (q : Path)
    (hq : podPath (startOptions multi tn name vp) v q) : Near vp q := by
  have r1 := startOptions_podLogs multi tn name vp
  have r2 := startOptions_containerLogs multi tn name vp
  have r3 := startOptions_kubelet multi tn name vp
  rcases hq with rfl | hq | ⟨c, hcp, rfl⟩ | ⟨cs, hcs, rfl⟩
  · rw [filepathJoin_plain _ _ (validPodNames_token v hv), r1, List.append_assoc]
    exact Or.inr (List.prefix_append _ _)
  · rw [filepathJoin_plain _ _ hv.2.2.2.2, r3, List.append_assoc] at hq
    exact prefix_append_near hq
  · rw [filepathJoin_plain _ _ hv.2.2.2.2, filepathJoin_plain _ _ hcp, r3, List.append_assoc,
      List.append_assoc]
    exact Or.inr (List.prefix_append _ _)
  · rw [filepathJoin_plain _ _ (plainName_template _ _ _ _ hv.2.1 hv.2.2.2.1 (hc cs hcs).1
      (hc cs hcs).2), r2, List.append_assoc]
    exact Or.inr (List.prefix_append _ _)

theorem mapPodStep_recorded_kubelet (tr : Translate) (options : VirtualClusterOptions)
    (podMappings : PhysicalPodMap) (vPod : Pod) (st st1 : PassState) (d : PodDetail)
    (h : podMappings.get (tr.HostName vPod.Name vPod.Namespace) = some d)
    (hs : mapPodStep tr options podMappings vPod st = (st1, none)) :
    filepathJoin options.VirtualKubeletPodPath [vPod.UID] ∈ st1.existingKubeletPodsPath := by
  rw [mapPodStep_some tr options podMappings vPod st d h] at hs
  cases hc1 : createPodLogSymlinkToPhysical st.fs
      (filepathJoin options.VirtualPodLogsPath [sprintf3 vPod.Namespace vPod.Name vPod.UID])
      (pathString (filepathJoin tr.PhysicalPodLogVolumeMountPath [d.Target])) with
  | mk fs1 r1 =>
    rw [hc1] at hs
    cases r1 with
    | error err => simp at hs
    | ok a =>
      simp only at hs
      cases hc2 : createKubeletVirtualToPhysicalPodLinks fs1
          (filepathJoin options.VirtualKubeletPodPath [vPod.UID])
          (filepathJoin tr.PhysicalKubeletVolumeMountPath [d.PhysicalPod.UID]) with
      | mk fs2 r2 =>
        rw [hc2] at hs
        cases r2 with
        | some err => simp at hs
        | none =>
          simp only [Prod.mk.injEq] at hs
          rw [← hs.1]
          simp

/-- A pass whose loop ends without error has recorded, for every listed pod
with a physical pod, its pod-log link and its kubelet directory. -/
theorem mapPodsLoop_recorded (tr : Translate) (options : VirtualClusterOptions)
    (pm : PhysicalPodMap) (vPods : List Pod) (st stA : PassState)
    (hloop : mapPodsLoop tr options pm vPods st = (stA, none))
    (v : Pod) (hv : v ∈ vPods) (hm : pm.get (tr.HostName v.Name v.Namespace) ≠ none) :
    filepathJoin options.VirtualPodLogsPath [sprintf3 v.Namespace v.Name v.UID]
      ∈ stA.existingPodsPath ∧
    filepathJoin options.VirtualKubeletPodPath [v.UID] ∈ stA.existingKubeletPodsPath := by
  induction vPods generalizing st with
  | nil => simp at hv
  | cons x rest ih =>
    simp only [mapPodsLoop] at hloop
    cases hs : mapPodStep tr options pm x st with
    | mk st1 r =>
      rw [hs] at hloop
      cases r with
      | some err => simp at hloop
      | none =>
        simp only at hloop
        rcases List.mem_cons.1 hv with rfl | hin
        · cases hg : pm.get (tr.HostName v.Name v.Namespace) with
          | none => exact absurd hg hm
          | some d =>
            have a1 := mapPodStep_recorded tr options pm v st d hg
            rw [hs] at a1
            have a2 := mapPodStep_recorded_kubelet tr options pm v st st1 d hg hs
            obtain ⟨_, _, m3, m4, _, _⟩ := mapPodsLoop_maps tr options pm rest st1
            rw [hloop] at m3 m4
            exact ⟨m3 _ a1, m4 _ a2⟩
        · exact ih st1 hloop hin

theorem getPhysicalPodMap_detail (options : VirtualClusterOptions) (pManager : Client)
    (fs : FS) (pm : PhysicalPodMap) (h : getPhysicalPodMap options pManager fs = .ok pm)
    (name : String) (d : PodDetail) (hd : pm.get name = some d) :
    d.Target = sprintf3 d.PhysicalPod.Namespace d.PhysicalPod.Name d.PhysicalPod.UID ∧
    d.PhysicalPod ∈ pManager.Pods := by
  have hlist : ∀ ns items, pManager.listPods ns = .ok items → ∀ p ∈ items, p ∈ pManager.Pods := by
    intro ns items hl p hp
    unfold Client.listPods at hl
    cases he : pManager.ListPodsErr with
    | some err => rw [he] at hl; simp at hl
    | none =>
      rw [he] at hl
      cases ns with
      | none => simp only [Except.ok.injEq] at hl; rw [← hl] at hp; exact hp
      | some n =>
        simp only [Except.ok.injEq] at hl; rw [← hl] at hp
        exact (List.mem_filter.1 hp).1
  unfold getPhysicalPodMap at h
  simp only at h
  cases hl : pManager.listPods (if options.MultiNamespaceMode then none
      else some options.TargetNamespace) with
  | error err => rw [hl] at h; simp at h
  | ok items =>
    rw [hl] at h
    simp only at h
    split at h
    · cases hn : pManager.ListNamespaces options.TargetNamespace with
      | error err => rw [hn] at h; simp at h
      | ok nss =>
        rw [hn] at h
        simp only [Except.ok.injEq] at h
        rw [← h] at hd
        obtain ⟨a, _, c⟩ := podMappingsLoop_detail fs _ name d hd
        exact ⟨a, hlist _ items hl _ (mem_of_mem_filterPods _ _ _ c)⟩
    · simp only [Except.ok.injEq] at h
      rw [← h] at hd
      obtain ⟨a, _, c⟩ := podMappingsLoop_detail fs _ name d hd
      exact ⟨a, hlist _ items hl _ c⟩


/-! ### A second pass on the state a pass has left -/

theorem startOptions_roots_ne (multi : Bool) (tn name : String) (vp : Path) :
    (startOptions multi tn name vp).VirtualPodLogsPath
      ≠ (startOptions multi tn name vp).VirtualKubeletPodPath := by
  rw [startOptions_podLogs, startOptions_kubelet]
  intro h
  have h2 := List.append_cancel_left h
  simp at h2

/-- The cleanup calls of a pass only remove entries below the virtual path. -/
theorem cleanupPass_removedAt (multi : Bool) (tn name : String) (vp : Path) (st : PassState)
    (hwf : st.fs.WF) :
    RemovedAt (fun t => vp <+: t) st.fs (cleanupPass (startOptions multi tn name vp) st).1 := by
  have r1 := startOptions_podLogs multi tn name vp
  have r2 := startOptions_containerLogs multi tn name vp
  have r3 := startOptions_kubelet multi tn name vp
  have a1 := (cleanupOldPodPath_other_removedAt (startOptions multi tn name vp) st.fs
    (startOptions multi tn name vp).VirtualPodLogsPath st.existingPodsPath
    (startOptions_roots_ne multi tn name vp) hwf)
  have w1 := a1.rem_wf hwf
  have b1 : RemovedAt (fun t => vp <+: t) st.fs _ := a1.rem_mono (by
    rintro t ⟨c, _, rfl, _⟩
    rw [r1, List.append_assoc]; exact List.prefix_append _ _)
  have a2 := cleanupOldContainerPaths_removedAt (startOptions multi tn name vp) _
    st.existingVPodsWithNamespace w1
  have w2 := a2.rem_wf w1
  have b2 : RemovedAt (fun t => vp <+: t) _ _ := a2.rem_mono (by
    rintro t ⟨nm, key, _, _, _, rfl⟩
    rw [r2, List.append_assoc]; exact List.prefix_append _ _)
  have a3 := cleanupOldPodPath_kubelet_removedAt (startOptions multi tn name vp)
    (cleanupOldContainerPaths (startOptions multi tn name vp)
      (cleanupOldPodPath (startOptions multi tn name vp) st.fs
        (startOptions multi tn name vp).VirtualPodLogsPath st.existingPodsPath).1
      st.existingVPodsWithNamespace).1 st.existingKubeletPodsPath w2
  have b3 : RemovedAt (fun t => vp <+: t) _ _ := a3.rem_mono (by
    rintro t ⟨c, g, _, _, _, rfl⟩
    rw [r3, List.append_assoc]; exact List.prefix_append _ _)
  simp only [cleanupPass]
  cases hc : cleanupOldContainerPaths (startOptions multi tn name vp)
      (cleanupOldPodPath (startOptions multi tn name vp) st.fs
        (startOptions multi tn name vp).VirtualPodLogsPath st.existingPodsPath).1
      st.existingVPodsWithNamespace with
  | mk fs2 o =>
    rw [hc] at b2 b3
    cases o with
    | panicked => exact b1.rem_trans b2
    | returned r => exact (b1.rem_trans b2).rem_trans b3

/-- A pass whose cleanup calls have returned leaves a state on which the same
cleanup calls, with the same three maps, remove nothing. -/
theorem cleanupPass_fixed (multi : Bool) (tn name : String) (vp : Path) (st : PassState)
    (fsF : FS) (hwf : st.fs.WF)
    (h : cleanupPass (startOptions multi tn name vp) st = (fsF, Outcome.returned none)) :
    cleanupPass (startOptions multi tn name vp) { st with fs := fsF }
      = (fsF, Outcome.returned none) ∧
    (cleanupOldPodPath (startOptions multi tn name vp) fsF
      (startOptions multi tn name vp).VirtualPodLogsPath st.existingPodsPath).1 = fsF ∧
    (cleanupOldContainerPaths (startOptions multi tn name vp) fsF
      st.existingVPodsWithNamespace).1 = fsF ∧
    (cleanupOldPodPath (startOptions multi tn name vp) fsF
      (startOptions multi tn name vp).VirtualKubeletPodPath st.existingKubeletPodsPath).1
      = fsF := by
  have hne := startOptions_roots_ne multi tn name vp
  have a1 := (cleanupOldPodPath_other_removedAt (startOptions multi tn name vp) st.fs
    (startOptions multi tn name vp).VirtualPodLogsPath st.existingPodsPath hne hwf)
  have w1 := a1.rem_wf hwf
  have s1 := cleanupOldPodPath_settles (startOptions multi tn name vp) st.fs
    (startOptions multi tn name vp).VirtualPodLogsPath st.existingPodsPath hne hwf
  have a2 := cleanupOldContainerPaths_removedAt (startOptions multi tn name vp) _
    st.existingVPodsWithNamespace w1
  have w2 := a2.rem_wf w1
  have s2 := cleanupOldContainerPaths_settles (startOptions multi tn name vp) _
    st.existingVPodsWithNamespace w1
  have a3 := cleanupOldPodPath_kubelet_removedAt (startOptions multi tn name vp)
    (cleanupOldContainerPaths (startOptions multi tn name vp)
      (cleanupOldPodPath (startOptions multi tn name vp) st.fs
        (startOptions multi tn name vp).VirtualPodLogsPath st.existingPodsPath).1
      st.existingVPodsWithNamespace).1 st.existingKubeletPodsPath w2
  have w3 := a3.rem_wf w2
  have s3 := cleanupOldPodPath_kubelet_settles (startOptions multi tn name vp)
    (cleanupOldContainerPaths (startOptions multi tn name vp)
      (cleanupOldPodPath (startOptions multi tn name vp) st.fs
        (startOptions multi tn name vp).VirtualPodLogsPath st.existingPodsPath).1
      st.existingVPodsWithNamespace).1 st.existingKubeletPodsPath w2
  simp only [cleanupPass] at h
  cases hc : cleanupOldContainerPaths (startOptions multi tn name vp)
      (cleanupOldPodPath (startOptions multi tn name vp) st.fs
        (startOptions multi tn name vp).VirtualPodLogsPath st.existingPodsPath).1
      st.existingVPodsWithNamespace with
  | mk fs2 o =>
    rw [hc] at h a2 w2 s2 a3 w3 s3
    cases o with
    | panicked => simp at h
    | returned r =>
      simp only [Prod.mk.injEq, and_true] at h
      rw [h] at a3 w3 s3
      have t1 := (s1.children_removedAt a2).children_removedAt a3
      have t2 := (s2 (by simp)).containers_removedAt a3
      have e1 := cleanupOldPodPath_of_settled (startOptions multi tn name vp) fsF _
        st.existingPodsPath hne w3 t1
      obtain ⟨e2, r2, e2r⟩ := cleanupOldContainerPaths_of_settled
        (startOptions multi tn name vp) fsF st.existingVPodsWithNamespace w3 t2
      have e3 := cleanupOldPodPath_kubelet_of_settled (startOptions multi tn name vp) fsF
        st.existingKubeletPodsPath w3 s3
      refine ⟨?_, e1, e2, e3⟩
      simp only [cleanupPass, e1]
      cases hc2 : cleanupOldContainerPaths (startOptions multi tn name vp) fsF
          st.existingVPodsWithNamespace with
      | mk fsc oc =>
        rw [hc2] at e2 e2r
        simp only at e2 e2r
        subst e2 e2r
        simp only [e3]

/-- With names as the API server admits them, the cleanup calls of a pass
whose loop ended without error leave in place every path that the loop may
have created for a listed pod with a physical pod. -/
theorem cleanupPass_keeps_podPath (tr : Translate) (multi : Bool) (tn name : String)
    (vp : Path) (pm : PhysicalPodMap) (vPods : List Pod) (st stA : PassState)
    (hloop : mapPodsLoop tr (startOptions multi tn name vp) pm vPods st = (stA, none))
    (hwf : stA.fs.WF) (v : Pod) (hv : v ∈ vPods) (hval : validPodNames v)
    (hcon : validContainers v) (hm : pm.get (tr.HostName v.Name v.Namespace) ≠ none)
    (q : Path) (hq : podPath (startOptions multi tn name vp) v q) :
    (cleanupPass (startOptions multi tn name vp) stA).1.lookup q = stA.fs.lookup q := by
  have r1 := startOptions_podLogs multi tn name vp
  have r2 := startOptions_containerLogs multi tn name vp
  have r3 := startOptions_kubelet multi tn name vp
  obtain ⟨rec1, rec3⟩ := mapPodsLoop_recorded tr _ pm vPods st stA hloop v hv hm
  have rec2 : sprintf2 v.Name v.Namespace ∈ stA.existingVPodsWithNamespace := by
    have m := (mapPodsLoop_maps tr (startOptions multi tn name vp) pm vPods st).2.2.2.2.2
    rw [hloop] at m
    exact m rfl v hv
  rw [filepathJoin_plain _ _ (validPodNames_token v hval)] at rec1
  rw [filepathJoin_plain _ _ hval.2.2.2.2] at rec3
  by_contra hch
  rcases cleanupPass_changed _ stA (startOptions_roots_ne multi tn name vp) hwf q hch with
    ⟨c1, _, hE, hpre⟩ | ⟨nm, key, _, hk1, hk2, hpre⟩ | ⟨c1, g, _, _, hE, hpre⟩
  · rcases hq with rfl | hq | ⟨c, hcp, rfl⟩ | ⟨cs, hcs, rfl⟩
    · rw [filepathJoin_plain _ _ (validPodNames_token v hval)] at hpre
      have := prefix_append_singleton_eq hpre (List.prefix_refl _)
      subst this
      exact hE rec1
    · rw [filepathJoin_plain _ _ hval.2.2.2.2] at hq
      have h := hpre.trans hq
      rw [r1, r3] at h
      simp [List.append_assoc] at h
    · rw [filepathJoin_plain _ _ hval.2.2.2.2, filepathJoin_plain _ _ hcp, r3] at hpre
      rw [r1] at hpre
      simp [List.append_assoc] at hpre
    · rw [filepathJoin_plain _ _ (plainName_template _ _ _ _ hval.2.1 hval.2.2.2.1
        (hcon cs hcs).1 (hcon cs hcs).2), r2] at hpre
      rw [r1] at hpre
      simp [List.append_assoc] at hpre
  · rcases hq with rfl | hq | ⟨c, hcp, rfl⟩ | ⟨cs, hcs, rfl⟩
    · rw [filepathJoin_plain _ _ (validPodNames_token v hval), r1] at hpre
      rw [r2] at hpre
      simp [List.append_assoc] at hpre
    · rw [filepathJoin_plain _ _ hval.2.2.2.2] at hq
      have h := hpre.trans hq
      rw [r2, r3] at h
      simp [List.append_assoc] at h
    · rw [filepathJoin_plain _ _ hval.2.2.2.2, filepathJoin_plain _ _ hcp, r3] at hpre
      rw [r2] at hpre
      simp [List.append_assoc] at hpre
    · rw [filepathJoin_plain _ _ (plainName_template _ _ _ _ hval.2.1 hval.2.2.2.1
        (hcon cs hcs).1 (hcon cs hcs).2)] at hpre
      have := prefix_append_singleton_eq hpre (List.prefix_refl _)
      subst this
      rw [containerKey_template _ _ _ _ hval.1 hval.2.2.1] at hk1
      simp only [Option.some.injEq] at hk1
      subst hk1
      exact hk2 rec2
  · rcases hq with rfl | hq | ⟨c, hcp, rfl⟩ | ⟨cs, hcs, rfl⟩
    · rw [filepathJoin_plain _ _ (validPodNames_token v hval), r1] at hpre
      rw [r3] at hpre
      simp [List.append_assoc] at hpre
    · rw [filepathJoin_plain _ _ hval.2.2.2.2] at hq
      have h := (hpre.trans hq).length_le
      simp at h
    · rw [filepathJoin_plain _ _ hval.2.2.2.2, filepathJoin_plain _ _ hcp,
        List.append_assoc] at hpre
      have h := prefix_append_append_left hpre
      have hc : c1 = v.UID := by
        have h2 : c1 = v.UID ∧ g = c := by simpa using h
        exact h2.1
      subst hc
      exact hE rec3
    · rw [filepathJoin_plain _ _ (plainName_template _ _ _ _ hval.2.1 hval.2.2.2.1
        (hcon cs hcs).1 (hcon cs hcs).2), r2] at hpre
      rw [r3] at hpre
      simp [List.append_assoc] at hpre


theorem mapPodsLoop_extendsBy_paths (P : Path → Prop) (tr : Translate)
    (options : VirtualClusterOptions) (pm : PhysicalPodMap) (vPods : List Pod)
    (st : PassState) (hwf : st.fs.WF)
    (h1 : plainPath options.VirtualPodLogsPath) (h2 : plainPath options.VirtualContainerLogsPath)
    (h3 : plainPath options.VirtualKubeletPodPath)
    (hP : ∀ v ∈ vPods, ∀ q, podPath options v q → P q) :
    ExtendsBy P st.fs (mapPodsLoop tr options pm vPods st).1.fs := by
  induction vPods generalizing st with
  | nil => exact ExtendsBy.ext_refl P st.fs
  | cons v rest ih =>
    have e1 := mapPodStep_extendsBy_paths P tr options pm v st hwf h1 h3
      (hP v (List.mem_cons_self v rest))
    have w1 := mapPodStep_wf tr options pm v st hwf h1 h2 h3
    simp only [mapPodsLoop]
    cases hs : mapPodStep tr options pm v st with
    | mk st1 r =>
      rw [hs] at e1 w1
      cases r with
      | some err => exact e1
      | none =>
        exact e1.ext_trans (ih st1 w1 (fun x hx => hP x (List.mem_cons_of_mem _ hx)))

theorem listPods_none_ok (c : Client) (pods : List Pod) (h : c.listPods none = .ok pods) :
    pods = c.Pods := by
  unfold Client.listPods at h
  cases he : c.ListPodsErr with
  | some err => rw [he] at h; simp at h
  | none => rw [he] at h; simp only [Except.ok.injEq] at h; exact h.symm


/-- C10: a second pass on the state `fs1` that a first pass has left, with the
same pod listings, leaves the disk identical: it returns no error with the
disk `fs1`, its loop creates and changes nothing, and each of its three
cleanup calls removes nothing. The first pass is one that returned no error,
on a cluster as the program meets it: pods, namespaces and containers named as
the API server admits them (no underscore and no slash in the name and the
namespace of a virtual pod, no slash in those of a physical pod and in
container names and IDs, UIDs of one path component), pod-log entries of the
physical pods that are no symbolic links, as the kubelet makes them, and a
virtual path that lies apart from the three physical mounts. -/
theorem mapFunc_second_pass_changes_nothing (tr : Translate) (multi : Bool)
    (tn name : String) (vp : Path) (pManager vManager : Client) (fs0 fs1 : FS)
    (hvp : plainPath vp) (hwf : fs0.WF)
    (ha1 : Apart vp PodLogsMountPath) (ha2 : Apart vp (LogsMountPath ++ ["containers"]))
    (ha3 : Apart vp tr.PhysicalKubeletVolumeMountPath)
    (hvirt : ∀ v ∈ vManager.Pods, validPodNames v ∧ validContainers v)
    (hphysical : ∀ p ∈ pManager.Pods, validPhysicalNames p ∧
      ∀ t, fs0.lookup (PodLogsMountPath ++ [sprintf3 p.Namespace p.Name p.UID])
        ≠ some (Node.link t))
    (hpass : mapFunc tr (startOptions multi tn name vp) pManager vManager fs0
      = (fs1, Outcome.returned none)) :
    mapFunc tr (startOptions multi tn name vp) pManager vManager fs1
      = (fs1, Outcome.returned none) ∧
    ∀ pm vPods, getPhysicalPodMap (startOptions multi tn name vp) pManager fs1 = .ok pm →
      vManager.listPods none = .ok vPods →
      ∃ st, mapPodsLoop tr (startOptions multi tn name vp) pm vPods { fs := fs1 } = (st, none) ∧
        st.fs = fs1 ∧
        (cleanupOldPodPath (startOptions multi tn name vp) fs1
          (startOptions multi tn name vp).VirtualPodLogsPath st.existingPodsPath).1 = fs1 ∧
        (cleanupOldContainerPaths (startOptions multi tn name vp) fs1
          st.existingVPodsWithNamespace).1 = fs1 ∧
        (cleanupOldPodPath (startOptions multi tn name vp) fs1
          (startOptions multi tn name vp).VirtualKubeletPodPath
          st.existingKubeletPodsPath).1 = fs1 := by
  have r1 := startOptions_podLogs multi tn name vp
  have r2 := startOptions_containerLogs multi tn name vp
  have r3 := startOptions_kubelet multi tn name vp
  have p1 : plainPath (startOptions multi tn name vp).VirtualPodLogsPath := by
    rw [r1]; exact plainPath_append hvp _ (by decide)
  have p2 : plainPath (startOptions multi tn name vp).VirtualContainerLogsPath := by
    rw [r2]; exact plainPath_append hvp _ (by decide)
  have p3 : plainPath (startOptions multi tn name vp).VirtualKubeletPodPath := by
    rw [r3]; exact plainPath_append hvp _ (by decide)
  simp only [mapFunc] at hpass
  cases hmap : getPhysicalPodMap (startOptions multi tn name vp) pManager fs0 with
  | error e =>
    rw [hmap] at hpass
    simp only [Prod.mk.injEq, and_true] at hpass
    subst hpass
    refine ⟨by simp only [mapFunc, hmap], ?_⟩
    intro pm vPods h
    rw [hmap] at h; cases h
  | ok pm =>
    rw [hmap] at hpass
    simp only at hpass
    cases hlist : vManager.listPods none with
    | error e =>
      rw [hlist] at hpass
      simp only [Prod.mk.injEq, and_true] at hpass
      subst hpass
      refine ⟨by simp only [mapFunc, hmap, hlist], ?_⟩
      intro pm2 vPods _ h
      cases h
    | ok vPods =>
      rw [hlist] at hpass
      simp only at hpass
      have hsub : ∀ v ∈ vPods, v ∈ vManager.Pods := by
        intro v hv; rw [← listPods_none_ok _ _ hlist]; exact hv
      cases hloop : mapPodsLoop tr (startOptions multi tn name vp) pm vPods { fs := fs0 } with
      | mk stA r =>
        rw [hloop] at hpass
        cases r with
        | some err => simp at hpass
        | none =>
          simp only at hpass
          have hnear : ∀ v ∈ vPods, ∀ q, podPath (startOptions multi tn name vp) v q →
              Near vp q := fun v hv q hq =>
            podPath_near multi tn name vp v (hvirt v (hsub v hv)).1 (hvirt v (hsub v hv)).2 q hq
          have hwfA : stA.fs.WF := by
            have := mapPodsLoop_wf tr (startOptions multi tn name vp) pm vPods fs0 hwf p1 p2 p3
            rw [hloop] at this; exact this
          have hext : ExtendsBy (Near vp) fs0 stA.fs := by
            have := mapPodsLoop_extendsBy_paths (Near vp) tr (startOptions multi tn name vp) pm
              vPods { fs := fs0 } hwf p1 p2 p3 hnear
            rw [hloop] at this; exact this
          have hrem : RemovedAt (fun t => vp <+: t) stA.fs fs1 := by
            have := cleanupPass_removedAt multi tn name vp stA hwfA
            rw [hpass] at this; exact this
          have hwf1 : fs1.WF := hrem.rem_wf hwfA
          have hphys : physEntries vp fs1 = physEntries vp fs0 :=
            (hrem.rem_phys_eq vp (fun t h => h)).trans hext.ext_phys_eq
          have hmap2 : getPhysicalPodMap (startOptions multi tn name vp) pManager fs1 = .ok pm := by
            rw [← hmap]
            apply getPhysicalPodMap_congr
            intro pod hpod
            have hpl : plainName (sprintf3 pod.Namespace pod.Name pod.UID) = true :=
              plainName_sprintf3 _ _ _ (hphysical pod hpod).1.2.1 (hphysical pod hpod).1.1
                (not_mem_of_plainName _ (hphysical pod hpod).1.2.2)
            symm
            apply checkIfPathExists_of_phys_eq hphys.symm
            · rw [filepathJoin_plain _ _ hpl]; exact apart_not_near ha1 _
            · rw [filepathJoin_plain _ _ hpl]; exact (hphysical pod hpod).2
          have hdet := getPhysicalPodMap_detail _ pManager fs0 pm hmap
          have hrep := mapPodsLoop_replay vp tr (startOptions multi tn name vp) pm vPods
            { fs := fs0 } stA fs1 hloop hwf hwf1 p1 p2 p3 hphys hnear
            (by
              intro v hv d hd
              have hval := (hphysical _ (hdet _ d hd).2).1
              rw [filepathJoin_plain _ _ hval.2.2]
              exact apart_not_near ha3 _)
            (by
              intro v hv d hd cs hcs
              have hval := (hphysical _ (hdet _ d hd).2).1
              have hcon := (hvirt v (hsub v hv)).2 cs hcs
              rw [filepathJoin_plain_two _ _ _ (by decide)
                (plainName_template _ _ _ _ hval.1 hval.2.1 hcon.1 hcon.2)]
              have : LogsMountPath ++ ["containers", ContainerSymlinkSourceTemplate
                  d.PhysicalPod.Name d.PhysicalPod.Namespace cs.Name
                  (stringsCutAfter cs.ContainerID "://")]
                = (LogsMountPath ++ ["containers"]) ++ [ContainerSymlinkSourceTemplate
                  d.PhysicalPod.Name d.PhysicalPod.Namespace cs.Name
                  (stringsCutAfter cs.ContainerID "://")] := by simp
              rw [this]
              exact apart_not_near ha2 _)
            (by
              intro v hv hm q n hq hl
              have := cleanupPass_keeps_podPath tr multi tn name vp pm vPods { fs := fs0 } stA
                hloop hwfA v hv (hvirt v (hsub v hv)).1 (hvirt v (hsub v hv)).2 hm q hq
              rw [hpass] at this
              rw [this]; exact hl)
          have hrep2 : mapPodsLoop tr (startOptions multi tn name vp) pm vPods { fs := fs1 }
              = ({ stA with fs := fs1 }, none) := hrep
          have hfix := cleanupPass_fixed multi tn name vp stA fs1 hwfA hpass
          refine ⟨?_, ?_⟩
          · simp only [mapFunc, hmap2, hlist, hrep2]
            exact hfix.1
          · intro pm2 vPods2 h1 h2
            rw [hmap2] at h1
            simp only [Except.ok.injEq] at h1 h2
            subst h1 h2
            exact ⟨{ stA with fs := fs1 }, hrep2, rfl, hfix.2⟩

theorem mapFunc_second_pass_changes_nothing_witness :
    (plainPath ["tmp", "vcluster", "ns", "vc"] ∧ exampleFS.WF ∧
      Apart ["tmp", "vcluster", "ns", "vc"] PodLogsMountPath ∧
      Apart ["tmp", "vcluster", "ns", "vc"] (LogsMountPath ++ ["containers"]) ∧
      Apart ["tmp", "vcluster", "ns", "vc"] exampleTranslate.PhysicalKubeletVolumeMountPath ∧
      (∀ v ∈ exampleVManager.Pods, validPodNames v ∧ validContainers v) ∧
      (∀ p ∈ examplePManager.Pods, validPhysicalNames p) ∧
      exampleFS.lookup (PodLogsMountPath ++ ["ns_p1-x-ns1-x-vc_pu1"]) = some Node.dir ∧
      mapFunc exampleTranslate exampleOptions examplePManager exampleVManager exampleFS
        = (exampleAfter, Outcome.returned none) ∧
      exampleAfter ≠ exampleFS) ∧
    mapFunc exampleTranslate exampleOptions examplePManager exampleVManager exampleAfter
      = (exampleAfter, Outcome.returned none) :=
  ⟨by decide,
   (mapFunc_second_pass_changes_nothing exampleTranslate false "ns" "vc"
      ["tmp", "vcluster", "ns", "vc"] examplePManager exampleVManager exampleFS exampleAfter
      (by decide) (by decide) (by decide) (by decide) (by decide) (by decide)
      (fun p hp => by
        have hp2 : p = examplePhysicalPod := by simpa [examplePManager] using hp
        subst hp2
        refine ⟨by decide, fun t => ?_⟩
        have e : exampleFS.lookup (PodLogsMountPath ++ [sprintf3 examplePhysicalPod.Namespace
            examplePhysicalPod.Name examplePhysicalPod.UID]) = some Node.dir := by decide
        rw [e]; simp)
      (by decide)).1⟩

/-- Why the names matter for a second pass: on the node of a virtual pod named
`web_1`, a name the API server does not admit, the first pass returns no error
and no removal is refused; the state it leaves has no container link
`web_1_ns1_c1-abc.log`, its cleanup having removed the one it created. The
second pass finds the same physical pod map, its loop creates that link anew,
and its cleanup removes it again. -/
theorem mapFunc_second_pass_creates_link :
    mapFunc exampleTranslate exampleOptions exampleUnderscorePManager exampleUnderscoreVManager
        exampleUnderscoreFS = (exampleUnderscoreAfter, Outcome.returned none) ∧
    exampleUnderscoreFS.pinned = [] ∧
    exampleUnderscoreAfter.lookup
      (exampleOptions.VirtualContainerLogsPath ++ ["web_1_ns1_c1-abc.log"]) = none ∧
    getPhysicalPodMap exampleOptions exampleUnderscorePManager exampleUnderscoreAfter
      = .ok exampleUnderscoreMappings ∧
    exampleUnderscoreVManager.listPods none = .ok [exampleUnderscorePod] ∧
    (mapPodsLoop exampleTranslate exampleOptions exampleUnderscoreMappings
      [exampleUnderscorePod] { fs := exampleUnderscoreAfter }).2 = none ∧
    (mapPodsLoop exampleTranslate exampleOptions exampleUnderscoreMappings
      [exampleUnderscorePod] { fs := exampleUnderscoreAfter }).1.fs.lookup
        (exampleOptions.VirtualContainerLogsPath ++ ["web_1_ns1_c1-abc.log"])
      = some (Node.link "/var/log/pods/ns1_web_1_u2/c1/0.log") ∧
    (mapPodsLoop exampleTranslate exampleOptions exampleUnderscoreMappings
      [exampleUnderscorePod] { fs := exampleUnderscoreAfter }).1.fs ≠ exampleUnderscoreAfter ∧
    mapFunc exampleTranslate exampleOptions exampleUnderscorePManager exampleUnderscoreVManager
        exampleUnderscoreAfter = (exampleUnderscoreAfter, Outcome.returned none) := by
  decide


/-! ### The pod-log link -/

/-- C11: `createPodLogSymlinkToPhysical(v, p)`, called when a link with target
`p` stands at `v`, returns the path `v` without error and leaves the disk as
it is; when `os.Symlink` fails with an error other than "already exists", it
returns that error and no path. -/
theorem createPodLogSymlinkToPhysical_spec (fs : FS) (v : Path) (p : String) :
    (fs.lookup v = some (Node.link p) →
      createPodLogSymlinkToPhysical fs v p = (fs, .ok v)) ∧
    (∀ err, (osSymlink fs p v).2 = some err → err ≠ Errno.EEXIST →
      createPodLogSymlinkToPhysical fs v p = (fs, .error (GoError.sys err))) := by
  constructor
  · intro h
    have hne : fs.lookup v ≠ none := by rw [h]; simp
    simp [createPodLogSymlinkToPhysical, osSymlink_of_exists fs p v hne]
  · intro err herr hne
    have hfs : (osSymlink fs p v).1 = fs := by
      unfold osSymlink at herr ⊢
      cases h1 : fs.lookup v with
      | some n => simp
      | none =>
        rw [h1] at herr
        simp only at herr ⊢
        cases h2 : fs.lookup v.dropLast with
        | none => simp
        | some n =>
          rw [h2] at herr
          cases n with
          | dir => simp at herr
          | file => simp
          | link t => simp
    simp only [createPodLogSymlinkToPhysical]
    cases hs : osSymlink fs p v with
    | mk fs1 r =>
      rw [hs] at herr hfs
      simp only at herr hfs
      subst herr hfs
      simp [hne]

theorem createPodLogSymlinkToPhysical_spec_witness :
    (exampleFS.lookup ["tmp", "vcluster", "ns", "vc", "log", "pods", "ns1_old_u0"]
        = some (Node.link "/gone") ∧
      (osSymlink exampleFS "/var/vcluster/physical/log/pods/ns_p_u"
        ["tmp", "elsewhere", "ns_p_u"]).2 = some Errno.ENOENT) ∧
    createPodLogSymlinkToPhysical exampleFS
        ["tmp", "vcluster", "ns", "vc", "log", "pods", "ns1_old_u0"] "/gone"
      = (exampleFS, .ok ["tmp", "vcluster", "ns", "vc", "log", "pods", "ns1_old_u0"]) ∧
    createPodLogSymlinkToPhysical exampleFS ["tmp", "elsewhere", "ns_p_u"]
        "/var/vcluster/physical/log/pods/ns_p_u"
      = (exampleFS, .error (GoError.sys Errno.ENOENT)) :=
  ⟨by decide,
   (createPodLogSymlinkToPhysical_spec exampleFS
      ["tmp", "vcluster", "ns", "vc", "log", "pods", "ns1_old_u0"] "/gone").1 (by decide),
   (createPodLogSymlinkToPhysical_spec exampleFS ["tmp", "elsewhere", "ns_p_u"]
      "/var/vcluster/physical/log/pods/ns_p_u").2 Errno.ENOENT (by decide) (by decide)⟩

/-! ### Entries of the container-logs root without an underscore -/

theorem cleanupContainerEntries_panics (options : VirtualClusterOptions)
    (existing : List String) (names : List String) (fs : FS)
    (h : ∃ name ∈ names, '_' ∉ name.data) :
    (cleanupContainerEntries options existing names fs).2 = Outcome.panicked := by
  induction names generalizing fs with
  | nil => obtain ⟨n, hn, _⟩ := h; simp at hn
  | cons x rest ih =>
    by_cases hx : '_' ∈ x.data
    · have hrest : ∃ name ∈ rest, '_' ∉ name.data := by
        obtain ⟨n, hn, hu⟩ := h
        rcases List.mem_cons.1 hn with rfl | hin
        · exact absurd hx hu
        · exact ⟨n, hin, hu⟩
      simp only [cleanupContainerEntries]
      split
      · split
        · exact ih _ hrest
        · exact ih _ hrest
      · rfl
    · simp only [cleanupContainerEntries, stringsSplit_of_not_mem x '_' hx]

/-- C14 (the code fails): with a file `README` in the virtual container-logs
root, `os.ReadDir` lists it first, `strings.Split` of its name on the
underscore has the one field `README`, and `cleanupOldContainerPaths` ends in
the runtime failure of `nameParts[1]` instead of returning; so does the pass
that calls it. -/
theorem cleanupOldContainerPaths_stray_entry_panics :
    osReadDir exampleStrayFS exampleOptions.VirtualContainerLogsPath
      = .ok ["README", "old_ns1_c0-fff.log"] ∧
    stringsSplit "README" '_' = ["README"] ∧
    cleanupOldContainerPaths exampleOptions exampleStrayFS ["p1_ns1"]
      = (exampleStrayFS, Outcome.panicked) ∧
    (mapFunc exampleTranslate exampleOptions examplePManager exampleVManager
      exampleStrayFS).2 = Outcome.panicked := by
  decide


/-! ### Restart on init -/

theorem volumesLoop_iff (hp : LegacyHostPaths) (volumes : List Volume) :
    volumesLoop hp volumes = true ↔
      ∃ v ∈ volumes, v.HostPath = some hp.PodLoggingHostPath ∨
        v.HostPath = some hp.LogHostPath ∨ v.HostPath = some hp.KubeletPodPath := by
  induction volumes with
  | nil => simp [volumesLoop]
  | cons v rest ih =>
    simp only [volumesLoop, List.mem_cons, exists_eq_or_imp]
    cases hv : v.HostPath with
    | none => simp [ih]
    | some path =>
      simp only [Option.some.injEq]
      by_cases hm : path = hp.PodLoggingHostPath ∨ path = hp.LogHostPath ∨
          path = hp.KubeletPodPath
      · simp [hm]
      · simp only [hm, if_false, ih, false_or]

theorem podLoop_eq_filter (hp : LegacyHostPaths) (selfName : String) (pods acc : List Pod) :
    podLoop hp selfName pods acc
      = acc ++ pods.filter (fun p => p.Name ≠ selfName ∧ volumesLoop hp p.Volumes = true) := by
  induction pods generalizing acc with
  | nil => simp [podLoop]
  | cons p rest ih =>
    simp only [podLoop]
    by_cases hs : p.Name = selfName
    · simp [hs, ih, List.filter_cons]
    · by_cases hv : volumesLoop hp p.Volumes = true
      · simp [hs, hv, ih, List.filter_cons]
      · simp [hs, hv, ih, List.filter_cons]

theorem delete_pods (c : Client) (pod : Pod) :
    (c.delete pod).1.DeleteErr = c.DeleteErr ∧
    (c.delete pod).1.Pods = c.Pods.filter (fun q =>
      ¬ (c.DeleteErr pod = none ∧ q.Namespace = pod.Namespace ∧ q.Name = pod.Name)) := by
  unfold Client.delete
  cases hd : c.DeleteErr pod with
  | some err => simp
  | none =>
    simp only [true_and]
    split
    · exact ⟨rfl, rfl⟩
    · rename_i hno
      refine ⟨rfl, ?_⟩
      symm
      apply List.filter_eq_self.2
      intro q hq
      simp only [decide_eq_true_eq]
      intro hk
      exact hno ⟨q, hq, hk⟩

theorem deleteLoop_pods (l : List Pod) (c : Client) :
    (deleteLoop l c).DeleteErr = c.DeleteErr ∧
    (deleteLoop l c).Pods = c.Pods.filter (fun q =>
      ∀ p ∈ l, c.DeleteErr p = none → ¬ (q.Namespace = p.Namespace ∧ q.Name = p.Name)) := by
  induction l generalizing c with
  | nil => simp [deleteLoop]
  | cons p rest ih =>
    obtain ⟨d1, d2⟩ := delete_pods c p
    obtain ⟨i1, i2⟩ := ih (c.delete p).1
    simp only [deleteLoop]
    refine ⟨i1.trans d1, ?_⟩
    rw [i2, d2, d1, List.filter_filter]
    apply List.filter_congr
    intro q _
    simp only [List.mem_cons, forall_eq_or_imp, Bool.decide_and, Bool.and_comm,
      Bool.decide_eq_true, decide_not, not_and]


/-- C13: when the listing succeeds, the restart list of `restartTargetPods` is
the listing filtered, in its order and each listed pod at most once, by: the
name is not the agent's own, and some volume is a host path equal to one of
the three legacy paths. `Delete` is called on the pods of that list and no
others, the call returns no error whatever the deletions answer, and what is
left of the cluster are the pods that no pod of the list with an accepted
deletion names: a refused deletion keeps only its own pod. The agent's own pod
stays, and so does a pod without such a volume. -/
theorem restartTargetPods_spec (hp : LegacyHostPaths) (selfName : String) (c : Client)
    (hlist : c.ListPodsErr = none) :
    podLoop hp selfName c.Pods [] = c.Pods.filter (fun p => p.Name ≠ selfName ∧
      ∃ v ∈ p.Volumes, v.HostPath = some hp.PodLoggingHostPath ∨
        v.HostPath = some hp.LogHostPath ∨ v.HostPath = some hp.KubeletPodPath) ∧
    restartTargetPods hp selfName c = (deleteLoop (podLoop hp selfName c.Pods []) c, none) ∧
    (restartTargetPods hp selfName c).1.Pods = c.Pods.filter (fun q =>
      ∀ p ∈ podLoop hp selfName c.Pods [], c.DeleteErr p = none →
        ¬ (q.Namespace = p.Namespace ∧ q.Name = p.Name)) ∧
    (∀ q ∈ c.Pods, q.Name = selfName → q ∈ (restartTargetPods hp selfName c).1.Pods) ∧
    (∀ q ∈ c.Pods,
      (¬ ∃ v ∈ q.Volumes, v.HostPath = some hp.PodLoggingHostPath ∨
        v.HostPath = some hp.LogHostPath ∨ v.HostPath = some hp.KubeletPodPath) →
      (∀ p ∈ c.Pods, p.Namespace = q.Namespace → p.Name = q.Name → p = q) →
      q ∉ podLoop hp selfName c.Pods [] ∧ q ∈ (restartTargetPods hp selfName c).1.Pods) := by
  have hfilter : podLoop hp selfName c.Pods [] = c.Pods.filter (fun p => p.Name ≠ selfName ∧
      ∃ v ∈ p.Volumes, v.HostPath = some hp.PodLoggingHostPath ∨
        v.HostPath = some hp.LogHostPath ∨ v.HostPath = some hp.KubeletPodPath) := by
    rw [podLoop_eq_filter, List.nil_append]
    apply List.filter_congr
    intro p _
    simp only [volumesLoop_iff]
  have hmem : ∀ p, p ∈ podLoop hp selfName c.Pods [] ↔ p ∈ c.Pods ∧ p.Name ≠ selfName ∧
      ∃ v ∈ p.Volumes, v.HostPath = some hp.PodLoggingHostPath ∨
        v.HostPath = some hp.LogHostPath ∨ v.HostPath = some hp.KubeletPodPath := by
    intro p
    rw [hfilter, List.mem_filter, decide_eq_true_eq]
  have hrun : restartTargetPods hp selfName c
      = (deleteLoop (podLoop hp selfName c.Pods []) c, none) := by
    simp [restartTargetPods, Client.listPods, hlist]
  have hpods := (deleteLoop_pods (podLoop hp selfName c.Pods []) c).2
  have hleft : ∀ q, q ∈ (restartTargetPods hp selfName c).1.Pods ↔ q ∈ c.Pods ∧
      ∀ p ∈ podLoop hp selfName c.Pods [], c.DeleteErr p = none →
        ¬ (q.Namespace = p.Namespace ∧ q.Name = p.Name) := by
    intro q
    rw [hrun]
    simp only
    rw [hpods, List.mem_filter, decide_eq_true_eq]
  refine ⟨hfilter, hrun, ?_, ?_, ?_⟩
  · rw [hrun]; exact hpods
  · intro q hq hself
    refine (hleft q).2 ⟨hq, ?_⟩
    intro p hp _ hk
    exact ((hmem p).1 hp).2.1 (hk.2.symm.trans hself)
  · intro q hq hno huniq
    refine ⟨fun h => hno ((hmem q).1 h).2.2, (hleft q).2 ⟨hq, ?_⟩⟩
    intro p hp _ hk
    have hpq : p = q := huniq p ((hmem p).1 hp).1 hk.1.symm hk.2.symm
    subst hpq
    exact hno ((hmem p).1 hp).2.2

theorem restartTargetPods_spec_witness :
    exampleLocalManager.ListPodsErr = none ∧
    (podLoop exampleLegacy "mapper" exampleLocalManager.Pods []).map (fun p => p.Name)
      = ["legacy", "stuck", "twice"] ∧
    (restartTargetPods exampleLegacy "mapper" exampleLocalManager).2 = none ∧
    (restartTargetPods exampleLegacy "mapper" exampleLocalManager).1.Pods.map (fun p => p.Name)
      = ["mapper", "plain", "stuck"] :=
  ⟨by decide,
   (congrArg (List.map (fun p => p.Name))
     (restartTargetPods_spec exampleLegacy "mapper" exampleLocalManager (by decide)).1).trans
     (by decide),
   by decide, by decide⟩


/-! ### Mode resolver -/

theorem containsChars_iff (sub s : List Char) : containsChars sub s = true ↔ sub <:+: s := by
  induction s with
  | nil => simp [containsChars, List.isEmpty_iff]
  | cons c cs ih =>
    simp only [containsChars, Bool.or_eq_true, ih, List.isPrefixOf_iff_prefix,
      List.infix_cons_iff]

theorem argsLoop_iff (args : List String) :
    argsLoop args = true ↔ ∃ arg ∈ args, MultiNamespaceMode.data <:+: arg.data := by
  induction args with
  | nil => simp [argsLoop]
  | cons a rest ih =>
    have hc : stringsContains a MultiNamespaceMode = true ↔
        MultiNamespaceMode.data <:+: a.data := containsChars_iff _ _
    by_cases h : stringsContains a MultiNamespaceMode = true
    · rw [argsLoop, if_pos h]
      exact ⟨fun _ => ⟨a, List.mem_cons_self _ _, hc.1 h⟩, fun _ => rfl⟩
    · rw [argsLoop, if_neg h, ih]
      constructor
      · rintro ⟨x, hx, hm⟩
        exact ⟨x, List.mem_cons_of_mem _ hx, hm⟩
      · rintro ⟨x, hx, hm⟩
        rcases List.mem_cons.1 hx with rfl | hx
        · exact absurd (hc.2 hm) h
        · exact ⟨x, hx, hm⟩

theorem containersLoop_list_iff (containers : List Container) :
    containersLoop containers = true ↔ ∃ c ∈ containers, c.Name = SyncerContainer ∧
      ∃ arg ∈ c.Args, MultiNamespaceMode.data <:+: arg.data := by
  induction containers with
  | nil => simp [containersLoop]
  | cons c rest ih =>
    by_cases hn : c.Name = SyncerContainer
    · by_cases ha : argsLoop c.Args = true
      · rw [containersLoop, if_pos hn, if_pos ha]
        exact ⟨fun _ => ⟨c, List.mem_cons_self _ _, hn, (argsLoop_iff _).1 ha⟩, fun _ => rfl⟩
      · rw [containersLoop, if_pos hn, if_neg ha, ih]
        constructor
        · rintro ⟨x, hx, h⟩
          exact ⟨x, List.mem_cons_of_mem _ hx, h⟩
        · rintro ⟨x, hx, h1, h2⟩
          rcases List.mem_cons.1 hx with rfl | hx
          · exact absurd ((argsLoop_iff _).2 h2) ha
          · exact ⟨x, hx, h1, h2⟩
    · rw [containersLoop, if_neg hn, ih]
      constructor
      · rintro ⟨x, hx, h⟩
        exact ⟨x, List.mem_cons_of_mem _ hx, h⟩
      · rintro ⟨x, hx, h1, h2⟩
        rcases List.mem_cons.1 hx with rfl | hx
        · exact absurd h1 hn
        · exact ⟨x, hx, h1, h2⟩

theorem containersLoop_iff (spec : PodSpec) :
    containersLoop spec.Containers = true ↔ HasMarker spec :=
  containersLoop_list_iff spec.Containers

theorem getSyncerPodSpec_ok (kube : KubeClient) (o : VirtualClusterOptions) (spec : PodSpec)
    (h : SyncerWorkload kube o spec) :
    getSyncerPodSpec kube o.Name o.TargetNamespace = .ok spec := by
  unfold getSyncerPodSpec
  rcases h with h | ⟨e, h1, h2, h3⟩
  · rw [h]
  · rw [h1]; simp only [h2, if_true, h3]

theorem getSyncerPodSpec_error (kube : KubeClient) (o : VirtualClusterOptions) (err : GoError)
    (h : WorkloadFails kube o err) :
    getSyncerPodSpec kube o.Name o.TargetNamespace = .error err := by
  unfold getSyncerPodSpec
  rcases h with ⟨h1, h2⟩ | ⟨e, h1, h2, h3⟩
  · rw [h1]; simp [h2]
  · rw [h1]; simp only [h2, if_true, h3]

theorem workload_cases (kube : KubeClient) (o : VirtualClusterOptions) :
    (∃ err, WorkloadFails kube o err) ∨ ∃ spec, SyncerWorkload kube o spec := by
  unfold WorkloadFails SyncerWorkload
  cases h1 : kube.GetStatefulSet o.TargetNamespace o.Name with
  | ok spec => exact Or.inr ⟨spec, Or.inl rfl⟩
  | error e =>
    cases h2 : e.IsNotFound with
    | false => exact Or.inl ⟨e, Or.inl ⟨rfl, h2⟩⟩
    | true =>
      cases h3 : kube.GetDeployment o.TargetNamespace o.Name with
      | ok spec => exact Or.inr ⟨spec, Or.inr ⟨e, rfl, h2, rfl⟩⟩
      | error e2 => exact Or.inl ⟨e2, Or.inr ⟨e, rfl, h2, rfl⟩⟩

theorem findModeFromWorkload_error (kube : KubeClient) (st : ModeState) (err : GoError)
    (h : WorkloadFails kube st.options err) : findModeFromWorkload kube st = (st, some err) := by
  simp only [findModeFromWorkload, getSyncerPodSpec_error kube st.options err h]

theorem findModeFromWorkload_ok (kube : KubeClient) (st : ModeState) (spec : PodSpec)
    (h : SyncerWorkload kube st.options spec) :
    (HasMarker spec → findModeFromWorkload kube st = (setMultiNamespaceMode st, none)) ∧
    (¬ HasMarker spec → findModeFromWorkload kube st
      = ({ st with Default := Translator.singleNamespace st.options.TargetNamespace }, none)) := by
  simp only [findModeFromWorkload, getSyncerPodSpec_ok kube st.options spec h]
  constructor
  · intro hm
    rw [if_pos ((containersLoop_iff spec).2 hm)]
  · intro hm
    rw [if_neg (fun hc => hm ((containersLoop_iff spec).1 hc))]

theorem findVclusterMode_of_enabled (u : String → Except String Config) (kube : KubeClient)
    (st : ModeState) (h : SecretEnablesMulti u kube st.options) :
    findVclusterModeAndSetDefaultTranslation u kube st = (setMultiNamespaceMode st, none) := by
  obtain ⟨secret, raw, cfg, h1, h2, h3, h4⟩ := h
  simp [findVclusterModeAndSetDefaultTranslation, getVclusterConfigFromSecret, h1, h2, h3, h4]

theorem findVclusterMode_of_secretFails (u : String → Except String Config)
    (kube : KubeClient) (st : ModeState) (err : GoError)
    (h : SecretFails u kube st.options err) :
    findVclusterModeAndSetDefaultTranslation u kube st = (st, some err) := by
  rcases h with ⟨h1, h2⟩ | ⟨secret, h1, ⟨h2, rfl⟩ | ⟨raw, msg, h2, h3, rfl⟩⟩
  · simp [findVclusterModeAndSetDefaultTranslation, getVclusterConfigFromSecret, h1, h2]
  · simp [findVclusterModeAndSetDefaultTranslation, getVclusterConfigFromSecret, h1, h2,
      GoError.IsNotFound]
  · simp [findVclusterModeAndSetDefaultTranslation, getVclusterConfigFromSecret, h1, h2, h3,
      GoError.IsNotFound]

theorem findVclusterMode_of_benign (u : String → Except String Config) (kube : KubeClient)
    (st : ModeState) (hA : ¬ SecretEnablesMulti u kube st.options)
    (hF : ∀ e, ¬ SecretFails u kube st.options e) :
    findVclusterModeAndSetDefaultTranslation u kube st = findModeFromWorkload kube st := by
  unfold SecretEnablesMulti at hA
  unfold SecretFails at hF
  simp only [findVclusterModeAndSetDefaultTranslation, getVclusterConfigFromSecret]
  cases h1 : kube.GetSecret st.options.TargetNamespace (configSecretName st.options.Name) with
  | error e =>
    cases h2 : e.IsNotFound with
    | true => simp [h2]
    | false => exact absurd (Or.inl ⟨h1, h2⟩) (hF e)
  | ok secret =>
    cases h2 : secret.Data.lookup configFilename with
    | none => exact absurd (Or.inr ⟨secret, h1, Or.inl ⟨h2, rfl⟩⟩) (hF _)
    | some raw =>
      cases h3 : u raw with
      | error msg => exact absurd (Or.inr ⟨secret, h1, Or.inr ⟨raw, msg, h2, h3, rfl⟩⟩) (hF _)
      | ok cfg =>
        cases h4 : cfg.MultiNamespaceModeEnabled with
        | true => exact absurd ⟨secret, raw, cfg, h1, h2, h3, h4⟩ hA
        | false => simp [h2, h3, h4]

theorem setMultiNamespaceMode_ne_single (st : ModeState) :
    ({ st with Default := Translator.singleNamespace st.options.TargetNamespace } : ModeState)
      ≠ setMultiNamespaceMode st := by
  intro h
  have := congrArg ModeState.Default h
  simp [setMultiNamespaceMode] at this


/-- C12: `findVclusterModeAndSetDefaultTranslation` returns an error exactly
when retrieving or decoding the configuration secret fails otherwise than by
not-found (that error), or when the secret does not settle the mode and the
syncer workload cannot be retrieved (that error); it then leaves the options
and the translator as they were. When it returns no error it has selected
multi-namespace mode if and only if the secret is found, decodes and declares
it enabled, or the pod template of the syncer workload (the stateful set, else
the deployment when the stateful set is not found) has a container `syncer`
with an argument containing `multi-namespace-mode`; otherwise it has selected
single-namespace mode. A secret that is not found and a pod template without
the marker give single-namespace mode and no error. -/
theorem findVclusterMode_spec (unmarshalStrict : String → Except String Config)
    (kube : KubeClient) (st : ModeState) :
    (∀ err, (findVclusterModeAndSetDefaultTranslation unmarshalStrict kube st).2 = some err ↔
      SecretFails unmarshalStrict kube st.options err ∨
      (¬ SecretEnablesMulti unmarshalStrict kube st.options ∧
        (∀ e, ¬ SecretFails unmarshalStrict kube st.options e) ∧
        WorkloadFails kube st.options err)) ∧
    ((findVclusterModeAndSetDefaultTranslation unmarshalStrict kube st).2 ≠ none →
      (findVclusterModeAndSetDefaultTranslation unmarshalStrict kube st).1 = st) ∧
    ((findVclusterModeAndSetDefaultTranslation unmarshalStrict kube st).2 = none →
      ((findVclusterModeAndSetDefaultTranslation unmarshalStrict kube st).1
          = setMultiNamespaceMode st ↔
        SecretEnablesMulti unmarshalStrict kube st.options ∨
          ∃ spec, SyncerWorkload kube st.options spec ∧ HasMarker spec) ∧
      (¬ (SecretEnablesMulti unmarshalStrict kube st.options ∨
          ∃ spec, SyncerWorkload kube st.options spec ∧ HasMarker spec) →
        (findVclusterModeAndSetDefaultTranslation unmarshalStrict kube st).1
          = { st with Default := Translator.singleNamespace st.options.TargetNamespace })) ∧
    (∀ e spec,
      kube.GetSecret st.options.TargetNamespace (configSecretName st.options.Name) = .error e →
      e.IsNotFound = true → SyncerWorkload kube st.options spec → ¬ HasMarker spec →
      findVclusterModeAndSetDefaultTranslation unmarshalStrict kube st
        = ({ st with Default := Translator.singleNamespace st.options.TargetNamespace },
            none)) := by
  by_cases hA : SecretEnablesMulti unmarshalStrict kube st.options
  · -- the secret enables the mode
    have hrun := findVclusterMode_of_enabled unmarshalStrict kube st hA
    have hnoF : ∀ e, ¬ SecretFails unmarshalStrict kube st.options e := by
      intro e hF
      rw [findVclusterMode_of_secretFails unmarshalStrict kube st e hF] at hrun
      simp at hrun
    refine ⟨?_, ?_, ?_, ?_⟩
    · intro err
      rw [hrun]
      constructor
      · intro h; simp at h
      · rintro (h | ⟨h, _⟩)
        · exact absurd h (hnoF err)
        · exact absurd hA h
    · intro h; rw [hrun] at h; simp at h
    · intro _
      rw [hrun]
      exact ⟨⟨fun _ => Or.inl hA, fun _ => rfl⟩, fun h => absurd (Or.inl hA) h⟩
    · intro e spec h1 _ _ _
      obtain ⟨secret, _, _, h2, _⟩ := hA
      rw [h1] at h2; cases h2
  · by_cases hF : ∃ e, SecretFails unmarshalStrict kube st.options e
    · -- the secret fails
      obtain ⟨e0, hF0⟩ := hF
      have hrun := findVclusterMode_of_secretFails unmarshalStrict kube st e0 hF0
      refine ⟨?_, ?_, ?_, ?_⟩
      · intro err
        rw [hrun]
        constructor
        · intro h
          simp only [Option.some.injEq] at h
          subst h
          exact Or.inl hF0
        · rintro (h | ⟨_, h, _⟩)
          · have := findVclusterMode_of_secretFails unmarshalStrict kube st err h
            rw [hrun] at this
            simp only [Prod.mk.injEq, true_and] at this
            exact this
          · exact absurd hF0 (h e0)
      · intro _; rw [hrun]
      · intro h; rw [hrun] at h; simp at h
      · intro e spec h1 h2 _ _
        exfalso
        rcases hF0 with ⟨g1, g2⟩ | ⟨secret, g1, _⟩
        · rw [h1] at g1
          simp only [Except.error.injEq] at g1
          subst g1
          rw [h2] at g2; cases g2
        · rw [h1] at g1; cases g1
    · -- the secret leaves the mode to the workload
      have hF2 : ∀ e, ¬ SecretFails unmarshalStrict kube st.options e :=
        fun e h => hF ⟨e, h⟩
      have hrun := findVclusterMode_of_benign unmarshalStrict kube st hA hF2
      rcases workload_cases kube st.options with ⟨e0, hW⟩ | ⟨spec0, hW⟩
      · have hw := findModeFromWorkload_error kube st e0 hW
        have hnoW : ∀ spec, ¬ SyncerWorkload kube st.options spec := by
          intro spec hs
          have h1 := getSyncerPodSpec_ok kube st.options spec hs
          rw [getSyncerPodSpec_error kube st.options e0 hW] at h1
          cases h1
        refine ⟨?_, ?_, ?_, ?_⟩
        · intro err
          rw [hrun, hw]
          constructor
          · intro h
            simp only [Option.some.injEq] at h
            subst h
            exact Or.inr ⟨hA, hF2, hW⟩
          · rintro (h | ⟨_, _, h⟩)
            · exact absurd h (hF2 err)
            · have h1 := getSyncerPodSpec_error kube st.options err h
              rw [getSyncerPodSpec_error kube st.options e0 hW] at h1
              simp only [Except.error.injEq] at h1
              rw [h1]
        · intro _; rw [hrun, hw]
        · intro h; rw [hrun, hw] at h; simp at h
        · intro e spec _ _ hs _
          exact absurd hs (hnoW spec)
      · obtain ⟨wyes, wno⟩ := findModeFromWorkload_ok kube st spec0 hW
        have huniq : ∀ spec, SyncerWorkload kube st.options spec → spec = spec0 := by
          intro spec hs
          have h1 := getSyncerPodSpec_ok kube st.options spec hs
          rw [getSyncerPodSpec_ok kube st.options spec0 hW] at h1
          simp only [Except.ok.injEq] at h1
          exact h1.symm
        have hnone : (findVclusterModeAndSetDefaultTranslation unmarshalStrict kube st).2
            = none := by
          rw [hrun]
          by_cases hm : HasMarker spec0
          · rw [wyes hm]
          · rw [wno hm]
        refine ⟨?_, ?_, ?_, ?_⟩
        · intro err
          rw [hnone]
          constructor
          · intro h; simp at h
          · rintro (h | ⟨_, _, h⟩)
            · exact absurd h (hF2 err)
            · exfalso
              have h1 := getSyncerPodSpec_error kube st.options err h
              rw [getSyncerPodSpec_ok kube st.options spec0 hW] at h1
              cases h1
        · intro h; exact absurd hnone h
        · intro _
          by_cases hm : HasMarker spec0
          · rw [hrun, wyes hm]
            exact ⟨⟨fun _ => Or.inr ⟨spec0, hW, hm⟩, fun _ => rfl⟩,
              fun h => absurd (Or.inr ⟨spec0, hW, hm⟩) h⟩
          · rw [hrun, wno hm]
            refine ⟨⟨fun h => absurd h (setMultiNamespaceMode_ne_single st), ?_⟩, fun _ => rfl⟩
            rintro (h | ⟨spec, hs, hmk⟩)
            · exact absurd h hA
            · rw [huniq spec hs] at hmk
              exact absurd hmk hm
        · intro e spec _ _ hs hm
          rw [huniq spec hs] at hm
          rw [hrun, wno hm]

theorem findVclusterMode_spec_witness :
    ((findVclusterModeAndSetDefaultTranslation exampleUnmarshal exampleKube exampleModeState).2
        = none ∧
      SyncerWorkload exampleKube exampleModeState.options exampleDeployment ∧
      HasMarker exampleDeployment) ∧
    (findVclusterModeAndSetDefaultTranslation exampleUnmarshal exampleKube exampleModeState).1
      = setMultiNamespaceMode exampleModeState ∧
    (setMultiNamespaceMode exampleModeState).options.MultiNamespaceMode = true ∧
    (setMultiNamespaceMode exampleModeState).Default = Translator.multiNamespace "ns" ∧
    (findVclusterModeAndSetDefaultTranslation exampleUnmarshal exampleBrokenKube
      exampleModeState).2 = some (GoError.api "internal error") :=
  have hw : SyncerWorkload exampleKube exampleModeState.options exampleDeployment :=
    Or.inr ⟨GoError.notFound "vc", rfl, rfl, rfl⟩
  have hm : HasMarker exampleDeployment :=
    ⟨_, List.mem_singleton.2 rfl, rfl, "--multi-namespace-mode=true",
      List.mem_cons_of_mem _ (List.mem_singleton.2 rfl), "--".data, "=true".data, by decide⟩
  ⟨⟨by decide, hw, hm⟩,
   (((findVclusterMode_spec exampleUnmarshal exampleKube exampleModeState).2.2.1
      (by decide)).1).2 (Or.inr ⟨_, hw, hm⟩),
   by decide, by decide,
   ((findVclusterMode_spec exampleUnmarshal exampleBrokenKube exampleModeState).1
      (GoError.api "internal error")).2 (Or.inl (Or.inl ⟨rfl, rfl⟩))⟩

end Hostpaths
